import Mathlib

/-!
# Cache simulator (`csim.c`) and matrix transpose (`trans.c`):
shallow embedding and verified properties

The simulator of `src/csim.c` is embedded as pure functions over an explicit
cache state (namespace `Csim`); the transpose of `src/trans.c` is embedded in the
namespace `Trans`, with its own conventions stated there.

Modelling conventions.
* `mem_addr_t` (64-bit unsigned) is a `Nat`; the left shift is reduced modulo `2^64`.
  A shift whose count is outside `0 .. 63` is undefined in C and yields `none`.
* C `int` values (`used_count`, `valid`, the counters, `s`, `b`, `E`) are `Int` values in
  the range `-2^31 .. 2^31 - 1`. The increments of `used_count` and of the counters store
  their result reduced modulo `2^32` into that range (`wrap_int`), which is what the compiled
  program stores when the result overflows; the overflow itself is undefined in C.
* The shift `1 << par.s` that computes `num_sets` has the value `2 ^ par.s` for
  `par.s ≤ 30`. For `par.s ≥ 31` the result does not fit the `int` (undefined in C; the
  compiled program stores `INT_MIN` at `par.s = 31`): the model stores the wrapped value,
  which is not positive, so the allocation loop of `main` builds no set and every access
  is out of bounds.
* An array is a `List`; a read or write outside the allocated range yields `none`.
* The allocations of `main` succeed.
* The command line handling of `main` runs on a process state that records the printed
  lines and the exit status; the input is the sequence of results of `getopt`, with
  `atoi(optarg)` already applied.
* The `block` pointer of `set_line` is never read or written and is left out.
* `simulate` mutates the lines through the pointer held by `input_set`; the embedding
  returns the updated cache next to the updated parameter struct.
-/

namespace Csim

/-! ## The type `int` -/

/-- The largest value of a 32-bit `int`. -/
def INT_MAX : Int := 2147483647

/-- The smallest value of a 32-bit `int`. -/
def INT_MIN : Int := -2147483648

/-- The `int` value stored for the mathematical result `x`: `x` reduced modulo `2^32` into
the range `INT_MIN .. INT_MAX`. -/
def wrap_int (x : Int) : Int :=
  (x + 2147483648) % 4294967296 - 2147483648

/-- The C operations `x++` and `x + 1` on an `int`. -/
def int_succ (x : Int) : Int :=
  wrap_int (x + 1)

/-- The value `x` is an `int` below `INT_MAX`: incrementing it does not overflow. -/
def below_max (x : Int) : Prop :=
  INT_MIN ≤ x ∧ x < INT_MAX

instance (x : Int) : Decidable (below_max x) := by
  unfold below_max; infer_instance

/-! ## Data model -/

/-- The struct `cache_param_t`. Every field is an `int`. -/
structure cache_param_t where
  s : Int
  b : Int
  E : Int
  S : Int
  B : Int
  hit_count : Int
  miss_count : Int
  evict_count : Int
deriving DecidableEq, Repr

/-- The struct `set_line` (without the unused `block` pointer). The fields `used_count` and
`valid` are `int`s, the field `tag` is a 64-bit unsigned value. -/
structure set_line where
  used_count : Int
  valid : Int
  tag : Nat
deriving DecidableEq, Repr

/-- The struct `cache_set`: the array `lines`. -/
structure cache_set where
  lines : List set_line
deriving DecidableEq, Repr

/-- The struct `cache`: the array `sets`. -/
structure cache where
  sets : List cache_set
deriving DecidableEq, Repr

/-! ## Machine operations -/

/-- The C expression `x >> n` on a 64-bit unsigned `x`, defined for `0 ≤ n < 64`. -/
def shr64 (x : Nat) (n : Int) : Option Nat :=
  if 0 ≤ n ∧ n < 64 then some (x >>> n.toNat) else none

/-- The C expression `x << n` on a 64-bit unsigned `x`, defined for `0 ≤ n < 64`;
the bits shifted past bit 63 are lost. -/
def shl64 (x : Nat) (n : Int) : Option Nat :=
  if 0 ≤ n ∧ n < 64 then some ((x <<< n.toNat) % 2 ^ 64) else none

/-- The read `lines[i]` for an `int` index. -/
def read_line (lines : List set_line) (i : Int) : Option set_line :=
  if 0 ≤ i then lines[i.toNat]? else none

/-- The write `lines[i] = l` for an `int` index. -/
def write_line (lines : List set_line) (i : Int) (l : set_line) : Option (List set_line) :=
  if 0 ≤ i ∧ i.toNat < lines.length then some (lines.set i.toNat l) else none

/-! ## `find_empty_line` -/

/-- The `for` loop of `find_empty_line`, with `n` iterations left and loop variable `index`. -/
def find_empty_line_loop (input_set : cache_set) : Nat → Nat → Option Int
  | 0, _ => some (-1)
  | n + 1, index =>
    match input_set.lines[index]? with
    | none => none
    | some line =>
      if line.valid = 0 then some (index : Int)
      else find_empty_line_loop input_set n (index + 1)

/-- The function `find_empty_line`: `index` runs over `0 .. par.E - 1`. -/
def find_empty_line (input_set : cache_set) (par : cache_param_t) : Option Int :=
  find_empty_line_loop input_set par.E.toNat 0

/-! ## `find_least_line` -/

/-- The `for` loop of `find_least_line`, with `n` iterations left. The result is
`(least_used_index, least_used, most_used)`. -/
def find_least_line_loop (input_set : cache_set) :
    Nat → Nat → Int → Int → Int → Option (Int × Int × Int)
  | 0, _, most_used, least_used, least_used_index =>
    some (least_used_index, least_used, most_used)
  | n + 1, lineIndex, most_used, least_used, least_used_index =>
    match input_set.lines[lineIndex]? with
    | none => none
    | some line =>
      let least_used_index1 : Int :=
        if least_used > line.used_count then (lineIndex : Int) else least_used_index
      let least_used1 : Int :=
        if least_used > line.used_count then line.used_count else least_used
      let most_used1 : Int :=
        if most_used < line.used_count then line.used_count else most_used
      find_least_line_loop input_set n (lineIndex + 1) most_used1 least_used1 least_used_index1

/-- The function `find_least_line`. The result is the returned index together with the
two values written to `buffer_lines[0]` and `buffer_lines[1]`. `lineIndex` runs over
`1 .. par.E - 1`. -/
def find_least_line (input_set : cache_set) (par : cache_param_t) :
    Option (Int × Int × Int) :=
  match input_set.lines[0]? with
  | none => none
  | some line0 =>
    find_least_line_loop input_set (par.E - 1).toNat 1 line0.used_count line0.used_count 0

/-! ## `simulate` -/

/-- How the scan loop of `simulate` ends: by the early `return` at a hit on slot
`line_index`, or by running to the end with the final value of `count_full`. -/
inductive scan_result where
  | hit (line_index : Nat)
  | no_hit (count_full : Int)
deriving DecidableEq, Repr

/-- The scan loop of `simulate` (the `for` over `line_index`), with `n` iterations left. -/
def simulate_scan (input_set : cache_set) (input_tag : Nat) :
    Nat → Nat → Int → Option scan_result
  | 0, _, count_full => some (scan_result.no_hit count_full)
  | n + 1, line_index, count_full =>
    match input_set.lines[line_index]? with
    | none => none
    | some line =>
      if line.valid ≠ 0 then
        if line.tag = input_tag then some (scan_result.hit line_index)
        else simulate_scan input_set input_tag n (line_index + 1) count_full
      else if line.valid = 0 ∧ count_full ≠ 0 then
        simulate_scan input_set input_tag n (line_index + 1) 0
      else simulate_scan input_set input_tag n (line_index + 1) count_full

/-- The part of `simulate` that follows the fetch of `input_set`: the scan, and on a miss
the choice of the destination slot and the installation of the block. The result is the
new content of the array `input_set.lines` and the new parameter struct. -/
def simulate_set (input_set : cache_set) (par : cache_param_t) (input_tag : Nat) :
    Option (cache_set × cache_param_t) :=
  match simulate_scan input_set input_tag par.E.toNat 0 1 with
  | none => none
  | some (scan_result.hit line_index) =>
    match input_set.lines[line_index]? with
    | none => none
    | some line =>
      some (⟨input_set.lines.set line_index
              { line with used_count := int_succ line.used_count }⟩,
            { par with hit_count := int_succ par.hit_count })
  | some (scan_result.no_hit count_full) =>
    let par1 := { par with miss_count := int_succ par.miss_count }
    match find_least_line input_set par1 with
    | none => none
    | some (min_used_index, _, most_used) =>
      if count_full ≠ 0 then
        let par2 := { par1 with evict_count := int_succ par1.evict_count }
        match read_line input_set.lines min_used_index with
        | none => none
        | some line =>
          match write_line input_set.lines min_used_index
              { line with tag := input_tag, used_count := int_succ most_used } with
          | none => none
          | some lines1 => some (⟨lines1⟩, par2)
      else
        match find_empty_line input_set par1 with
        | none => none
        | some empty_index =>
          match read_line input_set.lines empty_index with
          | none => none
          | some line =>
            match write_line input_set.lines empty_index
                { line with tag := input_tag, valid := 1,
                            used_count := int_succ most_used } with
            | none => none
            | some lines1 => some (⟨lines1⟩, par1)

/-- The tag `trace_address >> (par.s + par.b)` computed by `simulate`. -/
def input_tag_of (par : cache_param_t) (trace_address : Nat) : Option Nat :=
  shr64 trace_address (par.s + par.b)

/-- The set index computed by `simulate`: with `tag_size = 64 - (par.s + par.b)`,
`temp = trace_address << tag_size` and `setIndex = temp >> (tag_size + par.b)`. -/
def setIndex_of (par : cache_param_t) (trace_address : Nat) : Option Nat :=
  let tag_size : Int := 64 - (par.s + par.b)
  match shl64 trace_address tag_size with
  | none => none
  | some temp => shr64 temp (tag_size + par.b)

/-- The function `simulate`: decode the address, fetch the set, run the access on it. -/
def simulate (cache_sim : cache) (par : cache_param_t) (trace_address : Nat) :
    Option (cache × cache_param_t) :=
  match input_tag_of par trace_address with
  | none => none
  | some input_tag =>
    match setIndex_of par trace_address with
    | none => none
    | some setIndex =>
      match cache_sim.sets[setIndex]? with
      | none => none
      | some input_set =>
        match simulate_set input_set par input_tag with
        | none => none
        | some (set1, par1) => some (⟨cache_sim.sets.set setIndex set1⟩, par1)

/-! ## The driver loop of `main` -/

/-- The three values stored by one successful `fscanf(fp, " %c %llx,%d", ...)`. -/
structure trace_event where
  trace_command : Char
  trace_address : Nat
  size : Int
deriving DecidableEq, Repr

/-- The value of `int num_sets = 1 << par.s` in `main`: `2 ^ s` for `s ≤ 30`; for larger `s`
the shift overflows the `int` and the stored value is not positive. -/
def num_sets (par : cache_param_t) : Int :=
  wrap_int (2 ^ par.s.toNat)

/-- The cache allocated and initialised by `main`: `num_sets` sets of `par.E` lines, each
with `used_count = 0`, `valid = 0`, `tag = 0`. The loop `for (a = 0; a < num_sets; a++)`
builds no set when `num_sets` is not positive. -/
def init_cache (par : cache_param_t) : cache :=
  ⟨List.replicate (num_sets par).toNat ⟨List.replicate par.E.toNat ⟨0, 0, 0⟩⟩⟩

/-- The parameter struct of `main` before the trace is run: the counters are zeroed. -/
def init_par (par : cache_param_t) : cache_param_t :=
  { par with hit_count := 0, miss_count := 0, evict_count := 0 }

/-- The `switch` on `trace_command` in the body of the driver loop. -/
def trace_step (cache_sim : cache) (par : cache_param_t) (ev : trace_event) :
    Option (cache × cache_param_t) :=
  if ev.trace_command = 'I' then some (cache_sim, par)
  else if ev.trace_command = 'L' then simulate cache_sim par ev.trace_address
  else if ev.trace_command = 'S' then simulate cache_sim par ev.trace_address
  else if ev.trace_command = 'M' then
    match simulate cache_sim par ev.trace_address with
    | none => none
    | some (cache1, par1) => simulate cache1 par1 ev.trace_address
  else some (cache_sim, par)

/-- The driver loop `while (fscanf(...) == 3)`. The input is the sequence of outcomes of
the successive `fscanf` calls: `some ev` when three items were converted, `none` when the
call returned anything else, which ends the loop like the end of the file does. -/
def run_trace (cache_sim : cache) (par : cache_param_t) :
    List (Option trace_event) → Option (cache × cache_param_t)
  | [] => some (cache_sim, par)
  | none :: _ => some (cache_sim, par)
  | some ev :: rest =>
    match trace_step cache_sim par ev with
    | none => none
    | some (cache1, par1) => run_trace cache1 par1 rest

/-- The number of simulated accesses of a trace event: one for `L` and `S`, two for `M`,
none for `I` and for any other kind. -/
def access_count (ev : trace_event) : Int :=
  if ev.trace_command = 'L' ∨ ev.trace_command = 'S' then 1
  else if ev.trace_command = 'M' then 2
  else 0

/-- The shape of a cache allocated for `par`: `2 ^ par.s` sets of `par.E` lines each. -/
def cache_wf (cache_sim : cache) (par : cache_param_t) : Prop :=
  cache_sim.sets.length = 2 ^ par.s.toNat ∧
    ∀ set ∈ cache_sim.sets, (set.lines.length : Int) = par.E

/-- The configurations accepted by the claims: `s > 0`, `b > 0`, `s + b < 64`, `E ≥ 1`. -/
def config_ok (par : cache_param_t) : Prop :=
  0 < par.s ∧ 0 < par.b ∧ par.s + par.b < 64 ∧ 1 ≤ par.E

instance (cache_sim : cache) (par : cache_param_t) : Decidable (cache_wf cache_sim par) := by
  unfold cache_wf; infer_instance

instance (par : cache_param_t) : Decidable (config_ok par) := by
  unfold config_ok; infer_instance

/-- Among the slots `0 .. m - 1` of `lines`, slot `r` holds the minimum `used_count`, which
is `lo`, no slot before `r` holds it, and the maximum `used_count` is `hi`. -/
def least_line_post (lines : List set_line) (m : Nat) (r lo hi : Int) : Prop :=
  ∃ (k : Nat) (l : set_line), r = (k : Int) ∧ k < m ∧ lines[k]? = some l ∧ l.used_count = lo ∧
    (∀ j l1, j < m → lines[j]? = some l1 → lo ≤ l1.used_count) ∧
    (∀ j l1, j < k → lines[j]? = some l1 → lo < l1.used_count) ∧
    (∀ j l1, j < m → lines[j]? = some l1 → l1.used_count ≤ hi) ∧
    (∃ j l1, j < m ∧ lines[j]? = some l1 ∧ l1.used_count = hi)

/-- The addresses of the simulated accesses of one trace event, in order: the address once
for `L` and `S`, twice for `M`, none for `I` and for any other kind. -/
def event_accesses (ev : trace_event) : List Nat :=
  if ev.trace_command = 'L' ∨ ev.trace_command = 'S' then [ev.trace_address]
  else if ev.trace_command = 'M' then [ev.trace_address, ev.trace_address]
  else []

/-- The number of simulated accesses of one outcome of `fscanf` in the driver loop: those of
the event when three items were converted, none otherwise. -/
def outcome_accesses (e : Option trace_event) : Int :=
  match e with
  | none => 0
  | some ev => access_count ev

/-- The addresses of the simulated accesses of a trace, in order. -/
def trace_accesses (trace : List trace_event) : List Nat :=
  trace.flatMap event_accesses

/-- The addresses among `accesses` that `simulate` maps to the set `si`. -/
def addrs_of_set (cfg : cache_param_t) (accesses : List Nat) (si : Nat) : List Nat :=
  accesses.filter (fun a => setIndex_of cfg a = some si)

/-- The tags, as computed by `simulate`, of the addresses among `accesses` that map to the
set `si`. -/
def tags_of_set (cfg : cache_param_t) (accesses : List Nat) (si : Nat) : List (Option Nat) :=
  (addrs_of_set cfg accesses si).map (input_tag_of cfg)

/-- The parameter struct `par` has the geometry `s`, `b`, `E` of `cfg`. -/
def same_cfg (cfg par : cache_param_t) : Prop :=
  par.s = cfg.s ∧ par.b = cfg.b ∧ par.E = cfg.E

/-- The valid lines of the set `si` hold pairwise distinct tags, and each of these tags is the
tag of one of the addresses of `accesses` that map to the set `si`. -/
def set_inv (cfg : cache_param_t) (accesses : List Nat) (si : Nat) (set : cache_set) : Prop :=
  (∀ (i j : Nat) (li lj : set_line), set.lines[i]? = some li → set.lines[j]? = some lj →
    li.valid ≠ 0 → lj.valid ≠ 0 → li.tag = lj.tag → i = j) ∧
  (∀ (i : Nat) (li : set_line), set.lines[i]? = some li → li.valid ≠ 0 →
    ∃ a ∈ accesses, setIndex_of cfg a = some si ∧ input_tag_of cfg a = some li.tag)

/-- Every set of the cache satisfies `set_inv`. -/
def cache_inv (cfg : cache_param_t) (accesses : List Nat) (cache_sim : cache) : Prop :=
  ∀ (si : Nat) (set : cache_set), cache_sim.sets[si]? = some set → set_inv cfg accesses si set

/-! ## Concrete inputs used to instantiate the theorems -/

/-- The configuration `s = 1`, `b = 1`, `E = 2` with zeroed counters. -/
def demo_par : cache_param_t := ⟨1, 1, 2, 0, 0, 0, 0, 0⟩

/-- A cache for `demo_par` whose set 0 holds one block (tag 5) and has one invalid line. -/
def demo_cache : cache := ⟨[⟨[⟨1, 1, 5⟩, ⟨0, 0, 0⟩]⟩, ⟨[⟨0, 0, 0⟩, ⟨0, 0, 0⟩]⟩]⟩

/-- A cache for `demo_par` whose set 0 is full: tags 5 and 6, both with `used_count` 2. -/
def demo_cache_full : cache := ⟨[⟨[⟨2, 1, 5⟩, ⟨2, 1, 6⟩]⟩, ⟨[⟨0, 0, 0⟩, ⟨0, 0, 0⟩]⟩]⟩

/-- A cache for `demo_par` whose set 0 is full and holds a line with `used_count` at
`INT_MAX`: tag 5 with `used_count` 2147483647 and tag 6 with `used_count` 2. -/
def demo_cache_max : cache :=
  ⟨[⟨[⟨2147483647, 1, 5⟩, ⟨2, 1, 6⟩]⟩, ⟨[⟨0, 0, 0⟩, ⟨0, 0, 0⟩]⟩]⟩

/-- The configuration `s = 31`, `b = 1`, `E = 1` with zeroed counters: `1 << 31` overflows the
`int` that holds the number of sets. -/
def par_s31 : cache_param_t := ⟨31, 1, 1, 0, 0, 0, 0, 0⟩

/-- The trace event `L a,1`. -/
def load (a : Nat) : trace_event := ⟨'L', a, 1⟩

/-- A sequence of `simulate` calls on the addresses of a list, each call on the cache and the
parameter struct the previous call left. -/
def simulate_all (cache_sim : cache) (par : cache_param_t) :
    List Nat → Option (cache × cache_param_t)
  | [] => some (cache_sim, par)
  | a :: rest =>
    match simulate cache_sim par a with
    | none => none
    | some (cache1, par1) => simulate_all cache1 par1 rest

/-- The valid lines of the set occupy its first slots: a valid slot has only valid slots
before it. -/
def valid_slots_first (set : cache_set) : Prop :=
  ∀ (i j : Nat) (li lj : set_line), j < i → set.lines[i]? = some li →
    set.lines[j]? = some lj → li.valid ≠ 0 → lj.valid ≠ 0

/-- The valid lines of the set hold pairwise distinct tags. -/
def valid_tags_distinct (set : cache_set) : Prop :=
  ∀ (i j : Nat) (li lj : set_line), set.lines[i]? = some li → set.lines[j]? = some lj →
    li.valid ≠ 0 → lj.valid ≠ 0 → li.tag = lj.tag → i = j

/-- The configuration `s = 1`, `b = 1`, `E = 1` with zeroed counters. -/
def direct_par : cache_param_t := ⟨1, 1, 1, 0, 0, 0, 0, 0⟩

/-! ## The command line handling of `main` -/

/-- The state of the process as far as the claims need it: the lines printed so far and, once
`exit` has been called, its status. After `exit` nothing else runs. -/
structure process where
  stdout : List String
  exit_status : Option Int
deriving DecidableEq, Repr

/-- The library call `exit(status)`. -/
def c_exit (status : Int) (p : process) : process :=
  match p.exit_status with
  | some _ => p
  | none => { p with exit_status := some status }

/-- One `printf` call; the printed text is recorded without its newline characters. -/
def printf (line : String) (p : process) : process :=
  match p.exit_status with
  | some _ => p
  | none => { p with stdout := p.stdout ++ [line] }

/-- The function `printUsage`: eleven `printf` calls, then `exit(0)`. -/
def printUsage (argv0 : String) (p : process) : process :=
  c_exit 0
    (printf ("  " ++ argv0 ++ " -v -s 8 -E 2 -b 4 -t traces/yi.trace")
    (printf ("  " ++ argv0 ++ " -s 4 -E 1 -b 4 -t traces/yi.trace")
    (printf ("Examples:")
    (printf ("  -t <file>  Trace file.")
    (printf ("  -b <num>   Number of block offset bits.")
    (printf ("  -E <num>   Number of lines per set.")
    (printf ("  -s <num>   Number of set index bits.")
    (printf ("  -v         Optional verbose flag.")
    (printf ("  -h         Print this help message.")
    (printf ("Options:")
    (printf ("Usage: " ++ argv0 ++ " [-hv] -s <num> -E <num> -b <num> -t <file>") p)))))))))))

/-- One result of `getopt(argc, argv, "s:E:b:t:vh")`: the option character, with
`atoi(optarg)` for `s`, `E`, `b` and `optarg` for `t`; `opt_other` is any other result
(`'?'`). -/
inductive getopt_result where
  | opt_s (n : Int)
  | opt_E (n : Int)
  | opt_b (n : Int)
  | opt_t (file : String)
  | opt_v
  | opt_h
  | opt_other
deriving DecidableEq, Repr

/-- The variables of `main` that the command line handling touches, the global `verbosity`
and the process state. `trace_file = none` stands for the null pointer. -/
structure main_state where
  par : cache_param_t
  trace_file : Option String
  verbosity : Int
  proc : process
deriving DecidableEq, Repr

/-- The `while` loop of `main` over the results of `getopt`, with its `switch`. The `h` case
and the `default` case call `printUsage` and then `exit`. -/
def main_getopt (argv0 : String) (st : main_state) : List getopt_result → main_state
  | [] => st
  | o :: rest =>
    match o with
    | getopt_result.opt_s n => main_getopt argv0 { st with par := { st.par with s := n } } rest
    | getopt_result.opt_E n => main_getopt argv0 { st with par := { st.par with E := n } } rest
    | getopt_result.opt_b n => main_getopt argv0 { st with par := { st.par with b := n } } rest
    | getopt_result.opt_t file => main_getopt argv0 { st with trace_file := some file } rest
    | getopt_result.opt_v => main_getopt argv0 { st with verbosity := 1 } rest
    | getopt_result.opt_h => { st with proc := c_exit 0 (printUsage argv0 st.proc) }
    | getopt_result.opt_other => { st with proc := c_exit 1 (printUsage argv0 st.proc) }

/-- The test of `main` for a missing argument: `printf`, `printUsage(argv)`, `exit(1)`. -/
def main_check (argv0 : String) (st : main_state) : main_state :=
  if st.par.s = 0 ∨ st.par.E = 0 ∨ st.par.b = 0 ∨ st.trace_file = none then
    { st with proc := c_exit 1 (printUsage argv0
        (printf (argv0 ++ ": Missing required command line argument") st.proc)) }
  else st

/-- The beginning of `main`, up to the point where the cache is allocated: `bzero` of `par`,
the `getopt` loop and the test for a missing argument. The local `trace_file` has no
initialiser, so its content before the loop, `trace_file0`, is an input of the model. -/
def main_start (argv0 : String) (trace_file0 : Option String)
    (opts : List getopt_result) : main_state :=
  let st1 := main_getopt argv0 ⟨⟨0, 0, 0, 0, 0, 0, 0, 0⟩, trace_file0, 0, ⟨[], none⟩⟩ opts
  match st1.proc.exit_status with
  | some _ => st1
  | none => main_check argv0 st1

end Csim

namespace Trans

/-!
# Matrix transpose (`trans.c`): shallow embedding

Modelling conventions.
* The `int` dimensions and loop variables, which never become negative, are `Nat`; the
  matrix entries are `Int`.
* A two-dimensional array is the list of its rows; a read or write outside the array yields
  `none`.
* `A` and `B` are separate arrays: both are part of the state, and only `B` is written.
* A `for` loop is run with a bound on the number of iterations (the fuel); a loop that needs
  more yields `none`.
* The three loop nests of `transpose_submit` differ only in the block size, the bounds of the
  two outer loops and the conditions of the two inner loops; `trans_blocks` is the nest with
  these as parameters.
-/


/-- A two-dimensional `int` array: the list of its rows. -/
structure matrix where
  data : List (List Int)
deriving DecidableEq, Repr

/-- The lengths of the rows of the array. An array `X[rows][cols]` has the shape
`List.replicate rows cols`. -/
def matrix.shape (X : matrix) : List Nat :=
  X.data.map List.length

/-- The read `X[r][c]`. -/
def matrix.read (X : matrix) (r c : Nat) : Option Int :=
  match X.data[r]? with
  | none => none
  | some row => row[c]?

/-- The write `X[r][c] = v`. -/
def matrix.write (X : matrix) (r c : Nat) (v : Int) : Option matrix :=
  match X.data[r]? with
  | none => none
  | some row => if c < row.length then some ⟨X.data.set r (row.set c v)⟩ else none

/-- The entry `X[r][c]`, with 0 standing for an entry outside the array. -/
def matrix.elem (X : matrix) (r c : Nat) : Int :=
  (X.read r c).getD 0

/-- The arrays `A`, `B` and the locals `temp`, `diag` of `transpose_submit`. -/
structure trans_state where
  A : matrix
  B : matrix
  temp : Int
  diag : Nat

/-- The loop `for (x = x0; cond(x); x += step) body`, started at `x` with `fuel` bounding
the number of evaluations of the condition. -/
def for_loop {σ : Type} (cond : Nat → Bool) (step : Nat) (body : Nat → σ → Option σ) :
    Nat → Nat → σ → Option σ
  | 0, _, _ => none
  | fuel + 1, x, st =>
    if cond x then
      match body x st with
      | none => none
      | some st1 => for_loop cond step body fuel (x + step) st1
    else some st

/-- The body of the innermost loop: `if (i != j) B[j][i] = A[i][j]; else { temp = A[i][j];
diag = i; }`. -/
def body_j (i j : Nat) (st : trans_state) : Option trans_state :=
  if i ≠ j then
    match st.A.read i j with
    | none => none
    | some v =>
      match st.B.write j i v with
      | none => none
      | some B1 => some { st with B := B1 }
  else
    match st.A.read i j with
    | none => none
    | some v => some { st with temp := v, diag := i }

/-- The body of the loop over `i`: the loop over `j`, then
`if (block_row == block_col) B[diag][diag] = temp;`. -/
def body_i (bs : Nat) (jcond : Nat → Nat → Bool) (block_row block_col i : Nat)
    (st : trans_state) : Option trans_state :=
  match for_loop (jcond block_col) 1 (body_j i) (bs + 1) block_col st with
  | none => none
  | some st1 =>
    if block_row = block_col then
      match st1.B.write st1.diag st1.diag st1.temp with
      | none => none
      | some B1 => some { st1 with B := B1 }
    else some st1

/-- One loop nest of `transpose_submit`: `block_col` runs from 0 in steps of `bs` while
`block_col < cstop`, `block_row` from 0 in steps of `bs` while `block_row < rstop`, `i` from
`block_row` while `icond block_row i`, `j` from `block_col` while `jcond block_col j`. -/
def trans_blocks (bs cstop rstop : Nat) (icond jcond : Nat → Nat → Bool)
    (st : trans_state) : Option trans_state :=
  for_loop (fun block_col => decide (block_col < cstop)) bs
    (fun block_col st1 =>
      for_loop (fun block_row => decide (block_row < rstop)) bs
        (fun block_row st2 =>
          for_loop (icond block_row) 1 (body_i bs jcond block_row block_col) (bs + 1)
            block_row st2)
        (rstop + 1) 0 st1)
    (cstop + 1) 0 st

/-- The function `transpose_submit`: the three cases `M == 32`, `M == 64` and
`M == 61 && N == 67`, tested one after the other. -/
def transpose_submit (M N : Nat) (st : trans_state) : Option trans_state :=
  match (if M = 32 then
      trans_blocks 8 N N (fun block_row i => decide (i < block_row + 8))
        (fun block_col j => decide (j < block_col + 8)) st
    else some st) with
  | none => none
  | some st1 =>
    match (if M = 64 then
        trans_blocks 4 N N (fun block_row i => decide (i < block_row + 4))
          (fun block_col j => decide (j < block_col + 4)) st1
      else some st1) with
    | none => none
    | some st2 =>
      if M = 61 ∧ N = 67 then
        trans_blocks 16 M N (fun block_row i => decide (i < block_row + 16) && decide (i < N))
          (fun block_col j => decide (j < block_col + 16) && decide (j < M)) st2
      else some st2

/-- The inner loop of `is_transpose` over `j`, with `n` iterations left: `some (some 0)` is
the early `return 0`, `some none` the end of the loop. -/
def is_transpose_inner (A B : matrix) (i : Nat) : Nat → Nat → Option (Option Int)
  | 0, _ => some none
  | n + 1, j =>
    match A.read i j, B.read j i with
    | some x, some y =>
      if x ≠ y then some (some 0) else is_transpose_inner A B i n (j + 1)
    | _, _ => none

/-- The outer loop of `is_transpose` over `i`, with `n` iterations left, and the final
`return 1`. -/
def is_transpose_outer (M : Nat) (A B : matrix) : Nat → Nat → Option Int
  | 0, _ => some 1
  | n + 1, i =>
    match is_transpose_inner A B i M 0 with
    | none => none
    | some (some v) => some v
    | some none => is_transpose_outer M A B n (i + 1)

/-- The function `is_transpose`. -/
def is_transpose (M N : Nat) (A B : matrix) : Option Int :=
  is_transpose_outer M A B N 0

/-- The entry `B[r][c]` is the entry `A[c][r]`. -/
def ok (st : trans_state) (r c : Nat) : Prop :=
  st.B.elem r c = st.A.elem c r

/-- From `st0` to `st` the array `A` and the shape of `B` are unchanged, and every entry of
`B` that was the transposed entry of `A` still is. -/
def frame (st0 st : trans_state) : Prop :=
  st.A = st0.A ∧ st.B.shape = st0.B.shape ∧ ∀ r c : Nat, ok st0 r c → ok st r c

/-- The locals `temp` and `diag` hold a diagonal entry of `A` and its index, which is an
index of `B[M][N]`. -/
def diag_ready (M N : Nat) (st : trans_state) : Prop :=
  st.temp = st.A.elem st.diag st.diag ∧ st.diag < M ∧ st.diag < N

/-- The shapes `A[N][M]` and `B[M][N]` of the arrays of the state. -/
def dims (M N : Nat) (st : trans_state) : Prop :=
  st.A.shape = List.replicate N M ∧ st.B.shape = List.replicate M N

/-- The array with `rows` rows and `cols` columns whose entry `[r][c]` is `100 * r + c`. -/
def demo_matrix (rows cols : Nat) : matrix :=
  ⟨(List.range rows).map (fun r => (List.range cols).map (fun c => 100 * (r : Int) + (c : Int)))⟩

/-- The array with `rows` rows and `cols` columns whose entries are all 0. -/
def zero_matrix (rows cols : Nat) : matrix :=
  ⟨List.replicate rows (List.replicate cols 0)⟩

end Trans

namespace Csim

/-! ## The type `int` -/

theorem int_succ_eq (x : Int) (h : below_max x) : int_succ x = x + 1 := by
  unfold below_max INT_MIN INT_MAX at h
  unfold int_succ wrap_int
  omega

theorem below_max_lt_succ (x : Int) (h : below_max x) : x < int_succ x := by
  rw [int_succ_eq x h]
  omega

theorem int_succ_ne (x : Int) : int_succ x ≠ x := by
  unfold int_succ wrap_int
  omega

theorem int_succ_zero : int_succ 0 = 1 := by decide

theorem int_succ_one : int_succ 1 = 2 := by decide

theorem int_succ_two : int_succ 2 = 3 := by decide

theorem num_sets_eq (par : cache_param_t) (h0 : 0 ≤ par.s) (h30 : par.s ≤ 30) :
    num_sets par = 2 ^ par.s.toNat := by
  have hle : (2 : Int) ^ par.s.toNat ≤ 2 ^ 30 :=
    pow_le_pow_right₀ (by norm_num) (by omega)
  have hpos : (0 : Int) < 2 ^ par.s.toNat := by positivity
  have h230 : (2 : Int) ^ 30 = 1073741824 := by norm_num
  unfold num_sets wrap_int
  omega

/-! ## Loop lemmas -/

theorem find_empty_line_loop_spec (input_set : cache_set) :
    ∀ (n index : Nat), index + n ≤ input_set.lines.length →
    (find_empty_line_loop input_set n index = some (-1) ∧
        ∀ j l, index ≤ j → j < index + n → input_set.lines[j]? = some l → l.valid ≠ 0) ∨
    (∃ (k : Nat) (l : set_line), find_empty_line_loop input_set n index = some (k : Int) ∧
        index ≤ k ∧ k < index + n ∧ input_set.lines[k]? = some l ∧ l.valid = 0 ∧
        ∀ j l1, index ≤ j → j < k → input_set.lines[j]? = some l1 → l1.valid ≠ 0) := by
  intro n
  induction n with
  | zero =>
    intro index _
    left
    exact ⟨rfl, fun j l h1 h2 => by omega⟩
  | succ n ih =>
    intro index h
    have hlt : index < input_set.lines.length := by omega
    have hget : input_set.lines[index]? = some (input_set.lines[index]) :=
      List.getElem?_eq_getElem hlt
    by_cases hv : (input_set.lines[index]).valid = 0
    · right
      refine ⟨index, _, ?_, le_refl _, by omega, hget, hv, fun j l1 h1 h2 => by omega⟩
      simp [find_empty_line_loop, hget, hv]
    · rcases ih (index + 1) (by omega) with ⟨hr, hall⟩ | ⟨k, l, hr, hk1, hk2, hkl, hkv, hbefore⟩
      · left
        refine ⟨by simp [find_empty_line_loop, hget, hv, hr], ?_⟩
        intro j l h1 h2 hj
        by_cases hji : j = index
        · rw [hji, hget] at hj
          cases hj
          exact hv
        · exact hall j l (by omega) (by omega) hj
      · right
        refine ⟨k, l, by simp [find_empty_line_loop, hget, hv, hr], by omega, by omega, hkl, hkv, ?_⟩
        intro j l1 h1 h2 hj
        by_cases hji : j = index
        · rw [hji, hget] at hj
          cases hj
          exact hv
        · exact hbefore j l1 (by omega) h2 hj

theorem simulate_scan_spec (input_set : cache_set) (input_tag : Nat) :
    ∀ (n index : Nat) (count_full : Int), index + n ≤ input_set.lines.length →
    (∃ (k : Nat) (l : set_line),
        simulate_scan input_set input_tag n index count_full = some (scan_result.hit k) ∧
        index ≤ k ∧ k < index + n ∧ input_set.lines[k]? = some l ∧ l.valid ≠ 0 ∧
        l.tag = input_tag ∧
        ∀ j l1, index ≤ j → j < k → input_set.lines[j]? = some l1 →
          ¬ (l1.valid ≠ 0 ∧ l1.tag = input_tag)) ∨
    (∃ cf : Int,
        simulate_scan input_set input_tag n index count_full = some (scan_result.no_hit cf) ∧
        (∀ j l, index ≤ j → j < index + n → input_set.lines[j]? = some l →
          ¬ (l.valid ≠ 0 ∧ l.tag = input_tag)) ∧
        ((cf = count_full ∧
            ∀ j l, index ≤ j → j < index + n → input_set.lines[j]? = some l → l.valid ≠ 0) ∨
         (cf = 0 ∧ ∃ j l, index ≤ j ∧ j < index + n ∧ input_set.lines[j]? = some l ∧
            l.valid = 0))) := by
  intro n
  induction n with
  | zero =>
    intro index count_full _
    right
    exact ⟨count_full, rfl, fun j l h1 h2 => by omega, Or.inl ⟨rfl, fun j l h1 h2 => by omega⟩⟩
  | succ n ih =>
    intro index count_full h
    have hlt : index < input_set.lines.length := by omega
    have hget : input_set.lines[index]? = some (input_set.lines[index]) :=
      List.getElem?_eq_getElem hlt
    by_cases hv : (input_set.lines[index]).valid = 0
    · -- an invalid line: `count_full` is cleared
      have hstep : simulate_scan input_set input_tag (n + 1) index count_full =
          simulate_scan input_set input_tag n (index + 1) 0 := by
        by_cases hc : count_full = 0
        · simp [simulate_scan, hget, hv, hc]
        · simp [simulate_scan, hget, hv, hc]
      rw [hstep]
      rcases ih (index + 1) 0 (by omega) with
        ⟨k, l, hr, hk1, hk2, hkl, hkv, hkt, hbefore⟩ | ⟨cf, hr, hnone, hcf⟩
      · left
        refine ⟨k, l, hr, by omega, by omega, hkl, hkv, hkt, ?_⟩
        intro j l1 h1 h2 hj
        by_cases hji : j = index
        · rw [hji, hget] at hj
          cases hj
          exact fun hh => hh.1 hv
        · exact hbefore j l1 (by omega) h2 hj
      · right
        refine ⟨cf, hr, ?_, Or.inr ⟨?_, index, _, le_refl _, by omega, hget, hv⟩⟩
        · intro j l h1 h2 hj
          by_cases hji : j = index
          · rw [hji, hget] at hj
            cases hj
            exact fun hh => hh.1 hv
          · exact hnone j l (by omega) (by omega) hj
        · rcases hcf with ⟨hc, _⟩ | ⟨hc, _⟩
          · exact hc
          · exact hc
    · by_cases ht : (input_set.lines[index]).tag = input_tag
      · left
        refine ⟨index, _, by simp [simulate_scan, hget, hv, ht], le_refl _, by omega, hget, hv, ht,
          fun j l1 h1 h2 => by omega⟩
      · have hstep : simulate_scan input_set input_tag (n + 1) index count_full =
            simulate_scan input_set input_tag n (index + 1) count_full := by
          simp [simulate_scan, hget, hv, ht]
        rw [hstep]
        rcases ih (index + 1) count_full (by omega) with
          ⟨k, l, hr, hk1, hk2, hkl, hkv, hkt, hbefore⟩ | ⟨cf, hr, hnone, hcf⟩
        · left
          refine ⟨k, l, hr, by omega, by omega, hkl, hkv, hkt, ?_⟩
          intro j l1 h1 h2 hj
          by_cases hji : j = index
          · rw [hji, hget] at hj
            cases hj
            exact fun hh => ht hh.2
          · exact hbefore j l1 (by omega) h2 hj
        · right
          refine ⟨cf, hr, ?_, ?_⟩
          · intro j l h1 h2 hj
            by_cases hji : j = index
            · rw [hji, hget] at hj
              cases hj
              exact fun hh => ht hh.2
            · exact hnone j l (by omega) (by omega) hj
          · rcases hcf with ⟨hc, hall⟩ | ⟨hc, j, l, h1, h2, hj, hjv⟩
            · left
              refine ⟨hc, ?_⟩
              intro j l h1 h2 hj
              by_cases hji : j = index
              · rw [hji, hget] at hj
                cases hj
                exact hv
              · exact hall j l (by omega) (by omega) hj
            · right
              exact ⟨hc, j, l, by omega, by omega, hj, hjv⟩

theorem find_least_line_loop_spec (input_set : cache_set) :
    ∀ (n index : Nat) (most_used least_used least_used_index : Int),
    index + n ≤ input_set.lines.length →
    least_line_post input_set.lines index least_used_index least_used most_used →
    ∃ r lo hi, find_least_line_loop input_set n index most_used least_used least_used_index =
        some (r, lo, hi) ∧ least_line_post input_set.lines (index + n) r lo hi := by
  intro n
  induction n with
  | zero =>
    intro index mu lu lui _ hinv
    exact ⟨lui, lu, mu, rfl, hinv⟩
  | succ n ih =>
    intro index mu lu lui h hinv
    have hlt : index < input_set.lines.length := by omega
    have hget : input_set.lines[index]? = some (input_set.lines[index]) :=
      List.getElem?_eq_getElem hlt
    obtain ⟨k, l, hk, hkm, hkl, hlu, hmin, hfirst, hmax, j0, l0, hj0, hj0l, hj0u⟩ := hinv
    have hstep : find_least_line_loop input_set (n + 1) index mu lu lui =
        find_least_line_loop input_set n (index + 1)
          (if mu < (input_set.lines[index]).used_count then (input_set.lines[index]).used_count
            else mu)
          (if lu > (input_set.lines[index]).used_count then (input_set.lines[index]).used_count
            else lu)
          (if lu > (input_set.lines[index]).used_count then (index : Int) else lui) := by
      simp [find_least_line_loop, hget]
    rw [hstep]
    have hinv1 : least_line_post input_set.lines (index + 1)
        (if lu > (input_set.lines[index]).used_count then (index : Int) else lui)
        (if lu > (input_set.lines[index]).used_count then (input_set.lines[index]).used_count
            else lu)
        (if mu < (input_set.lines[index]).used_count then (input_set.lines[index]).used_count
            else mu) := by
      have hmaxpart : (∀ j l1, j < index + 1 → input_set.lines[j]? = some l1 → l1.used_count ≤
            (if mu < (input_set.lines[index]).used_count then (input_set.lines[index]).used_count
              else mu)) ∧
          (∃ j l1, j < index + 1 ∧ input_set.lines[j]? = some l1 ∧ l1.used_count =
            (if mu < (input_set.lines[index]).used_count then (input_set.lines[index]).used_count
              else mu)) := by
        by_cases hc : mu < (input_set.lines[index]).used_count
        · rw [if_pos hc]
          refine ⟨?_, index, _, by omega, hget, rfl⟩
          intro j l1 hj hjl
          by_cases hji : j = index
          · rw [hji, hget] at hjl
            cases hjl
            exact le_refl _
          · have := hmax j l1 (by omega) hjl
            omega
        · rw [if_neg hc]
          refine ⟨?_, j0, l0, by omega, hj0l, hj0u⟩
          intro j l1 hj hjl
          by_cases hji : j = index
          · rw [hji, hget] at hjl
            cases hjl
            omega
          · exact hmax j l1 (by omega) hjl
      by_cases hc : lu > (input_set.lines[index]).used_count
      · rw [if_pos hc, if_pos hc]
        refine ⟨index, _, rfl, by omega, hget, rfl, ?_, ?_, hmaxpart.1, hmaxpart.2⟩
        · intro j l1 hj hjl
          by_cases hji : j = index
          · rw [hji, hget] at hjl
            cases hjl
            exact le_refl _
          · have := hmin j l1 (by omega) hjl
            omega
        · intro j l1 hj hjl
          have := hmin j l1 (by omega) hjl
          omega
      · rw [if_neg hc, if_neg hc]
        refine ⟨k, l, hk, by omega, hkl, hlu, ?_, hfirst, hmaxpart.1, hmaxpart.2⟩
        intro j l1 hj hjl
        by_cases hji : j = index
        · rw [hji, hget] at hjl
          cases hjl
          omega
        · exact hmin j l1 (by omega) hjl
    obtain ⟨r, lo, hi, hr, hpost⟩ := ih (index + 1) _ _ _ (by omega) hinv1
    exact ⟨r, lo, hi, hr, by rw [show index + (n + 1) = index + 1 + n by omega]; exact hpost⟩

theorem find_least_line_spec (input_set : cache_set) (par : cache_param_t)
    (hE : 1 ≤ par.E) (hlen : (input_set.lines.length : Int) = par.E) :
    ∃ r lo hi, find_least_line input_set par = some (r, lo, hi) ∧
      least_line_post input_set.lines par.E.toNat r lo hi := by
  have hlt : 0 < input_set.lines.length := by omega
  have hget : input_set.lines[0]? = some (input_set.lines[0]) := List.getElem?_eq_getElem hlt
  have hinv : least_line_post input_set.lines 1 0 (input_set.lines[0]).used_count
      (input_set.lines[0]).used_count := by
    refine ⟨0, _, rfl, by omega, hget, rfl, ?_, ?_, ?_, 0, _, by omega, hget, rfl⟩
    · intro j l1 hj hjl
      have hj0 : j = 0 := by omega
      rw [hj0, hget] at hjl
      cases hjl
      exact le_refl _
    · intro j l1 hj
      omega
    · intro j l1 hj hjl
      have hj0 : j = 0 := by omega
      rw [hj0, hget] at hjl
      cases hjl
      exact le_refl _
  obtain ⟨r, lo, hi, hr, hpost⟩ := find_least_line_loop_spec input_set (par.E - 1).toNat 1 _ _ _
    (by omega) hinv
  refine ⟨r, lo, hi, ?_, ?_⟩
  · simp only [find_least_line, hget]
    exact hr
  · have : 1 + (par.E - 1).toNat = par.E.toNat := by omega
    rw [this] at hpost
    exact hpost

theorem find_empty_line_spec (input_set : cache_set) (par : cache_param_t)
    (hlen : (input_set.lines.length : Int) = par.E) :
    (find_empty_line input_set par = some (-1) ∧
        ∀ (j : Nat) (l : set_line), input_set.lines[j]? = some l → l.valid ≠ 0) ∨
    (∃ (k : Nat) (l : set_line), find_empty_line input_set par = some (k : Int) ∧
        (k : Int) < par.E ∧ input_set.lines[k]? = some l ∧ l.valid = 0 ∧
        ∀ j l1, j < k → input_set.lines[j]? = some l1 → l1.valid ≠ 0) := by
  rcases find_empty_line_loop_spec input_set par.E.toNat 0 (by omega) with
    ⟨hr, hall⟩ | ⟨k, l, hr, _, hk2, hkl, hkv, hbefore⟩
  · left
    refine ⟨hr, ?_⟩
    intro j l hj
    have hjlt : j < input_set.lines.length := (List.getElem?_eq_some_iff.mp hj).1
    exact hall j l (by omega) (by omega) hj
  · right
    exact ⟨k, l, hr, by omega, hkl, hkv, fun j l1 hj hjl => hbefore j l1 (by omega) hj hjl⟩

theorem read_line_nat (lines : List set_line) (k : Nat) :
    read_line lines (k : Int) = lines[k]? := by
  simp [read_line]

theorem write_line_nat (lines : List set_line) (k : Nat) (l : set_line)
    (hk : k < lines.length) : write_line lines (k : Int) l = some (lines.set k l) := by
  simp [write_line, hk]

/-- The three ways one access to a set of `par.E` lines can go: a hit on the first valid
line holding the tag; a miss installed in the first invalid line; a miss on a set whose
lines are all valid, installed over the first line of minimum `used_count`. -/
theorem simulate_set_cases (input_set : cache_set) (par : cache_param_t) (input_tag : Nat)
    (hE : 1 ≤ par.E) (hlen : (input_set.lines.length : Int) = par.E) :
    (∃ (k : Nat) (l : set_line), input_set.lines[k]? = some l ∧ l.valid ≠ 0 ∧
        l.tag = input_tag ∧
        (∀ (j : Nat) (l1 : set_line), j < k → input_set.lines[j]? = some l1 →
          ¬ (l1.valid ≠ 0 ∧ l1.tag = input_tag)) ∧
        simulate_set input_set par input_tag =
          some (⟨input_set.lines.set k { l with used_count := int_succ l.used_count }⟩,
                { par with hit_count := int_succ par.hit_count })) ∨
    ((∀ (j : Nat) (l : set_line), input_set.lines[j]? = some l →
          ¬ (l.valid ≠ 0 ∧ l.tag = input_tag)) ∧
      ∃ (k : Nat) (l : set_line) (r lo hi : Int), input_set.lines[k]? = some l ∧ l.valid = 0 ∧
        (∀ (j : Nat) (l1 : set_line), j < k → input_set.lines[j]? = some l1 → l1.valid ≠ 0) ∧
        find_empty_line input_set par = some (k : Int) ∧
        find_least_line input_set par = some (r, lo, hi) ∧
        least_line_post input_set.lines par.E.toNat r lo hi ∧
        simulate_set input_set par input_tag =
          some (⟨input_set.lines.set k ⟨int_succ hi, 1, input_tag⟩⟩,
                { par with miss_count := int_succ par.miss_count })) ∨
    ((∀ (j : Nat) (l : set_line), input_set.lines[j]? = some l →
          ¬ (l.valid ≠ 0 ∧ l.tag = input_tag)) ∧
      (∀ (j : Nat) (l : set_line), input_set.lines[j]? = some l → l.valid ≠ 0) ∧
      ∃ (k : Nat) (l : set_line) (lo hi : Int), input_set.lines[k]? = some l ∧
        find_least_line input_set par = some ((k : Int), lo, hi) ∧
        least_line_post input_set.lines par.E.toNat (k : Int) lo hi ∧
        simulate_set input_set par input_tag =
          some (⟨input_set.lines.set k { l with tag := input_tag, used_count := int_succ hi }⟩,
                { par with miss_count := int_succ par.miss_count,
                           evict_count := int_succ par.evict_count })) := by
  have hrange : ∀ (j : Nat) (l : set_line), input_set.lines[j]? = some l → j < 0 + par.E.toNat := by
    intro j l hj
    have hjlt : j < input_set.lines.length := (List.getElem?_eq_some_iff.mp hj).1
    omega
  rcases simulate_scan_spec input_set input_tag par.E.toNat 0 1 (by omega) with
    ⟨k, l, hr, _, _, hkl, hkv, hkt, hbefore⟩ | ⟨cf, hr, hnone, hcf⟩
  · left
    refine ⟨k, l, hkl, hkv, hkt, fun j l1 hj hjl => hbefore j l1 (by omega) hj hjl, ?_⟩
    simp only [simulate_set, hr, hkl]
  · right
    have hnone1 : ∀ (j : Nat) (l : set_line), input_set.lines[j]? = some l →
        ¬ (l.valid ≠ 0 ∧ l.tag = input_tag) :=
      fun j l hj => hnone j l (by omega) (hrange j l hj) hj
    obtain ⟨r, lo, hi, hfl, hpost⟩ := find_least_line_spec input_set par hE hlen
    have hfl1 : find_least_line input_set { par with miss_count := int_succ par.miss_count } =
        some (r, lo, hi) := hfl
    rcases hcf with ⟨hc, hall⟩ | ⟨hc, j0, l0, _, _, hj0, hj0v⟩
    · right
      obtain ⟨k, l, hk, hkm, hkl, hrest⟩ := hpost
      have hklt : k < input_set.lines.length := (List.getElem?_eq_some_iff.mp hkl).1
      refine ⟨hnone1, fun j l hj => hall j l (by omega) (hrange j l hj) hj, k, l, lo, hi, hkl,
        hk ▸ hfl, hk ▸ ⟨k, l, hk, hkm, hkl, hrest⟩, ?_⟩
      simp only [simulate_set, hr, hfl1, hc, hk, read_line_nat, hkl, write_line_nat _ _ _ hklt]
      simp
    · left
      refine ⟨hnone1, ?_⟩
      rcases find_empty_line_spec input_set par hlen with ⟨_, hall⟩ | ⟨k, l, hfe, _, hkl, hkv, hbefore⟩
      · exact absurd hj0v (hall j0 l0 hj0)
      · have hklt : k < input_set.lines.length := (List.getElem?_eq_some_iff.mp hkl).1
        have hfe1 : find_empty_line input_set { par with miss_count := int_succ par.miss_count } =
            some (k : Int) := hfe
        refine ⟨k, l, r, lo, hi, hkl, hkv, hbefore, hfe, hfl, hpost, ?_⟩
        simp only [simulate_set, hr, hfl1, hc, hfe1, read_line_nat, hkl,
          write_line_nat _ _ _ hklt]
        simp

/-! ## Address decoding -/

theorem setIndex_arith (a s b t : Nat) (h : t + s + b = 64) :
    ((a <<< t) % 2 ^ 64) >>> (t + b) = (a >>> b) % 2 ^ s := by
  have h64 : (2 : Nat) ^ 64 = 2 ^ t * (2 ^ b * 2 ^ s) := by
    rw [← pow_add, ← pow_add]
    congr 1
    omega
  rw [Nat.shiftLeft_eq, Nat.shiftRight_eq_div_pow, Nat.shiftRight_eq_div_pow, h64,
    Nat.mul_comm a (2 ^ t), Nat.mul_mod_mul_left, pow_add, ← Nat.div_div_eq_div_mul,
    Nat.mul_div_cancel_left _ (by positivity), Nat.mod_mul_right_div_self]

theorem recompose_arith (a s b : Nat) :
    a = ((a >>> (s + b)) <<< (s + b)) ||| (((a >>> b) % 2 ^ s) <<< b) ||| (a % 2 ^ b) := by
  have hoff : a % 2 ^ b < 2 ^ b := Nat.mod_lt _ (by positivity)
  have hsi : (a >>> b) % 2 ^ s < 2 ^ s := Nat.mod_lt _ (by positivity)
  have hmid : 2 ^ b * ((a >>> b) % 2 ^ s) < 2 ^ (s + b) := by
    rw [pow_add, Nat.mul_comm (2 ^ s)]
    exact Nat.mul_lt_mul_of_pos_left hsi (by positivity)
  rw [Nat.shiftLeft_eq, Nat.shiftLeft_eq, Nat.mul_comm _ (2 ^ (s + b)), Nat.mul_comm _ (2 ^ b),
    ← Nat.mul_add_lt_is_or hmid]
  have hsplit : 2 ^ (s + b) * (a >>> (s + b)) + 2 ^ b * ((a >>> b) % 2 ^ s) =
      2 ^ b * (a >>> b) := by
    rw [Nat.add_comm s b, Nat.shiftRight_add, pow_add, Nat.mul_assoc, ← Nat.mul_add,
      Nat.shiftRight_eq_div_pow (a >>> b) s, Nat.div_add_mod]
  rw [hsplit, ← Nat.mul_add_lt_is_or hoff, Nat.shiftRight_eq_div_pow, Nat.div_add_mod]

theorem input_tag_of_eq (par : cache_param_t) (a : Nat) (hs : 0 < par.s) (hb : 0 < par.b)
    (hsb : par.s + par.b < 64) :
    input_tag_of par a = some (a >>> (par.s + par.b).toNat) := by
  have h : 0 ≤ par.s + par.b ∧ par.s + par.b < 64 := ⟨by omega, hsb⟩
  simp only [input_tag_of, shr64, if_pos h]

theorem setIndex_of_eq (par : cache_param_t) (a : Nat) (hs : 0 < par.s) (hb : 0 < par.b)
    (hsb : par.s + par.b < 64) :
    setIndex_of par a = some ((a >>> par.b.toNat) % 2 ^ par.s.toNat) := by
  have h1 : 0 ≤ 64 - (par.s + par.b) ∧ 64 - (par.s + par.b) < 64 := ⟨by omega, by omega⟩
  have h2 : 0 ≤ 64 - (par.s + par.b) + par.b ∧ 64 - (par.s + par.b) + par.b < 64 :=
    ⟨by omega, by omega⟩
  have h3 : (64 - (par.s + par.b) + par.b).toNat = (64 - (par.s + par.b)).toNat + par.b.toNat := by
    omega
  simp only [setIndex_of, shl64, shr64, if_pos h1, if_pos h2, h3]
  rw [setIndex_arith a par.s.toNat par.b.toNat _ (by omega)]

/-! ## From one set to the whole cache -/

theorem simulate_of_set (cache_sim : cache) (par : cache_param_t) (a tag si : Nat)
    (input_set : cache_set) (htag : input_tag_of par a = some tag)
    (hsi : setIndex_of par a = some si) (hset : cache_sim.sets[si]? = some input_set) :
    simulate cache_sim par a =
      (simulate_set input_set par tag).map
        (fun r => ((⟨cache_sim.sets.set si r.1⟩ : cache), r.2)) := by
  simp only [simulate, htag, hsi, hset]
  cases simulate_set input_set par tag with
  | none => rfl
  | some r => rfl

theorem decode_total (cache_sim : cache) (par : cache_param_t) (a : Nat)
    (hcfg : config_ok par) (hwf : cache_wf cache_sim par) :
    ∃ (tag si : Nat) (input_set : cache_set), input_tag_of par a = some tag ∧
      setIndex_of par a = some si ∧ cache_sim.sets[si]? = some input_set ∧
      (input_set.lines.length : Int) = par.E := by
  obtain ⟨hs, hb, hsb, _⟩ := hcfg
  have hlt : (a >>> par.b.toNat) % 2 ^ par.s.toNat < cache_sim.sets.length := by
    rw [hwf.1]
    exact Nat.mod_lt _ (by positivity)
  refine ⟨_, _, cache_sim.sets[(a >>> par.b.toNat) % 2 ^ par.s.toNat],
    input_tag_of_eq par a hs hb hsb, setIndex_of_eq par a hs hb hsb,
    List.getElem?_eq_getElem hlt, hwf.2 _ (List.getElem_mem _)⟩

theorem cache_wf_set (cache_sim : cache) (par par1 : cache_param_t) (si : Nat)
    (set1 : cache_set) (hwf : cache_wf cache_sim par) (hs : par1.s = par.s)
    (hE : par1.E = par.E) (hlen : (set1.lines.length : Int) = par.E) :
    cache_wf ⟨cache_sim.sets.set si set1⟩ par1 := by
  refine ⟨by simp [hwf.1, hs], ?_⟩
  intro set hmem
  rcases List.mem_or_eq_of_mem_set hmem with h | h
  · rw [hE]
    exact hwf.2 set h
  · rw [h, hE]
    exact hlen

/-- One call of `simulate` on a well-shaped cache returns, keeps the shape and the
configuration, and changes the counters in one of three ways. -/
theorem simulate_step (cache_sim : cache) (par : cache_param_t) (a : Nat)
    (hcfg : config_ok par) (hwf : cache_wf cache_sim par) :
    ∃ (cache1 : cache) (par1 : cache_param_t), simulate cache_sim par a = some (cache1, par1) ∧
      cache_wf cache1 par1 ∧ config_ok par1 ∧
      (par1 = { par with hit_count := int_succ par.hit_count } ∨
       par1 = { par with miss_count := int_succ par.miss_count } ∨
       par1 = { par with miss_count := int_succ par.miss_count,
                         evict_count := int_succ par.evict_count }) := by
  obtain ⟨tag, si, input_set, htag, hsi, hset, hlen⟩ := decode_total cache_sim par a hcfg hwf
  rw [simulate_of_set cache_sim par a tag si input_set htag hsi hset]
  rcases simulate_set_cases input_set par tag hcfg.2.2.2 hlen with
    ⟨k, l, _, _, _, _, hsim⟩ | ⟨_, k, l, r, lo, hi, _, _, _, _, _, _, hsim⟩ |
    ⟨_, _, k, l, lo, hi, _, _, _, hsim⟩
  · rw [hsim]
    exact ⟨_, _, rfl, cache_wf_set _ _ _ _ _ hwf rfl rfl (by simp [hlen]), hcfg, Or.inl rfl⟩
  · rw [hsim]
    exact ⟨_, _, rfl, cache_wf_set _ _ _ _ _ hwf rfl rfl (by simp [hlen]), hcfg,
      Or.inr (Or.inl rfl)⟩
  · rw [hsim]
    exact ⟨_, _, rfl, cache_wf_set _ _ _ _ _ hwf rfl rfl (by simp [hlen]), hcfg,
      Or.inr (Or.inr rfl)⟩

theorem init_cache_wf (par : cache_param_t) (hE : 0 ≤ par.E) (h0 : 0 ≤ par.s)
    (h30 : par.s ≤ 30) : cache_wf (init_cache par) (init_par par) := by
  have hn : (num_sets par).toNat = 2 ^ par.s.toNat := by
    rw [num_sets_eq par h0 h30]
    have hcast : (2 : Int) ^ par.s.toNat = ((2 ^ par.s.toNat : Nat) : Int) := by
      push_cast
      rfl
    rw [hcast]
    exact Int.toNat_ofNat _
  refine ⟨by simp [init_cache, init_par, hn], ?_⟩
  intro set hmem
  have h := List.eq_of_mem_replicate hmem
  rw [h]
  simp [init_par]
  omega

/-! ## The driver loop -/

/-- One call of `simulate` with counters that can be incremented without overflow: exactly one
of `hit_count`, `miss_count` grows by one, and `evict_count` grows by one only with
`miss_count`. -/
theorem simulate_step_exact (cache_sim : cache) (par : cache_param_t) (a : Nat)
    (hcfg : config_ok par) (hwf : cache_wf cache_sim par) (hh : below_max par.hit_count)
    (hm : below_max par.miss_count) (he : below_max par.evict_count) :
    ∃ (cache1 : cache) (par1 : cache_param_t), simulate cache_sim par a = some (cache1, par1) ∧
      cache_wf cache1 par1 ∧ config_ok par1 ∧
      ((par1.hit_count = par.hit_count + 1 ∧ par1.miss_count = par.miss_count ∧
          par1.evict_count = par.evict_count) ∨
       (par1.hit_count = par.hit_count ∧ par1.miss_count = par.miss_count + 1 ∧
          par1.evict_count = par.evict_count) ∨
       (par1.hit_count = par.hit_count ∧ par1.miss_count = par.miss_count + 1 ∧
          par1.evict_count = par.evict_count + 1)) := by
  obtain ⟨c1, p1, hsim, hw1, hc1, hp⟩ := simulate_step cache_sim par a hcfg hwf
  refine ⟨c1, p1, hsim, hw1, hc1, ?_⟩
  rcases hp with hp | hp | hp
  · left
    subst hp
    exact ⟨int_succ_eq _ hh, rfl, rfl⟩
  · right
    left
    subst hp
    exact ⟨rfl, int_succ_eq _ hm, rfl⟩
  · right
    right
    subst hp
    exact ⟨rfl, int_succ_eq _ hm, int_succ_eq _ he⟩

theorem access_count_nonneg (ev : trace_event) : 0 ≤ access_count ev := by
  unfold access_count
  split
  · omega
  · split <;> omega

/-- One event of the trace on a well-shaped cache, with non-negative counters that stay within
the `int` range: the `switch` returns, keeps the shape and the configuration, adds the number
of simulated accesses to `hit_count + miss_count`, and changes the counters monotonically,
`evict_count` by no more than `miss_count`. -/
theorem trace_step_ok (cache_sim : cache) (par : cache_param_t) (ev : trace_event)
    (hcfg : config_ok par) (hwf : cache_wf cache_sim par)
    (hh0 : 0 ≤ par.hit_count) (hm0 : 0 ≤ par.miss_count) (he0 : 0 ≤ par.evict_count)
    (hem : par.evict_count ≤ par.miss_count)
    (hmax : par.hit_count + par.miss_count + access_count ev ≤ INT_MAX) :
    ∃ (cache1 : cache) (par1 : cache_param_t), trace_step cache_sim par ev = some (cache1, par1) ∧
      cache_wf cache1 par1 ∧ config_ok par1 ∧
      par1.hit_count + par1.miss_count = par.hit_count + par.miss_count + access_count ev ∧
      par.hit_count ≤ par1.hit_count ∧ par.miss_count ≤ par1.miss_count ∧
      par.evict_count ≤ par1.evict_count ∧
      par1.evict_count - par.evict_count ≤ par1.miss_count - par.miss_count := by
  have hone : ∀ (c : cache) (p : cache_param_t), config_ok p → cache_wf c p →
      0 ≤ p.hit_count → 0 ≤ p.miss_count → 0 ≤ p.evict_count →
      p.evict_count ≤ p.miss_count → p.hit_count + p.miss_count + 1 ≤ INT_MAX →
      ∃ (c1 : cache) (p1 : cache_param_t), simulate c p ev.trace_address = some (c1, p1) ∧
        cache_wf c1 p1 ∧ config_ok p1 ∧
        p1.hit_count + p1.miss_count = p.hit_count + p.miss_count + 1 ∧
        p.hit_count ≤ p1.hit_count ∧ p.miss_count ≤ p1.miss_count ∧
        p.evict_count ≤ p1.evict_count ∧
        p1.evict_count - p.evict_count ≤ p1.miss_count - p.miss_count := by
    intro c p hc hw h1 h2 h3 h4 h5
    unfold INT_MAX at h5
    obtain ⟨c1, p1, hsim, hw1, hc1, hp⟩ := simulate_step_exact c p ev.trace_address hc hw
      (by unfold below_max INT_MIN INT_MAX; omega) (by unfold below_max INT_MIN INT_MAX; omega)
      (by unfold below_max INT_MIN INT_MAX; omega)
    refine ⟨c1, p1, hsim, hw1, hc1, ?_⟩
    rcases hp with ⟨e1, e2, e3⟩ | ⟨e1, e2, e3⟩ | ⟨e1, e2, e3⟩ <;> omega
  by_cases hI : ev.trace_command = 'I'
  · refine ⟨cache_sim, par, by simp [trace_step, hI], hwf, hcfg, ?_⟩
    simp [access_count, hI]
  · by_cases hL : ev.trace_command = 'L'
    · have hac : access_count ev = 1 := by simp [access_count, hL]
      rw [hac] at hmax
      obtain ⟨c1, p1, hsim, hrest⟩ := hone cache_sim par hcfg hwf hh0 hm0 he0 hem hmax
      refine ⟨c1, p1, by simp [trace_step, hL, hsim], ?_⟩
      rw [hac]
      exact hrest
    · by_cases hS : ev.trace_command = 'S'
      · have hac : access_count ev = 1 := by simp [access_count, hS]
        rw [hac] at hmax
        obtain ⟨c1, p1, hsim, hrest⟩ := hone cache_sim par hcfg hwf hh0 hm0 he0 hem hmax
        refine ⟨c1, p1, by simp [trace_step, hS, hsim], ?_⟩
        rw [hac]
        exact hrest
      · by_cases hM : ev.trace_command = 'M'
        · have hac : access_count ev = 2 := by simp [access_count, hM]
          rw [hac] at hmax
          obtain ⟨c1, p1, hsim, hw1, hc1, h1⟩ :=
            hone cache_sim par hcfg hwf hh0 hm0 he0 hem (by omega)
          obtain ⟨c2, p2, hsim2, hw2, hc2, h2⟩ :=
            hone c1 p1 hc1 hw1 (by omega) (by omega) (by omega) (by omega) (by omega)
          refine ⟨c2, p2, by simp [trace_step, hM, hsim, hsim2], hw2, hc2, ?_⟩
          rw [hac]
          omega
        · refine ⟨cache_sim, par, by simp [trace_step, hI, hL, hS, hM], hwf, hcfg, ?_⟩
          simp [access_count, hL, hS, hM]

/-- The driver loop on a well-shaped cache, with non-negative counters and a trace short
enough for the counters to stay within the `int` range, always returns; `evict_count` grows by
no more than `miss_count`, and when every `fscanf` call converts three items the sum
`hit_count + miss_count` grows by the number of simulated accesses. -/
theorem run_trace_ok (trace : List (Option trace_event)) :
    ∀ (cache_sim : cache) (par : cache_param_t), config_ok par → cache_wf cache_sim par →
    0 ≤ par.hit_count → 0 ≤ par.miss_count → 0 ≤ par.evict_count →
    par.evict_count ≤ par.miss_count →
    par.hit_count + par.miss_count +
      (trace.map (fun e => match e with | none => 0 | some ev => access_count ev)).sum ≤
        INT_MAX →
    ∃ (cache1 : cache) (par1 : cache_param_t), run_trace cache_sim par trace = some (cache1, par1) ∧
      par.hit_count ≤ par1.hit_count ∧ par.miss_count ≤ par1.miss_count ∧
      par.evict_count ≤ par1.evict_count ∧
      par1.evict_count - par.evict_count ≤ par1.miss_count - par.miss_count ∧
      ((∀ e ∈ trace, e ≠ none) → par1.hit_count + par1.miss_count =
        par.hit_count + par.miss_count +
          (trace.map (fun e => match e with | none => 0 | some ev => access_count ev)).sum) := by
  induction trace with
  | nil =>
    intro cache_sim par _ _ _ _ _ _ _
    exact ⟨cache_sim, par, rfl, le_refl _, le_refl _, le_refl _, by omega, by simp⟩
  | cons e rest ih =>
    intro cache_sim par hcfg hwf hh0 hm0 he0 hem hmax
    have hrest0 : 0 ≤ (rest.map
        (fun e => match e with | none => 0 | some ev => access_count ev)).sum := by
      apply List.sum_nonneg
      intro x hx
      obtain ⟨e1, _, he1⟩ := List.mem_map.mp hx
      cases e1 with
      | none => exact he1 ▸ le_refl _
      | some ev1 => exact he1 ▸ access_count_nonneg ev1
    cases e with
    | none =>
      refine ⟨cache_sim, par, rfl, le_refl _, le_refl _, le_refl _, by omega, ?_⟩
      intro h
      exact absurd rfl (h none (List.mem_cons_self _ _))
    | some ev =>
      simp only [List.map_cons, List.sum_cons] at hmax
      obtain ⟨c1, p1, hstep, hw1, hc1, hsum, hh, hm, he, hem1⟩ :=
        trace_step_ok cache_sim par ev hcfg hwf hh0 hm0 he0 hem (by omega)
      obtain ⟨c2, p2, hrun, hh2, hm2, he2, hem2, hsum2⟩ := ih c1 p1 hc1 hw1 (by omega)
        (by omega) (by omega) (by omega) (by omega)
      refine ⟨c2, p2, by simp [run_trace, hstep, hrun], by omega, by omega, by omega, by omega, ?_⟩
      intro hall
      have := hsum2 (fun e he => hall e (List.mem_cons_of_mem _ he))
      simp only [List.map_cons, List.sum_cons]
      omega

/-- When some valid line of the set holds the tag, the access is a hit. -/
theorem simulate_set_hit_of_valid (input_set : cache_set) (par : cache_param_t)
    (input_tag : Nat) (hE : 1 ≤ par.E) (hlen : (input_set.lines.length : Int) = par.E)
    (hex : ∃ (k : Nat) (l : set_line), input_set.lines[k]? = some l ∧ l.valid ≠ 0 ∧
      l.tag = input_tag) :
    ∃ (k : Nat) (l : set_line), input_set.lines[k]? = some l ∧ l.valid ≠ 0 ∧
      l.tag = input_tag ∧
      simulate_set input_set par input_tag =
        some (⟨input_set.lines.set k { l with used_count := int_succ l.used_count }⟩,
              { par with hit_count := int_succ par.hit_count }) := by
  obtain ⟨k0, l0, hk0, hv0, ht0⟩ := hex
  rcases simulate_set_cases input_set par input_tag hE hlen with
    ⟨k, l, hkl, hv, ht, _, hsim⟩ | ⟨hnone, _⟩ | ⟨hnone, _⟩
  · exact ⟨k, l, hkl, hv, ht, hsim⟩
  · exact absurd ⟨hv0, ht0⟩ (hnone k0 l0 hk0)
  · exact absurd ⟨hv0, ht0⟩ (hnone k0 l0 hk0)

/-- After any access, the set holds a valid line with the tag of the access, in the slot that
was written. -/
theorem simulate_set_installs (input_set : cache_set) (par : cache_param_t) (input_tag : Nat)
    (hE : 1 ≤ par.E) (hlen : (input_set.lines.length : Int) = par.E) :
    ∃ (k : Nat) (l line1 : set_line) (par1 : cache_param_t), input_set.lines[k]? = some l ∧
      simulate_set input_set par input_tag = some (⟨input_set.lines.set k line1⟩, par1) ∧
      line1.valid ≠ 0 ∧ line1.tag = input_tag ∧
      (par1 = { par with hit_count := int_succ par.hit_count } ∨
       ((∀ (j : Nat) (l : set_line), input_set.lines[j]? = some l →
          ¬ (l.valid ≠ 0 ∧ l.tag = input_tag)) ∧
        (par1 = { par with miss_count := int_succ par.miss_count } ∨
         par1 = { par with miss_count := int_succ par.miss_count,
                           evict_count := int_succ par.evict_count }))) := by
  rcases simulate_set_cases input_set par input_tag hE hlen with
    ⟨k, l, hkl, hv, ht, _, hsim⟩ | ⟨hnone, k, l, r, lo, hi, hkl, _, _, _, _, _, hsim⟩ |
    ⟨hnone, hall, k, l, lo, hi, hkl, _, _, hsim⟩
  · exact ⟨k, l, _, _, hkl, hsim, hv, ht, Or.inl rfl⟩
  · exact ⟨k, l, _, _, hkl, hsim, by simp, rfl, Or.inr ⟨hnone, Or.inl rfl⟩⟩
  · exact ⟨k, l, _, _, hkl, hsim, hall k l hkl, rfl, Or.inr ⟨hnone, Or.inr rfl⟩⟩

theorem least_line_post_mem (lines : List set_line) (m : Nat) (r lo hi : Int)
    (hm : lines.length = m) (hpost : least_line_post lines m r lo hi) :
    ∃ (k : Nat) (l : set_line), r = (k : Int) ∧ lines[k]? = some l ∧ l.used_count = lo ∧
      (∀ l1 ∈ lines, lo ≤ l1.used_count ∧ l1.used_count ≤ hi) ∧
      (∃ l1 ∈ lines, l1.used_count = hi) ∧
      (∀ (j : Nat) (l1 : set_line), j < k → lines[j]? = some l1 → lo < l1.used_count) := by
  obtain ⟨k, l, hk, _, hkl, hlu, hmin, hfirst, hmax, j0, l0, _, hj0l, hj0u⟩ := hpost
  refine ⟨k, l, hk, hkl, hlu, ?_, ⟨l0, List.mem_iff_getElem?.mpr ⟨j0, hj0l⟩, hj0u⟩, hfirst⟩
  intro l1 hl1
  obtain ⟨j, hj⟩ := List.mem_iff_getElem?.mp hl1
  have hjlt : j < lines.length := (List.getElem?_eq_some_iff.mp hj).1
  exact ⟨hmin j l1 (by omega) hj, hmax j l1 (by omega) hj⟩

/-! ## Resident tags are distinct and come from the trace -/

theorem getElem?_set_cases (lines : List set_line) (k i : Nat) (line1 li : set_line)
    (h : (lines.set k line1)[i]? = some li) :
    (i = k ∧ li = line1) ∨ (i ≠ k ∧ lines[i]? = some li) := by
  by_cases hik : i = k
  · left
    subst hik
    have hlt : i < (lines.set i line1).length := (List.getElem?_eq_some_iff.mp h).1
    rw [List.length_set] at hlt
    rw [List.getElem?_set_self hlt] at h
    exact ⟨rfl, (Option.some.inj h).symm⟩
  · right
    rw [List.getElem?_set_ne (Ne.symm hik)] at h
    exact ⟨hik, h⟩

theorem set_inv_set (cfg : cache_param_t) (acc : List Nat) (si : Nat) (lines : List set_line)
    (k : Nat) (line1 : set_line) (hinv : set_inv cfg acc si ⟨lines⟩)
    (hprov : ∃ a ∈ acc, setIndex_of cfg a = some si ∧ input_tag_of cfg a = some line1.tag)
    (hdist : ∀ (j : Nat) (lj : set_line), j ≠ k → lines[j]? = some lj → lj.valid ≠ 0 →
      lj.tag ≠ line1.tag) :
    set_inv cfg acc si ⟨lines.set k line1⟩ := by
  constructor
  · intro i j li lj hi hj hvi hvj htag
    rcases getElem?_set_cases lines k i line1 li hi with ⟨hik, hli⟩ | ⟨hik, hi0⟩
    · rcases getElem?_set_cases lines k j line1 lj hj with ⟨hjk, _⟩ | ⟨hjk, hj0⟩
      · rw [hik, hjk]
      · rw [hli] at htag
        exact absurd htag.symm (hdist j lj hjk hj0 hvj)
    · rcases getElem?_set_cases lines k j line1 lj hj with ⟨hjk, hlj⟩ | ⟨hjk, hj0⟩
      · rw [hlj] at htag
        exact absurd htag (hdist i li hik hi0 hvi)
      · exact hinv.1 i j li lj hi0 hj0 hvi hvj htag
  · intro i li hi hvi
    rcases getElem?_set_cases lines k i line1 li hi with ⟨_, hli⟩ | ⟨_, hi0⟩
    · rw [hli]
      exact hprov
    · exact hinv.2 i li hi0 hvi

/-- One access keeps `set_inv`; it leaves `evict_count` alone unless every line of the set
is valid and none holds the tag. -/
theorem simulate_set_inv (cfg : cache_param_t) (acc : List Nat) (si : Nat)
    (input_set : cache_set) (par : cache_param_t) (tag : Nat) (hE : 1 ≤ par.E)
    (hlen : (input_set.lines.length : Int) = par.E) (hinv : set_inv cfg acc si input_set)
    (hprov : ∃ a ∈ acc, setIndex_of cfg a = some si ∧ input_tag_of cfg a = some tag) :
    ∃ (set1 : cache_set) (par1 : cache_param_t),
      simulate_set input_set par tag = some (set1, par1) ∧
      (set1.lines.length : Int) = par.E ∧ set_inv cfg acc si set1 ∧
      par1.s = par.s ∧ par1.b = par.b ∧ par1.E = par.E ∧
      (par1.evict_count = par.evict_count ∨
        ((∀ (j : Nat) (l : set_line), input_set.lines[j]? = some l →
            ¬ (l.valid ≠ 0 ∧ l.tag = tag)) ∧
         (∀ (j : Nat) (l : set_line), input_set.lines[j]? = some l → l.valid ≠ 0))) := by
  rcases simulate_set_cases input_set par tag hE hlen with
    ⟨k, l, hkl, hv, ht, _, hsim⟩ | ⟨hnone, k, l, r, lo, hi, hkl, _, _, _, _, _, hsim⟩ |
    ⟨hnone, hall, k, l, lo, hi, hkl, _, _, hsim⟩
  · refine ⟨_, _, hsim, by simpa using hlen, ?_, rfl, rfl, rfl, Or.inl rfl⟩
    refine set_inv_set cfg acc si input_set.lines k _ hinv (by simpa [ht] using hprov) ?_
    intro j lj hjk hj hvj htj
    exact hjk (hinv.1 j k lj l hj hkl hvj hv (by simpa [ht] using htj))
  · refine ⟨_, _, hsim, by simpa using hlen, ?_, rfl, rfl, rfl, Or.inl rfl⟩
    refine set_inv_set cfg acc si input_set.lines k _ hinv hprov ?_
    intro j lj _ hj hvj htj
    exact hnone j lj hj ⟨hvj, htj⟩
  · refine ⟨_, _, hsim, by simpa using hlen, ?_, rfl, rfl, rfl, Or.inr ⟨hnone, hall⟩⟩
    refine set_inv_set cfg acc si input_set.lines k _ hinv hprov ?_
    intro j lj _ hj hvj htj
    exact hnone j lj hj ⟨hvj, htj⟩

/-- A set whose `E` lines are all valid and miss the tag of an access holds `E` distinct
tags of the trace besides that one: the trace has more than `E` distinct tags for the set. -/
theorem full_miss_many_tags (cfg : cache_param_t) (acc : List Nat) (si : Nat)
    (input_set : cache_set) (tag : Nat) (hinv : set_inv cfg acc si input_set)
    (hprov : ∃ a ∈ acc, setIndex_of cfg a = some si ∧ input_tag_of cfg a = some tag)
    (hnone : ∀ (j : Nat) (l : set_line), input_set.lines[j]? = some l →
      ¬ (l.valid ≠ 0 ∧ l.tag = tag))
    (hall : ∀ (j : Nat) (l : set_line), input_set.lines[j]? = some l → l.valid ≠ 0) :
    input_set.lines.length + 1 ≤ (tags_of_set cfg acc si).dedup.length := by
  have hmemT : ∀ (a : Nat) (t : Nat), a ∈ acc → setIndex_of cfg a = some si →
      input_tag_of cfg a = some t → some t ∈ tags_of_set cfg acc si := by
    intro a t ha hs ht
    simp only [tags_of_set, addrs_of_set, List.mem_map, List.mem_filter]
    exact ⟨a, ⟨ha, by simpa using hs⟩, ht⟩
  have hnodup : (input_set.lines.map (fun l => some l.tag)).Nodup := by
    rw [List.nodup_iff_getElem?_ne_getElem?]
    intro i j hij hj heq
    rw [List.length_map] at hj
    have hi : i < input_set.lines.length := by omega
    simp only [List.getElem?_map, List.getElem?_eq_getElem hi, List.getElem?_eq_getElem hj,
      Option.map_some', Option.some.injEq] at heq
    have := hinv.1 i j _ _ (List.getElem?_eq_getElem hi) (List.getElem?_eq_getElem hj)
      (hall i _ (List.getElem?_eq_getElem hi)) (hall j _ (List.getElem?_eq_getElem hj)) heq
    omega
  have hnodup1 : (some tag :: input_set.lines.map (fun l => some l.tag)).Nodup := by
    rw [List.nodup_cons]
    refine ⟨?_, hnodup⟩
    intro hmem
    obtain ⟨l, hl, hlt⟩ := List.mem_map.mp hmem
    obtain ⟨j, hj⟩ := List.mem_iff_getElem?.mp hl
    exact hnone j l hj ⟨hall j l hj, Option.some.inj hlt⟩
  have hsub : (some tag :: input_set.lines.map (fun l => some l.tag)) ⊆
      (tags_of_set cfg acc si).dedup := by
    intro x hx
    rw [List.mem_dedup]
    rcases List.mem_cons.mp hx with hx | hx
    · obtain ⟨a, ha, hs, ht⟩ := hprov
      rw [hx]
      exact hmemT a tag ha hs ht
    · obtain ⟨l, hl, hlt⟩ := List.mem_map.mp hx
      obtain ⟨j, hj⟩ := List.mem_iff_getElem?.mp hl
      obtain ⟨a, ha, hs, ht⟩ := hinv.2 j l hj (hall j l hj)
      rw [← hlt]
      exact hmemT a l.tag ha hs ht
  have hle := (List.subperm_of_subset hnodup1 hsub).length_le
  simpa using hle

theorem decode_same_cfg (cfg par : cache_param_t) (a : Nat) (hsame : same_cfg cfg par) :
    input_tag_of par a = input_tag_of cfg a ∧ setIndex_of par a = setIndex_of cfg a := by
  obtain ⟨hs, hb, _⟩ := hsame
  simp only [input_tag_of, setIndex_of, hs, hb, and_self]

/-- One call of `simulate` keeps `cache_inv`; it leaves `evict_count` alone unless the trace
has more than `E` distinct tags for the target set. -/
theorem simulate_inv (cfg : cache_param_t) (acc : List Nat) (cache_sim : cache)
    (par : cache_param_t) (a : Nat) (hcfg : config_ok par) (hsame : same_cfg cfg par)
    (hwf : cache_wf cache_sim par) (hinv : cache_inv cfg acc cache_sim) (ha : a ∈ acc) :
    ∃ (cache1 : cache) (par1 : cache_param_t), simulate cache_sim par a = some (cache1, par1) ∧
      cache_wf cache1 par1 ∧ config_ok par1 ∧ same_cfg cfg par1 ∧ cache_inv cfg acc cache1 ∧
      (par1.evict_count = par.evict_count ∨
        ∃ si : Nat, par.E + 1 ≤ ((tags_of_set cfg acc si).dedup.length : Int)) := by
  obtain ⟨tag, si, input_set, htag, hsi, hset, hlen⟩ := decode_total cache_sim par a hcfg hwf
  have hdec := decode_same_cfg cfg par a hsame
  have hprov : ∃ a ∈ acc, setIndex_of cfg a = some si ∧ input_tag_of cfg a = some tag :=
    ⟨a, ha, by rw [← hdec.2]; exact hsi, by rw [← hdec.1]; exact htag⟩
  obtain ⟨set1, par1, hsim, hlen1, hinv1, hs1, hb1, hE1, hev⟩ :=
    simulate_set_inv cfg acc si input_set par tag hcfg.2.2.2 hlen (hinv si input_set hset) hprov
  have hsilt : si < cache_sim.sets.length := (List.getElem?_eq_some_iff.mp hset).1
  refine ⟨⟨cache_sim.sets.set si set1⟩, par1, ?_, cache_wf_set _ _ _ _ _ hwf hs1 hE1 hlen1, ?_,
    ⟨by rw [hs1]; exact hsame.1, by rw [hb1]; exact hsame.2.1, by rw [hE1]; exact hsame.2.2⟩,
    ?_, ?_⟩
  · rw [simulate_of_set cache_sim par a tag si input_set htag hsi hset, hsim]
    rfl
  · unfold config_ok
    rw [hs1, hb1, hE1]
    exact hcfg
  · intro si2 set2 hset2
    by_cases h : si2 = si
    · subst h
      simp only [List.getElem?_set_self hsilt, Option.some.injEq] at hset2
      rw [← hset2]
      exact hinv1
    · simp only [List.getElem?_set_ne (Ne.symm h)] at hset2
      exact hinv si2 set2 hset2
  · rcases hev with hev | ⟨hnone, hall⟩
    · exact Or.inl hev
    · right
      refine ⟨si, ?_⟩
      have := full_miss_many_tags cfg acc si input_set tag (hinv si input_set hset) hprov
        hnone hall
      omega

theorem tags_le_addrs (cfg : cache_param_t) (acc : List Nat) (si : Nat) :
    (tags_of_set cfg acc si).dedup.length ≤ (addrs_of_set cfg acc si).dedup.length := by
  have hsub : (tags_of_set cfg acc si).dedup ⊆
      (addrs_of_set cfg acc si).dedup.map (input_tag_of cfg) := by
    intro x hx
    rw [List.mem_dedup] at hx
    obtain ⟨a, ha, hax⟩ := List.mem_map.mp hx
    exact List.mem_map.mpr ⟨a, List.mem_dedup.mpr ha, hax⟩
  have hle := (List.subperm_of_subset (List.nodup_dedup _) hsub).length_le
  simpa using hle

theorem init_cache_inv (cfg : cache_param_t) (acc : List Nat) (par : cache_param_t) :
    cache_inv cfg acc (init_cache par) := by
  intro si set hset
  have hmem : set ∈ (init_cache par).sets := List.mem_iff_getElem?.mpr ⟨si, hset⟩
  have hset_eq : set = ⟨List.replicate par.E.toNat ⟨0, 0, 0⟩⟩ := List.eq_of_mem_replicate hmem
  have hinvalid : ∀ (i : Nat) (li : set_line), set.lines[i]? = some li → li.valid = 0 := by
    intro i li hi
    have hli : li ∈ set.lines := List.mem_iff_getElem?.mpr ⟨i, hi⟩
    rw [hset_eq] at hli
    rw [List.eq_of_mem_replicate hli]
  constructor
  · intro i j li lj hi _ hvi
    exact absurd (hinvalid i li hi) hvi
  · intro i li hi hvi
    exact absurd (hinvalid i li hi) hvi

/-- One trace event whose accesses belong to a trace with at most `E` distinct tags per set
leaves `evict_count` alone. -/
theorem trace_step_no_evict (cfg : cache_param_t) (acc : List Nat)
    (hcap : ∀ si : Nat, ((tags_of_set cfg acc si).dedup.length : Int) ≤ cfg.E)
    (cache_sim : cache) (par : cache_param_t) (ev : trace_event) (hcfg : config_ok par)
    (hsame : same_cfg cfg par) (hwf : cache_wf cache_sim par)
    (hinv : cache_inv cfg acc cache_sim) (hev : ∀ a ∈ event_accesses ev, a ∈ acc) :
    ∃ (cache1 : cache) (par1 : cache_param_t), trace_step cache_sim par ev = some (cache1, par1) ∧
      cache_wf cache1 par1 ∧ config_ok par1 ∧ same_cfg cfg par1 ∧ cache_inv cfg acc cache1 ∧
      par1.evict_count = par.evict_count := by
  have hone : ∀ (c : cache) (p : cache_param_t), config_ok p → same_cfg cfg p → cache_wf c p →
      cache_inv cfg acc c → ev.trace_address ∈ acc →
      ∃ (c1 : cache) (p1 : cache_param_t), simulate c p ev.trace_address = some (c1, p1) ∧
        cache_wf c1 p1 ∧ config_ok p1 ∧ same_cfg cfg p1 ∧ cache_inv cfg acc c1 ∧
        p1.evict_count = p.evict_count := by
    intro c p hc hs hw hi ha
    obtain ⟨c1, p1, hsim, hw1, hc1, hs1, hi1, hev1⟩ :=
      simulate_inv cfg acc c p ev.trace_address hc hs hw hi ha
    refine ⟨c1, p1, hsim, hw1, hc1, hs1, hi1, ?_⟩
    rcases hev1 with h | ⟨si, h⟩
    · exact h
    · have h1 := hcap si
      have h2 := hs.2.2
      omega
  by_cases hI : ev.trace_command = 'I'
  · exact ⟨cache_sim, par, by simp [trace_step, hI], hwf, hcfg, hsame, hinv, rfl⟩
  · by_cases hL : ev.trace_command = 'L'
    · obtain ⟨c1, p1, hsim, hrest⟩ := hone cache_sim par hcfg hsame hwf hinv
        (hev _ (by simp [event_accesses, hL]))
      exact ⟨c1, p1, by simp [trace_step, hL, hsim], hrest⟩
    · by_cases hS : ev.trace_command = 'S'
      · obtain ⟨c1, p1, hsim, hrest⟩ := hone cache_sim par hcfg hsame hwf hinv
          (hev _ (by simp [event_accesses, hS]))
        exact ⟨c1, p1, by simp [trace_step, hS, hsim], hrest⟩
      · by_cases hM : ev.trace_command = 'M'
        · have ha : ev.trace_address ∈ acc := hev _ (by simp [event_accesses, hM])
          obtain ⟨c1, p1, hsim, hw1, hc1, hs1, hi1, he1⟩ :=
            hone cache_sim par hcfg hsame hwf hinv ha
          obtain ⟨c2, p2, hsim2, hw2, hc2, hs2, hi2, he2⟩ := hone c1 p1 hc1 hs1 hw1 hi1 ha
          exact ⟨c2, p2, by simp [trace_step, hM, hsim, hsim2], hw2, hc2, hs2, hi2,
            by rw [he2, he1]⟩
        · exact ⟨cache_sim, par, by simp [trace_step, hI, hL, hS, hM], hwf, hcfg, hsame, hinv,
            rfl⟩

theorem run_trace_no_evict (cfg : cache_param_t) (acc : List Nat)
    (hcap : ∀ si : Nat, ((tags_of_set cfg acc si).dedup.length : Int) ≤ cfg.E)
    (trace : List trace_event) :
    ∀ (cache_sim : cache) (par : cache_param_t), config_ok par → same_cfg cfg par →
    cache_wf cache_sim par → cache_inv cfg acc cache_sim →
    (∀ ev ∈ trace, ∀ a ∈ event_accesses ev, a ∈ acc) →
    ∃ (cache1 : cache) (par1 : cache_param_t),
      run_trace cache_sim par (trace.map some) = some (cache1, par1) ∧
      par1.evict_count = par.evict_count := by
  induction trace with
  | nil =>
    intro cache_sim par _ _ _ _ _
    exact ⟨cache_sim, par, rfl, rfl⟩
  | cons ev rest ih =>
    intro cache_sim par hcfg hsame hwf hinv hacc
    obtain ⟨c1, p1, hstep, hw1, hc1, hs1, hi1, he1⟩ :=
      trace_step_no_evict cfg acc hcap cache_sim par ev hcfg hsame hwf hinv
        (hacc ev (List.mem_cons_self _ _))
    obtain ⟨c2, p2, hrun, he2⟩ := ih c1 p1 hc1 hs1 hw1 hi1
      (fun e he => hacc e (List.mem_cons_of_mem _ he))
    exact ⟨c2, p2, by simp [run_trace, hstep, hrun], by rw [he2, he1]⟩

/-! ## The access sequence `A, B, A, C` on a set of two lines -/

/-- For `E = 2` and any pairwise distinct tags `A`, `B`, `C`, the accesses `A, B, A, C` on a
set of two invalid lines end with the tags `C` and `B`: the fourth access overwrites the
line of `A`, whose `used_count` the hit only raised to that of the line of `B`. -/
theorem abac_on_two_lines (par : cache_param_t) (hE : par.E = 2) (A B C : Nat)
    (hAB : A ≠ B) (hAC : A ≠ C) (hBC : B ≠ C) :
    ∃ (par1 par2 par3 : cache_param_t),
      simulate_set ⟨[⟨0, 0, 0⟩, ⟨0, 0, 0⟩]⟩ par A = some (⟨[⟨1, 1, A⟩, ⟨0, 0, 0⟩]⟩, par1) ∧
      par1.E = 2 ∧
      simulate_set ⟨[⟨1, 1, A⟩, ⟨0, 0, 0⟩]⟩ par1 B = some (⟨[⟨1, 1, A⟩, ⟨2, 1, B⟩]⟩, par2) ∧
      par2.E = 2 ∧
      simulate_set ⟨[⟨1, 1, A⟩, ⟨2, 1, B⟩]⟩ par2 A = some (⟨[⟨2, 1, A⟩, ⟨2, 1, B⟩]⟩, par3) ∧
      par3.E = 2 ∧
      simulate_set ⟨[⟨2, 1, A⟩, ⟨2, 1, B⟩]⟩ par3 C =
        some (⟨[⟨3, 1, C⟩, ⟨2, 1, B⟩]⟩,
          { par3 with miss_count := int_succ par3.miss_count,
                      evict_count := int_succ par3.evict_count }) := by
  have h2 : (2 : Int).toNat = 2 := rfl
  have h1 : ((2 : Int) - 1).toNat = 1 := rfl
  refine ⟨{ par with miss_count := int_succ par.miss_count },
    { par with miss_count := int_succ (int_succ par.miss_count) },
    { par with miss_count := int_succ (int_succ par.miss_count),
               hit_count := int_succ par.hit_count },
    ?_, hE, ?_, hE, ?_, hE, ?_⟩
  · simp [simulate_set, simulate_scan, find_least_line, find_least_line_loop, find_empty_line,
      find_empty_line_loop, read_line, write_line, hE, h2, h1, int_succ_zero, int_succ_one, int_succ_two]
  · simp [simulate_set, simulate_scan, find_least_line, find_least_line_loop, find_empty_line,
      find_empty_line_loop, read_line, write_line, hE, h2, h1, hAB, int_succ_zero, int_succ_one, int_succ_two]
  · simp [simulate_set, simulate_scan, find_least_line, find_least_line_loop, find_empty_line,
      find_empty_line_loop, read_line, write_line, hE, h2, h1, int_succ_zero, int_succ_one, int_succ_two]
  · simp [simulate_set, simulate_scan, find_least_line, find_least_line_loop, find_empty_line,
      find_empty_line_loop, read_line, write_line, hE, h2, h1, hAC, hBC, int_succ_zero, int_succ_one,
      int_succ_two]

/-! ## Direct-mapped sets -/

theorem simulate_set_single_conflict (par : cache_param_t) (hE : par.E = 1) (l : set_line)
    (tag : Nat) (hv : l.valid ≠ 0) (ht : l.tag ≠ tag) :
    simulate_set ⟨[l]⟩ par tag =
      some (⟨[{ l with tag := tag, used_count := int_succ l.used_count }]⟩,
        { par with miss_count := int_succ par.miss_count,
                   evict_count := int_succ par.evict_count }) := by
  have h1 : (1 : Int).toNat = 1 := rfl
  have h0 : ((1 : Int) - 1).toNat = 0 := rfl
  simp [simulate_set, simulate_scan, find_least_line, find_least_line_loop, read_line,
    write_line, hE, h1, h0, hv, ht]

theorem simulate_set_single_empty (par : cache_param_t) (hE : par.E = 1) (tag : Nat) :
    simulate_set ⟨[⟨0, 0, 0⟩]⟩ par tag =
      some (⟨[⟨1, 1, tag⟩]⟩, { par with miss_count := int_succ par.miss_count }) := by
  have h1 : (1 : Int).toNat = 1 := rfl
  have h0 : ((1 : Int) - 1).toNat = 0 := rfl
  simp [simulate_set, simulate_scan, find_least_line, find_least_line_loop, find_empty_line,
    find_empty_line_loop, read_line, write_line, hE, h1, h0, int_succ_zero]

theorem init_cache_get (par : cache_param_t) (si : Nat) (set : cache_set)
    (h : (init_cache par).sets[si]? = some set) :
    set = ⟨List.replicate par.E.toNat ⟨0, 0, 0⟩⟩ :=
  List.eq_of_mem_replicate (List.mem_iff_getElem?.mpr ⟨si, h⟩)

/-! ## The slot written by one access -/

/-- One access rewrites one slot `k` of the set: the new line is valid and holds the tag of the
access; when every `used_count` of the set is below `INT_MAX`, the new line has a larger
`used_count` than the line it replaces; and when the valid lines come first, every slot
before `k` is valid. -/
theorem simulate_set_written (input_set : cache_set) (par : cache_param_t) (input_tag : Nat)
    (hE : 1 ≤ par.E) (hlen : (input_set.lines.length : Int) = par.E) :
    ∃ (k : Nat) (l line1 : set_line) (par1 : cache_param_t), input_set.lines[k]? = some l ∧
      simulate_set input_set par input_tag = some (⟨input_set.lines.set k line1⟩, par1) ∧
      line1.valid ≠ 0 ∧ line1.tag = input_tag ∧
      ((∀ l1 ∈ input_set.lines, below_max l1.used_count) →
        l.used_count < line1.used_count) ∧
      (valid_slots_first input_set →
        ∀ (j : Nat) (lj : set_line), j < k → input_set.lines[j]? = some lj → lj.valid ≠ 0) := by
  have hmax : ∀ (r lo hi : Int) (l : set_line), l ∈ input_set.lines →
      least_line_post input_set.lines par.E.toNat r lo hi →
      (∀ l1 ∈ input_set.lines, below_max l1.used_count) → l.used_count < int_succ hi := by
    intro r lo hi l hl hpost hbelow
    obtain ⟨_, _, _, _, _, hbounds, ⟨lm, hlm, hlmu⟩, _⟩ :=
      least_line_post_mem input_set.lines par.E.toNat r lo hi (by omega) hpost
    have h1 := (hbounds l hl).2
    have h2 := below_max_lt_succ hi (hlmu ▸ hbelow lm hlm)
    omega
  rcases simulate_set_cases input_set par input_tag hE hlen with
    ⟨k, l, hkl, hv, ht, _, hsim⟩ | ⟨_, k, l, r, lo, hi, hkl, _, hbefore, _, _, hpost, hsim⟩ |
    ⟨_, hall, k, l, lo, hi, hkl, _, hpost, hsim⟩
  · refine ⟨k, l, _, _, hkl, hsim, hv, ht, ?_, ?_⟩
    · intro hbelow
      exact below_max_lt_succ l.used_count
        (hbelow l (List.mem_iff_getElem?.mpr ⟨k, hkl⟩))
    · intro hfirst j lj hjk hj
      exact hfirst k j l lj hjk hkl hj hv
  · exact ⟨k, l, _, _, hkl, hsim, by simp, rfl,
      hmax r lo hi l (List.mem_iff_getElem?.mpr ⟨k, hkl⟩) hpost, fun _ => hbefore⟩
  · exact ⟨k, l, _, _, hkl, hsim, hall k l hkl, rfl,
      hmax (k : Int) lo hi l (List.mem_iff_getElem?.mpr ⟨k, hkl⟩) hpost,
      fun _ j lj _ hj => hall j lj hj⟩

theorem valid_slots_first_set (lines : List set_line) (k : Nat) (line1 : set_line)
    (hold : valid_slots_first ⟨lines⟩) (hv : line1.valid ≠ 0)
    (hbefore : ∀ (j : Nat) (lj : set_line), j < k → lines[j]? = some lj → lj.valid ≠ 0) :
    valid_slots_first ⟨lines.set k line1⟩ := by
  intro i j li lj hji hi hj hvi
  rcases getElem?_set_cases lines k j line1 lj hj with ⟨_, hlj⟩ | ⟨hjk, hj0⟩
  · rw [hlj]
    exact hv
  · rcases getElem?_set_cases lines k i line1 li hi with ⟨hik, _⟩ | ⟨_, hi0⟩
    · exact hbefore j lj (by omega) hj0
    · exact hold i j li lj hji hi0 hj0 hvi

/-- The freshly initialised cache has no valid line, so in each of its sets the valid lines
occupy the first slots. -/
theorem init_cache_slots_first (par : cache_param_t) (si : Nat) (set : cache_set)
    (hset : (init_cache par).sets[si]? = some set) : valid_slots_first set := by
  intro i j li lj _ hi _ hvi
  have hli : li ∈ set.lines := List.mem_iff_getElem?.mpr ⟨i, hi⟩
  rw [init_cache_get par si set hset] at hli
  rw [List.eq_of_mem_replicate hli] at hvi
  exact absurd rfl hvi

/-- A sequence of `simulate` calls keeps the cache well shaped, the valid tags of every set
pairwise distinct and drawn from the accesses, and the valid lines in the first slots. -/
theorem simulate_all_inv (cfg : cache_param_t) (acc : List Nat) (addrs : List Nat) :
    ∀ (cache_sim : cache) (par : cache_param_t), config_ok par → same_cfg cfg par →
    cache_wf cache_sim par → cache_inv cfg acc cache_sim →
    (∀ (si : Nat) (set : cache_set), cache_sim.sets[si]? = some set → valid_slots_first set) →
    (∀ a ∈ addrs, a ∈ acc) →
    ∃ (cache1 : cache) (par1 : cache_param_t),
      simulate_all cache_sim par addrs = some (cache1, par1) ∧ cache_wf cache1 par1 ∧
      cache_inv cfg acc cache1 ∧
      (∀ (si : Nat) (set : cache_set), cache1.sets[si]? = some set →
        valid_slots_first set) := by
  induction addrs with
  | nil =>
    intro cache_sim par _ _ hwf hinv hfirst _
    exact ⟨cache_sim, par, rfl, hwf, hinv, hfirst⟩
  | cons a rest ih =>
    intro cache_sim par hcfg hsame hwf hinv hfirst hacc
    obtain ⟨c1, p1, hsim, hw1, hc1, hs1, hi1, _⟩ :=
      simulate_inv cfg acc cache_sim par a hcfg hsame hwf hinv (hacc a (List.mem_cons_self _ _))
    have hfirst1 : ∀ (si : Nat) (set : cache_set), c1.sets[si]? = some set →
        valid_slots_first set := by
      obtain ⟨tag, si0, input_set, htag, hsi, hset, hlen⟩ :=
        decode_total cache_sim par a hcfg hwf
      obtain ⟨k, l, line1, par1, hkl, hset_sim, hv1, _, _, hbefore⟩ :=
        simulate_set_written input_set par tag hcfg.2.2.2 hlen
      have hsim2 := simulate_of_set cache_sim par a tag si0 input_set htag hsi hset
      rw [hset_sim, hsim] at hsim2
      have hc1eq : c1 = ⟨cache_sim.sets.set si0 ⟨input_set.lines.set k line1⟩⟩ :=
        congrArg Prod.fst (Option.some.inj hsim2)
      have hsilt : si0 < cache_sim.sets.length := (List.getElem?_eq_some_iff.mp hset).1
      intro si set hget
      rw [hc1eq] at hget
      by_cases h : si = si0
      · subst h
        simp only [List.getElem?_set_self hsilt, Option.some.injEq] at hget
        rw [← hget]
        exact valid_slots_first_set input_set.lines k line1 (hfirst si input_set hset) hv1
          (hbefore (hfirst si input_set hset))
      · simp only [List.getElem?_set_ne (Ne.symm h)] at hget
        exact hfirst si set hget
    obtain ⟨c2, p2, hrun, hrest⟩ := ih c1 p1 hc1 hs1 hw1 hi1 hfirst1
      (fun x hx => hacc x (List.mem_cons_of_mem _ hx))
    exact ⟨c2, p2, by simp [simulate_all, hsim, hrun], hrest⟩

/-! ## Exit status of the command line handling -/

theorem printUsage_exit (argv0 : String) (p : process) (h : p.exit_status = none) :
    (printUsage argv0 p).exit_status = some 0 := by
  simp [printUsage, printf, c_exit, h]

theorem printf_not_exited (line : String) (p : process) (h : p.exit_status = none) :
    (printf line p).exit_status = none := by
  simp [printf, h]

theorem c_exit_of_exited (status s0 : Int) (p : process) (h : p.exit_status = some s0) :
    (c_exit status p).exit_status = some s0 := by
  simp [c_exit, h]

theorem main_getopt_exit (argv0 : String) (opts : List getopt_result) :
    ∀ (st : main_state) (status : Int), st.proc.exit_status = none →
    (main_getopt argv0 st opts).proc.exit_status = some status → status = 0 := by
  induction opts with
  | nil =>
    intro st status h hs
    simp [main_getopt, h] at hs
  | cons o rest ih =>
    intro st status h hs
    cases o with
    | opt_s n =>
      simp only [main_getopt] at hs
      refine ih _ status ?_ hs
      exact h
    | opt_E n =>
      simp only [main_getopt] at hs
      refine ih _ status ?_ hs
      exact h
    | opt_b n =>
      simp only [main_getopt] at hs
      refine ih _ status ?_ hs
      exact h
    | opt_t file =>
      simp only [main_getopt] at hs
      refine ih _ status ?_ hs
      exact h
    | opt_v =>
      simp only [main_getopt] at hs
      refine ih _ status ?_ hs
      exact h
    | opt_h =>
      simp only [main_getopt, c_exit_of_exited 0 0 _ (printUsage_exit argv0 st.proc h),
        Option.some.injEq] at hs
      exact hs.symm
    | opt_other =>
      simp only [main_getopt, c_exit_of_exited 1 0 _ (printUsage_exit argv0 st.proc h),
        Option.some.injEq] at hs
      exact hs.symm

/-- Whenever the command line handling of `main` ends the process, the exit status is 0:
every path to `exit(1)` first calls `printUsage`, which itself calls `exit(0)`. -/
theorem main_start_exit_zero (argv0 : String) (trace_file0 : Option String)
    (opts : List getopt_result) (status : Int)
    (h : (main_start argv0 trace_file0 opts).proc.exit_status = some status) : status = 0 := by
  unfold main_start at h
  simp only at h
  split at h
  · next s0 hs0 =>
    rw [hs0] at h
    cases h
    exact main_getopt_exit argv0 opts _ status rfl hs0
  · next hnone =>
    unfold main_check at h
    split at h
    · have hp := printf_not_exited (argv0 ++ ": Missing required command line argument") _ hnone
      have he := c_exit_of_exited 1 0 _ (printUsage_exit argv0 _ hp)
      simp only [he, Option.some.injEq] at h
      exact h.symm
    · rw [hnone] at h
      cases h

/-! ## A long run of hits -/

theorem wrap_int_succ (x : Int) : int_succ (wrap_int x) = wrap_int (x + 1) := by
  unfold int_succ wrap_int
  omega

/-- After the block of address 0 is resident in slot 0 of set 0, `n` more loads of address 0
are `n` hits: the `used_count` of the line and `hit_count` are incremented `n` times as
`int`s. -/
theorem run_repeated_hits (n : Nat) :
    ∀ (x y : Int),
    run_trace ⟨[⟨[⟨wrap_int x, 1, 0⟩, ⟨0, 0, 0⟩]⟩, ⟨[⟨0, 0, 0⟩, ⟨0, 0, 0⟩]⟩]⟩
        ⟨1, 1, 2, 0, 0, wrap_int y, 1, 0⟩ (List.replicate n (some (load 0))) =
      some (⟨[⟨[⟨wrap_int (x + n), 1, 0⟩, ⟨0, 0, 0⟩]⟩, ⟨[⟨0, 0, 0⟩, ⟨0, 0, 0⟩]⟩]⟩,
        ⟨1, 1, 2, 0, 0, wrap_int (y + n), 1, 0⟩) := by
  induction n with
  | zero =>
    intro x y
    simp [run_trace]
  | succ n ih =>
    intro x y
    have htag : input_tag_of ⟨1, 1, 2, 0, 0, wrap_int y, 1, 0⟩ 0 = some 0 := by
      rw [input_tag_of_eq _ 0 (by simp) (by simp) (by simp)]
      simp
    have hsi : setIndex_of ⟨1, 1, 2, 0, 0, wrap_int y, 1, 0⟩ 0 = some 0 := by
      rw [setIndex_of_eq _ 0 (by simp) (by simp) (by simp)]
      simp
    have h2 : (2 : Int).toNat = 2 := rfl
    have hstep : trace_step ⟨[⟨[⟨wrap_int x, 1, 0⟩, ⟨0, 0, 0⟩]⟩, ⟨[⟨0, 0, 0⟩, ⟨0, 0, 0⟩]⟩]⟩
        ⟨1, 1, 2, 0, 0, wrap_int y, 1, 0⟩ (load 0) =
        some (⟨[⟨[⟨wrap_int (x + 1), 1, 0⟩, ⟨0, 0, 0⟩]⟩, ⟨[⟨0, 0, 0⟩, ⟨0, 0, 0⟩]⟩]⟩,
          ⟨1, 1, 2, 0, 0, wrap_int (y + 1), 1, 0⟩) := by
      simp [trace_step, load, simulate, htag, hsi, simulate_set, simulate_scan, h2,
        wrap_int_succ]
    rw [List.replicate_succ, run_trace, hstep]
    simp only
    rw [ih (x + 1) (y + 1)]
    have e1 : x + 1 + (n : Int) = x + ((n + 1 : Nat) : Int) := by push_cast; ring
    have e2 : y + 1 + (n : Int) = y + ((n + 1 : Nat) : Int) := by push_cast; ring
    rw [e1, e2]

theorem sum_access_count_loads (n : Nat) :
    ((List.replicate n (load 0)).map access_count).sum = (n : Int) := by
  induction n with
  | zero => rfl
  | succ n ih =>
    rw [List.replicate_succ, List.map_cons, List.sum_cons, ih]
    have h1 : access_count (load 0) = 1 := by decide
    rw [h1]
    push_cast
    ring

theorem outcome_accesses_nonneg (e : Option trace_event) : 0 ≤ outcome_accesses e := by
  cases e with
  | none => exact le_refl _
  | some ev => exact access_count_nonneg ev

/-- The first `n` outcomes of a trace have no more simulated accesses than the whole trace. -/
theorem outcome_accesses_take_le (trace : List (Option trace_event)) :
    ∀ n : Nat, ((trace.take n).map outcome_accesses).sum ≤ (trace.map outcome_accesses).sum := by
  induction trace with
  | nil =>
    intro n
    simp
  | cons e rest ih =>
    intro n
    cases n with
    | zero =>
      simp only [List.take_zero, List.map_nil, List.sum_nil]
      apply List.sum_nonneg
      intro x hx
      obtain ⟨e1, _, he1⟩ := List.mem_map.mp hx
      exact he1 ▸ outcome_accesses_nonneg e1
    | succ m =>
      simp only [List.take_succ_cons, List.map_cons, List.sum_cons]
      have := ih m
      omega

/-! ## Configurations whose number of sets overflows -/

/-- For `par.s ≥ 31` the value stored in `num_sets` is not positive. -/
theorem num_sets_nonpos (par : cache_param_t) (h : 30 < par.s) : num_sets par ≤ 0 := by
  have hn : par.s.toNat = 31 + (par.s.toNat - 31) := by omega
  have hpos : (0 : Int) < 2 ^ (par.s.toNat - 31) := by positivity
  have hpow : (2 : Int) ^ par.s.toNat = 2147483648 * 2 ^ (par.s.toNat - 31) := by
    rw [hn, pow_add]
    simp
  unfold num_sets wrap_int
  rw [hpow]
  generalize (2 : Int) ^ (par.s.toNat - 31) = m at hpos
  omega

/-- For `par.s ≥ 31` the allocation loop of `main` builds no set. -/
theorem init_cache_no_set (par : cache_param_t) (h : 30 < par.s) :
    (init_cache par).sets = [] := by
  have h0 : (num_sets par).toNat = 0 := by
    have := num_sets_nonpos par h
    omega
  simp [init_cache, h0]

/-- On a cache without sets the fetch of the target set is out of bounds. -/
theorem simulate_no_set (cache_sim : cache) (par : cache_param_t) (a : Nat)
    (h : cache_sim.sets = []) : simulate cache_sim par a = none := by
  unfold simulate
  cases input_tag_of par a with
  | none => rfl
  | some tag =>
    cases setIndex_of par a with
    | none => rfl
    | some si => simp [h]

/-! ## The claims -/

/-- C1 (the claim fails outside the `int` range): (1) for the configuration `s = 31`, `b = 1`,
`E = 1`, which satisfies `s > 0`, `b > 0`, `s + b < 64`, `E ≥ 1`, the shift `1 << par.s`
overflows the `int` `num_sets`, the freshly initialised cache has no set, and the driver loop
has no result on the single event `L 0,1`: the access reads `cache_sim.sets[0]` outside the
allocated range; (2) for `s = 1`, `b = 1`, `E = 2` and the trace of 2147483649 events `L 0,1`,
which has 2147483649 simulated accesses, the driver loop ends with `hit_count = -2147483648`
and `miss_count = 1`, whose sum is -2147483647. -/
theorem C1_fails_outside_int_range :
    (config_ok par_s31 ∧ num_sets par_s31 = INT_MIN ∧ (init_cache par_s31).sets = [] ∧
      run_trace (init_cache par_s31) (init_par par_s31) ([load 0].map some) = none) ∧
    (config_ok demo_par ∧
      run_trace (init_cache demo_par) (init_par demo_par)
          ((List.replicate 2147483649 (load 0)).map some) =
        some (⟨[⟨[⟨-2147483647, 1, 0⟩, ⟨0, 0, 0⟩]⟩, ⟨[⟨0, 0, 0⟩, ⟨0, 0, 0⟩]⟩]⟩,
          ⟨1, 1, 2, 0, 0, -2147483648, 1, 0⟩) ∧
      ((List.replicate 2147483649 (load 0)).map access_count).sum = 2147483649) := by
  refine ⟨by decide, by decide, ?_, ?_⟩
  · have hstep : trace_step (init_cache demo_par) (init_par demo_par) (load 0) =
        some (⟨[⟨[⟨wrap_int 1, 1, 0⟩, ⟨0, 0, 0⟩]⟩, ⟨[⟨0, 0, 0⟩, ⟨0, 0, 0⟩]⟩]⟩,
          ⟨1, 1, 2, 0, 0, wrap_int 0, 1, 0⟩) := by decide
    rw [List.map_replicate, show (2147483649 : Nat) = 2147483648 + 1 from rfl,
      List.replicate_succ, run_trace, hstep]
    simp only
    rw [run_repeated_hits 2147483648 1 0]
    rfl
  · rw [sum_access_count_loads]
    rfl

/-- C1 (amended): for every configuration with `s > 0`, `b > 0`, `s + b < 64`, `E ≥ 1` and
`s ≤ 30`, and every trace of well-formed events whose number of simulated accesses (1 for each
`L` or `S`, 2 for each `M`, 0 for `I` and any other kind) is at most `INT_MAX`, the driver
loop run from the freshly initialised cache returns, and the final `hit_count + miss_count`
is the number of simulated accesses. -/
theorem C1_hits_plus_misses (par : cache_param_t) (trace : List trace_event)
    (hcfg : config_ok par) (hs : par.s ≤ 30)
    (hlen : (trace.map access_count).sum ≤ INT_MAX) :
    ∃ (cache1 : cache) (par1 : cache_param_t),
      run_trace (init_cache par) (init_par par) (trace.map some) = some (cache1, par1) ∧
      par1.hit_count + par1.miss_count = (trace.map access_count).sum := by
  have hfun : ((fun e => match e with | none => 0 | some ev => access_count ev) ∘ some) =
      access_count := by
    funext ev
    rfl
  obtain ⟨c1, p1, hrun, _, _, _, _, hsum⟩ :=
    run_trace_ok (trace.map some) (init_cache par) (init_par par) hcfg
      (init_cache_wf par (by have := hcfg.2.2.2; omega) (by have := hcfg.1; omega) hs)
      (le_refl _) (le_refl _) (le_refl _) (le_refl _)
      (by simp only [List.map_map, hfun]; simpa [init_par] using hlen)
  refine ⟨c1, p1, hrun, ?_⟩
  have h := hsum (by simp)
  simp only [List.map_map] at h
  rw [hfun] at h
  simpa [init_par] using h

/-- C1 at a concrete input: `s = 1`, `b = 1`, `E = 2` and the trace `L 0`, `M 4`, `I 8`, `S 0`. -/
theorem C1_hits_plus_misses_witness :
    config_ok ⟨1, 1, 2, 0, 0, 0, 0, 0⟩ ∧
    ∃ (cache1 : cache) (par1 : cache_param_t),
      run_trace (init_cache ⟨1, 1, 2, 0, 0, 0, 0, 0⟩) (init_par ⟨1, 1, 2, 0, 0, 0, 0, 0⟩)
        (([⟨'L', 0, 1⟩, ⟨'M', 4, 1⟩, ⟨'I', 8, 1⟩, ⟨'S', 0, 1⟩] : List trace_event).map some) =
          some (cache1, par1) ∧
      par1.hit_count + par1.miss_count =
        (([⟨'L', 0, 1⟩, ⟨'M', 4, 1⟩, ⟨'I', 8, 1⟩, ⟨'S', 0, 1⟩] : List trace_event).map
          access_count).sum :=
  ⟨by decide, C1_hits_plus_misses ⟨1, 1, 2, 0, 0, 0, 0, 0⟩
    [⟨'L', 0, 1⟩, ⟨'M', 4, 1⟩, ⟨'I', 8, 1⟩, ⟨'S', 0, 1⟩] (by decide) (by decide) (by decide)⟩

/-- C2 (the code at the failing input): with `s = 1`, `b = 1`, `E = 2` the addresses 0, 4, 8
map to set 0 with the pairwise distinct tags `A = 0`, `B = 1`, `C = 2`. After the accesses
`A, B, A` from the freshly initialised cache both lines of set 0 have `used_count` 2 (the hit
on `A` only added one to its own counter), and the fourth access, to `C`, is a miss with an
eviction that overwrites slot 0, the line holding `A`: afterwards the set holds the tags `C`
and `B`, not `A` and `C`. -/
theorem C2_code_evicts_refreshed_line :
    input_tag_of demo_par 0 = some 0 ∧ input_tag_of demo_par 4 = some 1 ∧
    input_tag_of demo_par 8 = some 2 ∧
    setIndex_of demo_par 0 = some 0 ∧ setIndex_of demo_par 4 = some 0 ∧
    setIndex_of demo_par 8 = some 0 ∧
    run_trace (init_cache demo_par) (init_par demo_par) [some (load 0), some (load 4),
        some (load 0)] =
      some (⟨[⟨[⟨2, 1, 0⟩, ⟨2, 1, 1⟩]⟩, ⟨[⟨0, 0, 0⟩, ⟨0, 0, 0⟩]⟩]⟩, ⟨1, 1, 2, 0, 0, 1, 2, 0⟩) ∧
    simulate ⟨[⟨[⟨2, 1, 0⟩, ⟨2, 1, 1⟩]⟩, ⟨[⟨0, 0, 0⟩, ⟨0, 0, 0⟩]⟩]⟩ ⟨1, 1, 2, 0, 0, 1, 2, 0⟩ 8 =
      some (⟨[⟨[⟨3, 1, 2⟩, ⟨2, 1, 1⟩]⟩, ⟨[⟨0, 0, 0⟩, ⟨0, 0, 0⟩]⟩]⟩, ⟨1, 1, 2, 0, 0, 1, 3, 1⟩) ∧
    run_trace (init_cache demo_par) (init_par demo_par) [some (load 0), some (load 4),
        some (load 0), some (load 8)] =
      some (⟨[⟨[⟨3, 1, 2⟩, ⟨2, 1, 1⟩]⟩, ⟨[⟨0, 0, 0⟩, ⟨0, 0, 0⟩]⟩]⟩, ⟨1, 1, 2, 0, 0, 1, 3, 1⟩) := by
  decide

/-- C3 (the code at the failing input): with `s = 1`, `b = 1`, `E = 2`, after the accesses 0
and 4 from the freshly initialised cache set 0 holds tag 0 with `used_count` 1 and tag 1 with
`used_count` 2. The next access to address 0 is a hit on slot 0 and leaves that line with
`used_count` 2, which is not strictly greater than the maximum `used_count` (2) the set had
before the access. -/
theorem C3_code_hit_adds_one :
    run_trace (init_cache demo_par) (init_par demo_par) [some (load 0), some (load 4)] =
      some (⟨[⟨[⟨1, 1, 0⟩, ⟨2, 1, 1⟩]⟩, ⟨[⟨0, 0, 0⟩, ⟨0, 0, 0⟩]⟩]⟩, ⟨1, 1, 2, 0, 0, 0, 2, 0⟩) ∧
    simulate ⟨[⟨[⟨1, 1, 0⟩, ⟨2, 1, 1⟩]⟩, ⟨[⟨0, 0, 0⟩, ⟨0, 0, 0⟩]⟩]⟩ ⟨1, 1, 2, 0, 0, 0, 2, 0⟩ 0 =
      some (⟨[⟨[⟨2, 1, 0⟩, ⟨2, 1, 1⟩]⟩, ⟨[⟨0, 0, 0⟩, ⟨0, 0, 0⟩]⟩]⟩, ⟨1, 1, 2, 0, 0, 1, 2, 0⟩) ∧
    ¬ (∀ l ∈ [(⟨1, 1, 0⟩ : set_line), ⟨2, 1, 1⟩],
        l.used_count < (⟨2, 1, 0⟩ : set_line).used_count) := by
  decide

/-- C4 (the claim fails at `s = 31`): for the configuration `s = 31`, `b = 1`, `E = 1` and the
trace of the single event `L 0,1`, every set has at most one distinct address and one distinct
tag among the simulated accesses, but the driver loop run from the freshly initialised cache,
which has no set because `1 << 31` overflows the `int` `num_sets`, has no result: there is no
final `evict_count`. -/
theorem C4_no_result_at_s31 :
    config_ok par_s31 ∧
    (∀ si : Nat,
      ((tags_of_set par_s31 (trace_accesses [load 0]) si).dedup.length : Int) ≤ par_s31.E ∧
      ((addrs_of_set par_s31 (trace_accesses [load 0]) si).dedup.length : Int) ≤ par_s31.E) ∧
    (init_cache par_s31).sets = [] ∧
    run_trace (init_cache par_s31) (init_par par_s31) ([load 0].map some) = none := by
  refine ⟨by decide, ?_, by decide, by decide⟩
  intro si
  have hacc : trace_accesses [load 0] = [0] := by decide
  have hE : par_s31.E = 1 := rfl
  have h1 : (addrs_of_set par_s31 (trace_accesses [load 0]) si).dedup.length ≤ 1 := by
    rw [hacc]
    exact le_trans (List.dedup_sublist _).length_le (List.length_filter_le _ _)
  have h2 := tags_le_addrs par_s31 (trace_accesses [load 0]) si
  rw [hE]
  omega

/-- C4 (amended): for every configuration with `s > 0`, `b > 0`, `s + b < 64`, `E ≥ 1` and
`s ≤ 30`, and every trace of well-formed events run from the freshly initialised cache, if for
each set the simulated accesses that map to it have at most `E` distinct tags (in particular,
at most `E` distinct addresses), then the driver loop returns with `evict_count = 0`. -/
theorem C4_no_eviction_within_capacity (par : cache_param_t) (trace : List trace_event)
    (hcfg : config_ok par) (hs : par.s ≤ 30)
    (hcap : ∀ si : Nat,
      ((tags_of_set par (trace_accesses trace) si).dedup.length : Int) ≤ par.E ∨
      ((addrs_of_set par (trace_accesses trace) si).dedup.length : Int) ≤ par.E) :
    ∃ (cache1 : cache) (par1 : cache_param_t),
      run_trace (init_cache par) (init_par par) (trace.map some) = some (cache1, par1) ∧
      par1.evict_count = 0 := by
  have hcap1 : ∀ si : Nat,
      ((tags_of_set par (trace_accesses trace) si).dedup.length : Int) ≤ par.E := by
    intro si
    rcases hcap si with h | h
    · exact h
    · have := tags_le_addrs par (trace_accesses trace) si
      omega
  obtain ⟨c1, p1, hrun, hev⟩ := run_trace_no_evict par (trace_accesses trace) hcap1 trace
    (init_cache par) (init_par par) hcfg ⟨rfl, rfl, rfl⟩
    (init_cache_wf par (by have := hcfg.2.2.2; omega) (by have := hcfg.1; omega) hs)
    (init_cache_inv par (trace_accesses trace) par)
    (fun ev hev a ha => List.mem_flatMap.mpr ⟨ev, hev, ha⟩)
  exact ⟨c1, p1, hrun, by rw [hev]; rfl⟩

/-- C4 at a concrete input: `s = 1`, `b = 1`, `E = 2` and the trace `L 0`, `L 4`, `M 0`,
`S 4`, `L 2`, whose addresses have the two tags 0 and 1 in set 0 and the tag 0 in set 1. -/
theorem C4_no_eviction_within_capacity_witness :
    config_ok demo_par ∧
    (∀ si : Nat,
      ((tags_of_set demo_par
        (trace_accesses [load 0, load 4, ⟨'M', 0, 1⟩, ⟨'S', 4, 1⟩, load 2]) si).dedup.length
          : Int) ≤ demo_par.E ∨
      ((addrs_of_set demo_par
        (trace_accesses [load 0, load 4, ⟨'M', 0, 1⟩, ⟨'S', 4, 1⟩, load 2]) si).dedup.length
          : Int) ≤ demo_par.E) ∧
    ∃ (cache1 : cache) (par1 : cache_param_t),
      run_trace (init_cache demo_par) (init_par demo_par)
        ([load 0, load 4, ⟨'M', 0, 1⟩, ⟨'S', 4, 1⟩, load 2].map some) = some (cache1, par1) ∧
      par1.evict_count = 0 := by
  have hcap : ∀ si : Nat,
      ((tags_of_set demo_par
        (trace_accesses [load 0, load 4, ⟨'M', 0, 1⟩, ⟨'S', 4, 1⟩, load 2]) si).dedup.length
          : Int) ≤ demo_par.E ∨
      ((addrs_of_set demo_par
        (trace_accesses [load 0, load 4, ⟨'M', 0, 1⟩, ⟨'S', 4, 1⟩, load 2]) si).dedup.length
          : Int) ≤ demo_par.E := by
    intro si
    right
    have hlen : (addrs_of_set demo_par
        (trace_accesses [load 0, load 4, ⟨'M', 0, 1⟩, ⟨'S', 4, 1⟩, load 2]) si).dedup.length ≤ 2 := by
      match si with
      | 0 => decide
      | 1 => decide
      | n + 2 =>
        have h0 : setIndex_of demo_par 0 = some 0 := by decide
        have h4 : setIndex_of demo_par 4 = some 0 := by decide
        have h2 : setIndex_of demo_par 2 = some 1 := by decide
        simp [addrs_of_set, trace_accesses, event_accesses, load, h0, h4, h2]
    have hE : demo_par.E = 2 := rfl
    omega
  exact ⟨by decide, hcap,
    C4_no_eviction_within_capacity demo_par
      [load 0, load 4, ⟨'M', 0, 1⟩, ⟨'S', 4, 1⟩, load 2] (by decide) (by decide) hcap⟩

/-- C5 (the claim fails at `INT_MAX`): on a cache of two sets of two lines whose set 0 holds
the tags 5 and 6, with `hit_count = 2147483647`, the call of `simulate` on address 20 (set 0,
tag 5) is a hit and leaves `hit_count = -2147483648`: the call decreases `hit_count`. -/
theorem C5_hit_count_decreases :
    config_ok ⟨1, 1, 2, 0, 0, 2147483647, 0, 0⟩ ∧
    cache_wf demo_cache_full ⟨1, 1, 2, 0, 0, 2147483647, 0, 0⟩ ∧
    simulate demo_cache_full ⟨1, 1, 2, 0, 0, 2147483647, 0, 0⟩ 20 =
      some (⟨[⟨[⟨3, 1, 5⟩, ⟨2, 1, 6⟩]⟩, ⟨[⟨0, 0, 0⟩, ⟨0, 0, 0⟩]⟩]⟩,
        ⟨1, 1, 2, 0, 0, -2147483648, 0, 0⟩) ∧
    (-2147483648 : Int) < 2147483647 := by
  decide

/-- C5 (amended): on a well-shaped cache, with `hit_count`, `miss_count` and `evict_count`
below `INT_MAX`, one call of `simulate` returns and decreases none of `hit_count`,
`miss_count`, `evict_count`, and it increments `evict_count` only when it also increments
`miss_count`; and for every trace with at most `INT_MAX` simulated accesses, run with zeroed
counters, after every event (after the first `n` outcomes of the trace, for every `n`)
`evict_count ≤ miss_count`. -/
theorem C5_counters_monotone (cache_sim : cache) (par : cache_param_t)
    (hcfg : config_ok par) (hwf : cache_wf cache_sim par) :
    (below_max par.hit_count → below_max par.miss_count → below_max par.evict_count →
      ∀ a : Nat, ∃ (cache1 : cache) (par1 : cache_param_t),
        simulate cache_sim par a = some (cache1, par1) ∧
        par.hit_count ≤ par1.hit_count ∧ par.miss_count ≤ par1.miss_count ∧
        par.evict_count ≤ par1.evict_count ∧
        (par.evict_count < par1.evict_count → par.miss_count < par1.miss_count)) ∧
    (∀ (trace : List (Option trace_event)) (n : Nat),
      (trace.map outcome_accesses).sum ≤ INT_MAX →
      ∃ (cache1 : cache) (par1 : cache_param_t),
        run_trace cache_sim (init_par par) (trace.take n) = some (cache1, par1) ∧
        par1.evict_count ≤ par1.miss_count) := by
  constructor
  · intro hh hm he a
    obtain ⟨c1, p1, hsim, _, _, hp⟩ := simulate_step_exact cache_sim par a hcfg hwf hh hm he
    refine ⟨c1, p1, hsim, ?_⟩
    rcases hp with ⟨e1, e2, e3⟩ | ⟨e1, e2, e3⟩ | ⟨e1, e2, e3⟩ <;>
      exact ⟨by omega, by omega, by omega, by omega⟩
  · intro trace n hlen
    have hle := outcome_accesses_take_le trace n
    obtain ⟨c1, p1, hrun, _, hm, _, hem, _⟩ :=
      run_trace_ok (trace.take n) cache_sim (init_par par) hcfg hwf (le_refl _) (le_refl _)
        (le_refl _) (le_refl _)
        (by
          show (0 : Int) + 0 + ((trace.take n).map outcome_accesses).sum ≤ INT_MAX
          omega)
    refine ⟨c1, p1, hrun, ?_⟩
    have h0 : (init_par par).evict_count = 0 := rfl
    have h1 : (init_par par).miss_count = 0 := rfl
    omega

/-- C5 at a concrete input: a cache of two sets of two lines with one resident block, the
counters 3, 4 and 1, and the trace `L 0`, `L 4`, `L 8` cut after two events. -/
theorem C5_counters_monotone_witness :
    config_ok ⟨1, 1, 2, 0, 0, 3, 4, 1⟩ ∧
    cache_wf demo_cache ⟨1, 1, 2, 0, 0, 3, 4, 1⟩ ∧
    (∃ (cache1 : cache) (par1 : cache_param_t),
      simulate demo_cache ⟨1, 1, 2, 0, 0, 3, 4, 1⟩ 20 = some (cache1, par1) ∧
      (3 : Int) ≤ par1.hit_count ∧ (4 : Int) ≤ par1.miss_count ∧
      (1 : Int) ≤ par1.evict_count ∧
      ((1 : Int) < par1.evict_count → (4 : Int) < par1.miss_count)) ∧
    (∃ (cache1 : cache) (par1 : cache_param_t),
      run_trace demo_cache (init_par ⟨1, 1, 2, 0, 0, 3, 4, 1⟩)
        ([some (load 0), some (load 4), some (load 8)].take 2) = some (cache1, par1) ∧
      par1.evict_count ≤ par1.miss_count) :=
  ⟨by decide, by decide,
    (C5_counters_monotone demo_cache ⟨1, 1, 2, 0, 0, 3, 4, 1⟩ (by decide) (by decide)).1
      (by decide) (by decide) (by decide) 20,
    (C5_counters_monotone demo_cache ⟨1, 1, 2, 0, 0, 3, 4, 1⟩ (by decide) (by decide)).2
      [some (load 0), some (load 4), some (load 8)] 2 (by decide)⟩

/-- C6 (the claim fails at `INT_MAX`): on `demo_cache`, where no line of set 0 holds tag 1,
with `miss_count = 2147483647`, the event `M 4` (set 0, tag 1) leaves
`miss_count = -2147483648`: `miss_count` is not increased by one. -/
theorem C6_miss_count_wraps :
    config_ok ⟨1, 1, 2, 0, 0, 0, 2147483647, 0⟩ ∧
    cache_wf demo_cache ⟨1, 1, 2, 0, 0, 0, 2147483647, 0⟩ ∧
    (∀ l ∈ [(⟨1, 1, 5⟩ : set_line), ⟨0, 0, 0⟩], ¬ (l.valid ≠ 0 ∧ l.tag = 1)) ∧
    input_tag_of ⟨1, 1, 2, 0, 0, 0, 2147483647, 0⟩ 4 = some 1 ∧
    setIndex_of ⟨1, 1, 2, 0, 0, 0, 2147483647, 0⟩ 4 = some 0 ∧
    trace_step demo_cache ⟨1, 1, 2, 0, 0, 0, 2147483647, 0⟩ ⟨'M', 4, 1⟩ =
      some (⟨[⟨[⟨1, 1, 5⟩, ⟨3, 1, 1⟩]⟩, ⟨[⟨0, 0, 0⟩, ⟨0, 0, 0⟩]⟩]⟩,
        ⟨1, 1, 2, 0, 0, 1, -2147483648, 0⟩) := by
  decide

/-- C6 (amended): on a well-shaped cache with `E ≥ 1`, two consecutive calls of `simulate` on
the same address both return and the second one is a hit (it executes `par.hit_count++` and
leaves `miss_count` and `evict_count` alone; with `hit_count` below `INT_MAX` before it, it
adds one to `hit_count`); these two calls are what an `M` event runs; and when no valid line
of the target set holds the tag of the address beforehand and `hit_count` and `miss_count`
are below `INT_MAX`, the `M` event adds exactly one to `miss_count` and exactly one to
`hit_count`. -/
theorem C6_modify_second_access_hits (cache_sim : cache) (par : cache_param_t) (a : Nat)
    (hcfg : config_ok par) (hwf : cache_wf cache_sim par) :
    ∃ (cache1 cache2 : cache) (par1 par2 : cache_param_t),
      simulate cache_sim par a = some (cache1, par1) ∧
      simulate cache1 par1 a = some (cache2, par2) ∧
      par2 = { par1 with hit_count := int_succ par1.hit_count } ∧
      (below_max par1.hit_count → par2.hit_count = par1.hit_count + 1) ∧
      (∀ size : Int, trace_step cache_sim par ⟨'M', a, size⟩ = some (cache2, par2)) ∧
      ((∀ (tag si : Nat) (input_set : cache_set) (l : set_line),
          input_tag_of par a = some tag → setIndex_of par a = some si →
          cache_sim.sets[si]? = some input_set → l ∈ input_set.lines →
          ¬ (l.valid ≠ 0 ∧ l.tag = tag)) →
        below_max par.hit_count → below_max par.miss_count →
        par2.miss_count = par.miss_count + 1 ∧ par2.hit_count = par.hit_count + 1) := by
  obtain ⟨tag, si, input_set, htag, hsi, hset, hlen⟩ := decode_total cache_sim par a hcfg hwf
  have hE := hcfg.2.2.2
  obtain ⟨k, l, line1, par1, hkl, hsim, hv1, ht1, hp⟩ :=
    simulate_set_installs input_set par tag hE hlen
  have hs1 : par1.s = par.s ∧ par1.b = par.b ∧ par1.E = par.E := by
    rcases hp with hp | ⟨_, hp | hp⟩ <;> subst hp <;> exact ⟨rfl, rfl, rfl⟩
  have htag1 : input_tag_of par1 a = some tag := by
    rw [← htag]
    simp only [input_tag_of, hs1.1, hs1.2.1]
  have hsi1 : setIndex_of par1 a = some si := by
    rw [← hsi]
    simp only [setIndex_of, hs1.1, hs1.2.1]
  have hsilt : si < cache_sim.sets.length := (List.getElem?_eq_some_iff.mp hset).1
  have hklt : k < input_set.lines.length := (List.getElem?_eq_some_iff.mp hkl).1
  have hfirst : simulate cache_sim par a =
      some (⟨cache_sim.sets.set si ⟨input_set.lines.set k line1⟩⟩, par1) := by
    rw [simulate_of_set cache_sim par a tag si input_set htag hsi hset, hsim]
    rfl
  have hset1 : (⟨cache_sim.sets.set si ⟨input_set.lines.set k line1⟩⟩ : cache).sets[si]? =
      some ⟨input_set.lines.set k line1⟩ := by
    simp [hsilt]
  obtain ⟨k2, l2, hk2, _, _, hsim2⟩ := simulate_set_hit_of_valid
    ⟨input_set.lines.set k line1⟩ par1 tag (by rw [hs1.2.2]; exact hE)
    (by rw [hs1.2.2]; simpa using hlen) ⟨k, line1, by simp [hklt], hv1, ht1⟩
  have hsecond := simulate_of_set _ par1 a tag si _ htag1 hsi1 hset1
  rw [hsim2] at hsecond
  refine ⟨_, _, par1, _, hfirst, hsecond, rfl, fun h => int_succ_eq _ h, ?_, ?_⟩
  · intro size
    simp only [trace_step]
    simp [hfirst, hsecond]
  · intro hno hh hm
    rcases hp with hp | ⟨_, hp | hp⟩
    · exfalso
      rcases simulate_set_cases input_set par tag hE hlen with
        ⟨k0, l0, hk0, hv0, ht0, _, _⟩ | ⟨_, _, _, _, _, _, _, _, _, _, _, _, hsim0⟩ |
        ⟨_, _, _, _, _, _, _, _, _, hsim0⟩
      · exact hno tag si input_set l0 htag hsi hset (List.mem_iff_getElem?.mpr ⟨k0, hk0⟩)
          ⟨hv0, ht0⟩
      · rw [hsim0] at hsim
        have := congrArg (fun r => r.map (fun x => x.2.miss_count)) hsim
        simp [hp] at this
        exact int_succ_ne _ this
      · rw [hsim0] at hsim
        have := congrArg (fun r => r.map (fun x => x.2.miss_count)) hsim
        simp [hp] at this
        exact int_succ_ne _ this
    · subst hp
      exact ⟨int_succ_eq _ hm, int_succ_eq _ hh⟩
    · subst hp
      exact ⟨int_succ_eq _ hm, int_succ_eq _ hh⟩

/-- C6 at a concrete input: the address 4 (set 0, tag 1) on `demo_cache`, which misses. -/
theorem C6_modify_second_access_hits_witness :
    config_ok demo_par ∧ cache_wf demo_cache demo_par ∧
    ∃ (cache1 cache2 : cache) (par1 par2 : cache_param_t),
      simulate demo_cache demo_par 4 = some (cache1, par1) ∧
      simulate cache1 par1 4 = some (cache2, par2) ∧
      par2 = { par1 with hit_count := int_succ par1.hit_count } ∧
      (below_max par1.hit_count → par2.hit_count = par1.hit_count + 1) ∧
      (∀ size : Int, trace_step demo_cache demo_par ⟨'M', 4, size⟩ = some (cache2, par2)) ∧
      ((∀ (tag si : Nat) (input_set : cache_set) (l : set_line),
          input_tag_of demo_par 4 = some tag → setIndex_of demo_par 4 = some si →
          demo_cache.sets[si]? = some input_set → l ∈ input_set.lines →
          ¬ (l.valid ≠ 0 ∧ l.tag = tag)) →
        below_max demo_par.hit_count → below_max demo_par.miss_count →
        par2.miss_count = demo_par.miss_count + 1 ∧ par2.hit_count = demo_par.hit_count + 1) :=
  ⟨by decide, by decide, C6_modify_second_access_hits demo_cache demo_par 4 (by decide) (by decide)⟩

/-- C7: for `s > 0`, `b > 0`, `s + b < 64` the decode of `simulate` is defined and gives
`input_tag = address >> (s + b)` and `setIndex = (address >> b) mod 2^s`, and the address is
`(input_tag << (s + b)) | (setIndex << b) | (address mod 2^b)`, with `setIndex < 2^s`. -/
theorem C7_address_decoding (par : cache_param_t) (a : Nat) (hs : 0 < par.s)
    (hb : 0 < par.b) (hsb : par.s + par.b < 64) :
    ∃ (input_tag setIndex : Nat), input_tag_of par a = some input_tag ∧
      setIndex_of par a = some setIndex ∧
      input_tag = a >>> (par.s + par.b).toNat ∧
      setIndex = (a >>> par.b.toNat) % 2 ^ par.s.toNat ∧
      setIndex < 2 ^ par.s.toNat ∧
      a = (input_tag <<< (par.s + par.b).toNat) ||| (setIndex <<< par.b.toNat) |||
        (a % 2 ^ par.b.toNat) := by
  refine ⟨_, _, input_tag_of_eq par a hs hb hsb, setIndex_of_eq par a hs hb hsb, rfl, rfl,
    Nat.mod_lt _ (by positivity), ?_⟩
  have hsum : (par.s + par.b).toNat = par.s.toNat + par.b.toNat := by omega
  rw [hsum]
  exact recompose_arith a par.s.toNat par.b.toNat

/-- C7 at a concrete input: `s = 4`, `b = 4` and the address `0xABCD`. -/
theorem C7_address_decoding_witness :
    (0 : Int) < 4 ∧ (0 : Int) < 4 ∧ ((4 : Int) + 4 < 64) ∧
    ∃ (input_tag setIndex : Nat),
      input_tag_of ⟨4, 4, 1, 0, 0, 0, 0, 0⟩ 0xABCD = some input_tag ∧
      setIndex_of ⟨4, 4, 1, 0, 0, 0, 0, 0⟩ 0xABCD = some setIndex ∧
      input_tag = 0xABCD >>> ((4 : Int) + 4).toNat ∧
      setIndex = (0xABCD >>> (4 : Int).toNat) % 2 ^ (4 : Int).toNat ∧
      setIndex < 2 ^ (4 : Int).toNat ∧
      0xABCD = (input_tag <<< ((4 : Int) + 4).toNat) ||| (setIndex <<< (4 : Int).toNat) |||
        (0xABCD % 2 ^ (4 : Int).toNat) :=
  ⟨by decide, by decide, by decide,
    C7_address_decoding ⟨4, 4, 1, 0, 0, 0, 0, 0⟩ 0xABCD (by decide) (by decide) (by decide)⟩

/-- C8: `find_empty_line` on a set of `E` lines returns `-1` exactly when every line is
valid, and otherwise the smallest index `k < E` with `lines[k].valid == 0`; and a miss of
`simulate` on a target set with at least one invalid line installs the block (tag of the
address, `valid = 1`, `used_count` the `int` successor of the maximum of the set, which is
one above a maximum below `INT_MAX`) in the slot `find_empty_line` returns and executes
`par.miss_count++` only, which adds one to a `miss_count` below `INT_MAX`, not
`par.evict_count++`. -/
theorem C8_install_in_first_empty (cache_sim : cache) (par : cache_param_t) (a tag si : Nat)
    (input_set : cache_set) (hcfg : config_ok par) (hwf : cache_wf cache_sim par)
    (htag : input_tag_of par a = some tag) (hsi : setIndex_of par a = some si)
    (hset : cache_sim.sets[si]? = some input_set) :
    (∀ set2 : cache_set, (set2.lines.length : Int) = par.E →
      ∃ r : Int, find_empty_line set2 par = some r ∧
        (r = -1 ↔ ∀ l ∈ set2.lines, l.valid ≠ 0) ∧
        (r ≠ -1 → ∃ (k : Nat) (l : set_line), r = (k : Int) ∧ (k : Int) < par.E ∧
          set2.lines[k]? = some l ∧ l.valid = 0 ∧
          ∀ (j : Nat) (l1 : set_line), j < k → set2.lines[j]? = some l1 → l1.valid ≠ 0)) ∧
    ((∀ l ∈ input_set.lines, ¬ (l.valid ≠ 0 ∧ l.tag = tag)) →
      (∃ l ∈ input_set.lines, l.valid = 0) →
      ∃ (k : Nat) (r lo hi : Int), find_empty_line input_set par = some (k : Int) ∧
        find_least_line input_set par = some (r, lo, hi) ∧
        simulate cache_sim par a =
          some (⟨cache_sim.sets.set si ⟨input_set.lines.set k ⟨int_succ hi, 1, tag⟩⟩⟩,
                { par with miss_count := int_succ par.miss_count }) ∧
        (below_max hi → int_succ hi = hi + 1) ∧
        (below_max par.miss_count → int_succ par.miss_count = par.miss_count + 1)) := by
  have hlen : (input_set.lines.length : Int) = par.E :=
    hwf.2 input_set (List.mem_iff_getElem?.mpr ⟨si, hset⟩)
  constructor
  · intro set2 hlen2
    rcases find_empty_line_spec set2 par hlen2 with ⟨hr, hall⟩ | ⟨k, l, hr, hk, hkl, hkv, hbefore⟩
    · refine ⟨-1, hr, ⟨fun _ l hl => ?_, fun _ => rfl⟩, fun h => absurd rfl h⟩
      obtain ⟨j, hj⟩ := List.mem_iff_getElem?.mp hl
      exact hall j l hj
    · refine ⟨(k : Int), hr, ⟨fun h => by omega, fun hall => ?_⟩,
        fun _ => ⟨k, l, rfl, hk, hkl, hkv, hbefore⟩⟩
      exact absurd hkv (hall l (List.mem_iff_getElem?.mpr ⟨k, hkl⟩))
  · intro hmiss hinv
    obtain ⟨l0, hl0, hl0v⟩ := hinv
    rw [simulate_of_set cache_sim par a tag si input_set htag hsi hset]
    rcases simulate_set_cases input_set par tag hcfg.2.2.2 hlen with
      ⟨k, l, hkl, hv, ht, _, _⟩ | ⟨_, k, l, r, lo, hi, _, _, _, hfe, hfl, _, hsim⟩ |
      ⟨_, hall, _⟩
    · exact absurd ⟨hv, ht⟩ (hmiss l (List.mem_iff_getElem?.mpr ⟨k, hkl⟩))
    · exact ⟨k, r, lo, hi, hfe, hfl, by rw [hsim]; rfl, fun h => int_succ_eq _ h,
        fun h => int_succ_eq _ h⟩
    · obtain ⟨j, hj⟩ := List.mem_iff_getElem?.mp hl0
      exact absurd hl0v (hall j l0 hj)

/-- C8 at a concrete input: the address 4 (set 0, tag 1) on `demo_cache`: the miss is
installed in slot 1, the first invalid line. -/
theorem C8_install_in_first_empty_witness :
    config_ok demo_par ∧ cache_wf demo_cache demo_par ∧
    input_tag_of demo_par 4 = some 1 ∧ setIndex_of demo_par 4 = some 0 ∧
    demo_cache.sets[0]? = some ⟨[⟨1, 1, 5⟩, ⟨0, 0, 0⟩]⟩ ∧
    (∀ l ∈ [(⟨1, 1, 5⟩ : set_line), ⟨0, 0, 0⟩], ¬ (l.valid ≠ 0 ∧ l.tag = 1)) ∧
    (∃ l ∈ [(⟨1, 1, 5⟩ : set_line), ⟨0, 0, 0⟩], l.valid = 0) ∧
    ∃ (k : Nat) (r lo hi : Int),
      find_empty_line ⟨[⟨1, 1, 5⟩, ⟨0, 0, 0⟩]⟩ demo_par = some (k : Int) ∧
      find_least_line ⟨[⟨1, 1, 5⟩, ⟨0, 0, 0⟩]⟩ demo_par = some (r, lo, hi) ∧
      simulate demo_cache demo_par 4 =
        some (⟨demo_cache.sets.set 0
                ⟨([(⟨1, 1, 5⟩ : set_line), ⟨0, 0, 0⟩]).set k ⟨int_succ hi, 1, 1⟩⟩⟩,
              { demo_par with miss_count := int_succ demo_par.miss_count }) ∧
      (below_max hi → int_succ hi = hi + 1) ∧
      (below_max demo_par.miss_count →
        int_succ demo_par.miss_count = demo_par.miss_count + 1) :=
  ⟨by decide, by decide, by decide, by decide, by decide, by decide, by decide,
    (C8_install_in_first_empty demo_cache demo_par 4 1 0 ⟨[⟨1, 1, 5⟩, ⟨0, 0, 0⟩]⟩
      (by decide) (by decide) (by decide) (by decide) (by decide)).2 (by decide) (by decide)⟩

/-- C9 (the claim fails at `INT_MAX`): on `demo_cache_full`, whose set 0 holds the tags 5 and
6, with `evict_count = 2147483647` (and `miss_count = -2147483645`, already wrapped), the call
of `simulate` on address 4 (set 0, tag 1) misses on a set whose lines are all valid and leaves
`evict_count = -2147483648`: `evict_count` is not incremented by one. -/
theorem C9_evict_count_wraps :
    config_ok ⟨1, 1, 2, 0, 0, 0, -2147483645, 2147483647⟩ ∧
    cache_wf demo_cache_full ⟨1, 1, 2, 0, 0, 0, -2147483645, 2147483647⟩ ∧
    input_tag_of ⟨1, 1, 2, 0, 0, 0, -2147483645, 2147483647⟩ 4 = some 1 ∧
    setIndex_of ⟨1, 1, 2, 0, 0, 0, -2147483645, 2147483647⟩ 4 = some 0 ∧
    (∀ l ∈ [(⟨2, 1, 5⟩ : set_line), ⟨2, 1, 6⟩], ¬ (l.valid ≠ 0 ∧ l.tag = 1)) ∧
    (∀ l ∈ [(⟨2, 1, 5⟩ : set_line), ⟨2, 1, 6⟩], l.valid ≠ 0) ∧
    simulate demo_cache_full ⟨1, 1, 2, 0, 0, 0, -2147483645, 2147483647⟩ 4 =
      some (⟨[⟨[⟨3, 1, 1⟩, ⟨2, 1, 6⟩]⟩, ⟨[⟨0, 0, 0⟩, ⟨0, 0, 0⟩]⟩]⟩,
        ⟨1, 1, 2, 0, 0, 0, -2147483644, -2147483648⟩) := by
  decide

/-- C9 (amended): `find_least_line` on a set of `E ≥ 1` lines returns the lowest index among
the lines of minimum `used_count` and writes the minimum and the maximum `used_count` of the
set to `buffer_lines[0]` and `buffer_lines[1]`; and a miss of `simulate` on a target set
whose lines are all valid overwrites the tag of exactly that line, gives it the `int`
successor of the maximum as `used_count`, and executes `par.miss_count++` and
`par.evict_count++` once each, which, with `evict_count` below `INT_MAX`, increments
`evict_count` by exactly 1. -/
theorem C9_evict_least_used (cache_sim : cache) (par : cache_param_t) (a tag si : Nat)
    (input_set : cache_set) (hcfg : config_ok par) (hwf : cache_wf cache_sim par)
    (htag : input_tag_of par a = some tag) (hsi : setIndex_of par a = some si)
    (hset : cache_sim.sets[si]? = some input_set) :
    (∀ set2 : cache_set, (set2.lines.length : Int) = par.E →
      ∃ (k : Nat) (l : set_line) (lo hi : Int),
        find_least_line set2 par = some ((k : Int), lo, hi) ∧
        set2.lines[k]? = some l ∧ l.used_count = lo ∧
        (∀ l1 ∈ set2.lines, lo ≤ l1.used_count ∧ l1.used_count ≤ hi) ∧
        (∃ l1 ∈ set2.lines, l1.used_count = hi) ∧
        (∀ (j : Nat) (l1 : set_line), j < k → set2.lines[j]? = some l1 →
          lo < l1.used_count)) ∧
    ((∀ l ∈ input_set.lines, ¬ (l.valid ≠ 0 ∧ l.tag = tag)) →
      (∀ l ∈ input_set.lines, l.valid ≠ 0) →
      ∃ (k : Nat) (l : set_line) (lo hi : Int),
        find_least_line input_set par = some ((k : Int), lo, hi) ∧
        input_set.lines[k]? = some l ∧
        simulate cache_sim par a =
          some (⟨cache_sim.sets.set si
                  ⟨input_set.lines.set k { l with tag := tag, used_count := int_succ hi }⟩⟩,
                { par with miss_count := int_succ par.miss_count,
                           evict_count := int_succ par.evict_count }) ∧
        (below_max par.evict_count → int_succ par.evict_count = par.evict_count + 1)) := by
  have hlen : (input_set.lines.length : Int) = par.E :=
    hwf.2 input_set (List.mem_iff_getElem?.mpr ⟨si, hset⟩)
  have hE := hcfg.2.2.2
  constructor
  · intro set2 hlen2
    obtain ⟨r, lo, hi, hfl, hpost⟩ := find_least_line_spec set2 par hE hlen2
    obtain ⟨k, l, hk, hkl, hlu, hbounds, hmax, hfirst⟩ :=
      least_line_post_mem set2.lines par.E.toNat r lo hi (by omega) hpost
    exact ⟨k, l, lo, hi, hk ▸ hfl, hkl, hlu, hbounds, hmax, hfirst⟩
  · intro hmiss hfull
    rw [simulate_of_set cache_sim par a tag si input_set htag hsi hset]
    rcases simulate_set_cases input_set par tag hE hlen with
      ⟨k, l, hkl, hv, ht, _, _⟩ | ⟨_, k, l, r, lo, hi, hkl, hkv, _⟩ |
      ⟨_, _, k, l, lo, hi, hkl, hfl, _, hsim⟩
    · exact absurd ⟨hv, ht⟩ (hmiss l (List.mem_iff_getElem?.mpr ⟨k, hkl⟩))
    · exact absurd hkv (hfull l (List.mem_iff_getElem?.mpr ⟨k, hkl⟩))
    · exact ⟨k, l, lo, hi, hfl, hkl, by rw [hsim]; rfl, fun h => int_succ_eq _ h⟩

/-- C9 at a concrete input: the address 4 (set 0, tag 1) on `demo_cache_full`: both lines
have `used_count` 2 and the victim is slot 0. -/
theorem C9_evict_least_used_witness :
    config_ok demo_par ∧ cache_wf demo_cache_full demo_par ∧
    input_tag_of demo_par 4 = some 1 ∧ setIndex_of demo_par 4 = some 0 ∧
    demo_cache_full.sets[0]? = some ⟨[⟨2, 1, 5⟩, ⟨2, 1, 6⟩]⟩ ∧
    (∀ l ∈ [(⟨2, 1, 5⟩ : set_line), ⟨2, 1, 6⟩], ¬ (l.valid ≠ 0 ∧ l.tag = 1)) ∧
    (∀ l ∈ [(⟨2, 1, 5⟩ : set_line), ⟨2, 1, 6⟩], l.valid ≠ 0) ∧
    ∃ (k : Nat) (l : set_line) (lo hi : Int),
      find_least_line ⟨[⟨2, 1, 5⟩, ⟨2, 1, 6⟩]⟩ demo_par = some ((k : Int), lo, hi) ∧
      ([(⟨2, 1, 5⟩ : set_line), ⟨2, 1, 6⟩])[k]? = some l ∧
      simulate demo_cache_full demo_par 4 =
        some (⟨demo_cache_full.sets.set 0
                ⟨([(⟨2, 1, 5⟩ : set_line), ⟨2, 1, 6⟩]).set k
                  { l with tag := 1, used_count := int_succ hi }⟩⟩,
              { demo_par with miss_count := int_succ demo_par.miss_count,
                              evict_count := int_succ demo_par.evict_count }) ∧
      (below_max demo_par.evict_count →
        int_succ demo_par.evict_count = demo_par.evict_count + 1) :=
  ⟨by decide, by decide, by decide, by decide, by decide, by decide, by decide,
    (C9_evict_least_used demo_cache_full demo_par 4 1 0 ⟨[⟨2, 1, 5⟩, ⟨2, 1, 6⟩]⟩
      (by decide) (by decide) (by decide) (by decide) (by decide)).2 (by decide) (by decide)⟩

/-- C10 (the claim fails at `INT_MAX`): on `demo_cache_max`, whose set 0 holds tag 5 with
`used_count = 2147483647` and tag 6 with `used_count = 2`, the call of `simulate` on address 4
(set 0, tag 1) misses, evicts slot 1 and installs the new line with
`used_count = -2147483648`, which is below the `used_count` of both lines the set had before:
the newly loaded line is the least recently used line of its set. -/
theorem C10_installed_line_least_recent :
    config_ok demo_par ∧ cache_wf demo_cache_max demo_par ∧
    input_tag_of demo_par 4 = some 1 ∧ setIndex_of demo_par 4 = some 0 ∧
    demo_cache_max.sets[0]? = some ⟨[⟨2147483647, 1, 5⟩, ⟨2, 1, 6⟩]⟩ ∧
    (∀ l ∈ [(⟨2147483647, 1, 5⟩ : set_line), ⟨2, 1, 6⟩], ¬ (l.valid ≠ 0 ∧ l.tag = 1)) ∧
    simulate demo_cache_max demo_par 4 =
      some (⟨[⟨[⟨2147483647, 1, 5⟩, ⟨-2147483648, 1, 1⟩]⟩, ⟨[⟨0, 0, 0⟩, ⟨0, 0, 0⟩]⟩]⟩,
        ⟨1, 1, 2, 0, 0, 0, 1, 1⟩) ∧
    (∀ l ∈ [(⟨2147483647, 1, 5⟩ : set_line), ⟨2, 1, 6⟩], (-2147483648 : Int) < l.used_count) := by
  decide

/-- C10 (amended): on every miss of `simulate` (no valid line of the target set holds the tag)
on a target set whose lines all have a `used_count` below `INT_MAX`, with the destination slot
empty or evicted, the call returns with `par.miss_count++` executed, one slot `k` of the
target set rewritten, and the line now in that slot has the tag of the address, a non-zero
`valid`, and a `used_count` strictly greater than the `used_count` any line of the set had
before, hence strictly greater than that of every other line of the set afterwards. -/
theorem C10_installed_line_most_recent (cache_sim : cache) (par : cache_param_t)
    (a tag si : Nat) (input_set : cache_set) (hcfg : config_ok par)
    (hwf : cache_wf cache_sim par) (htag : input_tag_of par a = some tag)
    (hsi : setIndex_of par a = some si) (hset : cache_sim.sets[si]? = some input_set)
    (hmiss : ∀ l ∈ input_set.lines, ¬ (l.valid ≠ 0 ∧ l.tag = tag))
    (hbelow : ∀ l ∈ input_set.lines, below_max l.used_count) :
    ∃ (k : Nat) (line1 : set_line) (par1 : cache_param_t), k < input_set.lines.length ∧
      simulate cache_sim par a =
        some (⟨cache_sim.sets.set si ⟨input_set.lines.set k line1⟩⟩, par1) ∧
      par1.miss_count = int_succ par.miss_count ∧ par1.hit_count = par.hit_count ∧
      line1.tag = tag ∧ line1.valid ≠ 0 ∧
      (∀ l ∈ input_set.lines, l.used_count < line1.used_count) ∧
      (∀ (j : Nat) (l1 : set_line), j ≠ k → (input_set.lines.set k line1)[j]? = some l1 →
        l1.used_count < line1.used_count) := by
  have hlen : (input_set.lines.length : Int) = par.E :=
    hwf.2 input_set (List.mem_iff_getElem?.mpr ⟨si, hset⟩)
  have hE := hcfg.2.2.2
  have hother : ∀ (k : Nat) (line1 : set_line),
      (∀ l ∈ input_set.lines, l.used_count < line1.used_count) →
      ∀ (j : Nat) (l1 : set_line), j ≠ k → (input_set.lines.set k line1)[j]? = some l1 →
        l1.used_count < line1.used_count := by
    intro k line1 hlt j l1 hjk hj
    rw [List.getElem?_set_ne (Ne.symm hjk)] at hj
    exact hlt l1 (List.mem_iff_getElem?.mpr ⟨j, hj⟩)
  rw [simulate_of_set cache_sim par a tag si input_set htag hsi hset]
  rcases simulate_set_cases input_set par tag hE hlen with
    ⟨k, l, hkl, hv, ht, _, _⟩ | ⟨_, k, l, r, lo, hi, hkl, _, _, _, _, hpost, hsim⟩ |
    ⟨_, hall, k, l, lo, hi, hkl, _, hpost, hsim⟩
  · exact absurd ⟨hv, ht⟩ (hmiss l (List.mem_iff_getElem?.mpr ⟨k, hkl⟩))
  · obtain ⟨_, _, _, _, _, hbounds, ⟨lm, hlm, hlmu⟩, _⟩ :=
      least_line_post_mem input_set.lines par.E.toNat r lo hi (by omega) hpost
    have hhi := below_max_lt_succ hi (hlmu ▸ hbelow lm hlm)
    have hlt : ∀ l1 ∈ input_set.lines,
        l1.used_count < (⟨int_succ hi, 1, tag⟩ : set_line).used_count := by
      intro l1 hl1
      have := (hbounds l1 hl1).2
      show l1.used_count < int_succ hi
      omega
    exact ⟨k, ⟨int_succ hi, 1, tag⟩, { par with miss_count := int_succ par.miss_count },
      (List.getElem?_eq_some_iff.mp hkl).1, by rw [hsim]; rfl, rfl, rfl, rfl, by simp, hlt,
      hother k _ hlt⟩
  · obtain ⟨_, _, _, _, _, hbounds, ⟨lm, hlm, hlmu⟩, _⟩ :=
      least_line_post_mem input_set.lines par.E.toNat (k : Int) lo hi (by omega) hpost
    have hhi := below_max_lt_succ hi (hlmu ▸ hbelow lm hlm)
    have hlt : ∀ l1 ∈ input_set.lines,
        l1.used_count <
          ({ l with tag := tag, used_count := int_succ hi } : set_line).used_count := by
      intro l1 hl1
      have := (hbounds l1 hl1).2
      show l1.used_count < int_succ hi
      omega
    exact ⟨k, { l with tag := tag, used_count := int_succ hi },
      { par with miss_count := int_succ par.miss_count,
                 evict_count := int_succ par.evict_count },
      (List.getElem?_eq_some_iff.mp hkl).1, by rw [hsim]; rfl, rfl, rfl, rfl, hall k l hkl, hlt,
      hother k _ hlt⟩

/-- C10 at a concrete input: the address 4 (set 0, tag 1) on `demo_cache_full`. -/
theorem C10_installed_line_most_recent_witness :
    config_ok demo_par ∧ cache_wf demo_cache_full demo_par ∧
    input_tag_of demo_par 4 = some 1 ∧ setIndex_of demo_par 4 = some 0 ∧
    demo_cache_full.sets[0]? = some ⟨[⟨2, 1, 5⟩, ⟨2, 1, 6⟩]⟩ ∧
    (∀ l ∈ [(⟨2, 1, 5⟩ : set_line), ⟨2, 1, 6⟩], ¬ (l.valid ≠ 0 ∧ l.tag = 1)) ∧
    (∀ l ∈ [(⟨2, 1, 5⟩ : set_line), ⟨2, 1, 6⟩], below_max l.used_count) ∧
    ∃ (k : Nat) (line1 : set_line) (par1 : cache_param_t),
      k < ([(⟨2, 1, 5⟩ : set_line), ⟨2, 1, 6⟩]).length ∧
      simulate demo_cache_full demo_par 4 =
        some (⟨demo_cache_full.sets.set 0
                ⟨([(⟨2, 1, 5⟩ : set_line), ⟨2, 1, 6⟩]).set k line1⟩⟩, par1) ∧
      par1.miss_count = int_succ demo_par.miss_count ∧ par1.hit_count = demo_par.hit_count ∧
      line1.tag = 1 ∧ line1.valid ≠ 0 ∧
      (∀ l ∈ [(⟨2, 1, 5⟩ : set_line), ⟨2, 1, 6⟩], l.used_count < line1.used_count) ∧
      (∀ (j : Nat) (l1 : set_line), j ≠ k →
        (([(⟨2, 1, 5⟩ : set_line), ⟨2, 1, 6⟩]).set k line1)[j]? = some l1 →
        l1.used_count < line1.used_count) :=
  ⟨by decide, by decide, by decide, by decide, by decide, by decide, by decide,
    C10_installed_line_most_recent demo_cache_full demo_par 4 1 0 ⟨[⟨2, 1, 5⟩, ⟨2, 1, 6⟩]⟩
      (by decide) (by decide) (by decide) (by decide) (by decide) (by decide) (by decide)⟩

/-- C11 (the claim fails at `s = 31`): for the direct-mapped configuration `s = 31`, `b = 1`,
`E = 1`, the addresses 0 and 4294967296 decode to the same set 0 with the different tags 0
and 1, but the freshly initialised cache has no set, because `1 << 31` overflows the `int`
`num_sets`, and already the first access has no result: it reads `cache_sim.sets[0]` outside
the allocated range, and no eviction is recorded. -/
theorem C11_no_result_at_s31 :
    config_ok par_s31 ∧ par_s31.E = 1 ∧
    input_tag_of par_s31 0 = some 0 ∧ input_tag_of par_s31 4294967296 = some 1 ∧
    setIndex_of par_s31 0 = some 0 ∧ setIndex_of par_s31 4294967296 = some 0 ∧
    (init_cache par_s31).sets = [] ∧
    simulate (init_cache par_s31) (init_par par_s31) 0 = none := by
  decide

/-- C11 (amended): direct-mapped case, `E = 1`. On every cache (so on every cache reachable
from the freshly initialised one), an access whose target set is a single valid line with a
different tag is a miss with an eviction:
`par.miss_count++` and `par.evict_count++` are executed, which adds one to each counter that
is below `INT_MAX`, and the resident tag is replaced by the tag of the address. In
particular, for `s ≤ 30`, from the freshly initialised cache, accessing two addresses of the
same set with different tags gives a miss without eviction and then a miss with eviction. -/
theorem C11_direct_mapped_conflict (par : cache_param_t) (hcfg : config_ok par)
    (hE : par.E = 1) :
    (∀ (cache_sim : cache) (a tag si : Nat) (l : set_line),
      input_tag_of par a = some tag → setIndex_of par a = some si →
      cache_sim.sets[si]? = some ⟨[l]⟩ → l.valid ≠ 0 → l.tag ≠ tag →
      simulate cache_sim par a =
        some (⟨cache_sim.sets.set si
                ⟨[{ l with tag := tag, used_count := int_succ l.used_count }]⟩⟩,
              { par with miss_count := int_succ par.miss_count,
                         evict_count := int_succ par.evict_count }) ∧
      (below_max par.miss_count → int_succ par.miss_count = par.miss_count + 1) ∧
      (below_max par.evict_count → int_succ par.evict_count = par.evict_count + 1)) ∧
    (par.s ≤ 30 → ∀ (a1 a2 tag1 tag2 si : Nat), input_tag_of par a1 = some tag1 →
      input_tag_of par a2 = some tag2 → setIndex_of par a1 = some si →
      setIndex_of par a2 = some si → tag1 ≠ tag2 →
      ∃ (cache1 cache2 : cache) (par1 par2 : cache_param_t),
        simulate (init_cache par) (init_par par) a1 = some (cache1, par1) ∧
        simulate cache1 par1 a2 = some (cache2, par2) ∧
        par1.miss_count = 1 ∧ par1.evict_count = 0 ∧
        par2.miss_count = 2 ∧ par2.evict_count = 1 ∧ par2.hit_count = 0 ∧
        cache1.sets[si]? = some ⟨[⟨1, 1, tag1⟩]⟩ ∧
        cache2.sets[si]? = some ⟨[⟨2, 1, tag2⟩]⟩) := by
  have hpart1 : ∀ (cache_sim : cache) (p : cache_param_t) (a tag si : Nat) (l : set_line),
      p.E = 1 → input_tag_of p a = some tag → setIndex_of p a = some si →
      cache_sim.sets[si]? = some ⟨[l]⟩ → l.valid ≠ 0 → l.tag ≠ tag →
      simulate cache_sim p a =
        some (⟨cache_sim.sets.set si
                ⟨[{ l with tag := tag, used_count := int_succ l.used_count }]⟩⟩,
              { p with miss_count := int_succ p.miss_count,
                       evict_count := int_succ p.evict_count }) := by
    intro cache_sim p a tag si l hpE htag hsi hset hv ht
    rw [simulate_of_set cache_sim p a tag si ⟨[l]⟩ htag hsi hset,
      simulate_set_single_conflict p hpE l tag hv ht]
    rfl
  refine ⟨fun cache_sim a tag si l htag hsi hset hv ht =>
    ⟨hpart1 cache_sim par a tag si l hE htag hsi hset hv ht, fun h => int_succ_eq _ h,
      fun h => int_succ_eq _ h⟩, ?_⟩
  intro hs30 a1 a2 tag1 tag2 si htag1 htag2 hsi1 hsi2 hne
  have hwf0 := init_cache_wf par (by have := hcfg.2.2.2; omega) (by have := hcfg.1; omega) hs30
  obtain ⟨t, s0, set0, ht0, hs0, hset0, _⟩ :=
    decode_total (init_cache par) (init_par par) a1 hcfg hwf0
  have hs0eq : s0 = si := by
    have : setIndex_of (init_par par) a1 = setIndex_of par a1 := rfl
    rw [this, hsi1] at hs0
    exact (Option.some.inj hs0).symm
  subst hs0eq
  have hset0eq : set0 = ⟨[⟨0, 0, 0⟩]⟩ := by
    rw [init_cache_get par s0 set0 hset0, hE]
    rfl
  rw [hset0eq] at hset0
  have hsilt : s0 < (init_cache par).sets.length := (List.getElem?_eq_some_iff.mp hset0).1
  have hfirst : simulate (init_cache par) (init_par par) a1 =
      some (⟨(init_cache par).sets.set s0 ⟨[⟨1, 1, tag1⟩]⟩⟩,
        { init_par par with miss_count := int_succ (init_par par).miss_count }) := by
    rw [simulate_of_set (init_cache par) (init_par par) a1 tag1 s0 ⟨[⟨0, 0, 0⟩]⟩ htag1 hsi1
      hset0, simulate_set_single_empty (init_par par) hE tag1]
    rfl
  have hget1 : (⟨(init_cache par).sets.set s0 ⟨[⟨1, 1, tag1⟩]⟩⟩ : cache).sets[s0]? =
      some ⟨[⟨1, 1, tag1⟩]⟩ := by
    simp [hsilt]
  have hsecond := hpart1 ⟨(init_cache par).sets.set s0 ⟨[⟨1, 1, tag1⟩]⟩⟩
    { init_par par with miss_count := int_succ (init_par par).miss_count } a2 tag2 s0
    ⟨1, 1, tag1⟩ hE htag2 hsi2 hget1 (by simp) hne
  refine ⟨_, _, _, _, hfirst, hsecond, int_succ_zero, rfl,
    (congrArg int_succ int_succ_zero).trans int_succ_one, int_succ_zero, rfl, hget1, ?_⟩
  simp [hsilt, int_succ_one]

/-- C11 at a concrete input: `s = 1`, `b = 1`, `E = 1`; address 8 (set 0, tag 2) on a cache
whose set 0 holds tag 0, and the addresses 0 and 8 from the freshly initialised cache. -/
theorem C11_direct_mapped_conflict_witness :
    config_ok direct_par ∧ direct_par.E = 1 ∧
    simulate ⟨[⟨[⟨1, 1, 0⟩]⟩, ⟨[⟨0, 0, 0⟩]⟩]⟩ direct_par 8 =
      some (⟨[⟨[⟨2, 1, 2⟩]⟩, ⟨[⟨0, 0, 0⟩]⟩]⟩, ⟨1, 1, 1, 0, 0, 0, 1, 1⟩) ∧
    ∃ (cache1 cache2 : cache) (par1 par2 : cache_param_t),
      simulate (init_cache direct_par) (init_par direct_par) 0 = some (cache1, par1) ∧
      simulate cache1 par1 8 = some (cache2, par2) ∧
      par1.miss_count = 1 ∧ par1.evict_count = 0 ∧
      par2.miss_count = 2 ∧ par2.evict_count = 1 ∧ par2.hit_count = 0 ∧
      cache1.sets[0]? = some ⟨[⟨1, 1, 0⟩]⟩ ∧
      cache2.sets[0]? = some ⟨[⟨2, 1, 2⟩]⟩ :=
  ⟨by decide, by decide,
    ((C11_direct_mapped_conflict direct_par (by decide) (by decide)).1
      ⟨[⟨[⟨1, 1, 0⟩]⟩, ⟨[⟨0, 0, 0⟩]⟩]⟩ 8 2 0 ⟨1, 1, 0⟩ (by decide) (by decide) (by decide)
      (by decide) (by decide)).1,
    (C11_direct_mapped_conflict direct_par (by decide) (by decide)).2 (by decide) 0 8 0 2 0
      (by decide) (by decide) (by decide) (by decide) (by decide)⟩

/-- C12: with `s = 1`, `E = 1`, `b = 1` the addresses 0 and 8 both decode to set index 0,
with the different tags 0 and 2, and the trace `L 0,1`; `L 8,1`; `L 0,1` run from the freshly
initialised cache gives a miss, then a miss with an eviction, then a miss with an eviction:
the counters are (hits, misses, evictions) = (0, 1, 0), then (0, 2, 1), and finally
(0, 3, 2). -/
theorem C12_end_to_end_example :
    setIndex_of direct_par 0 = some 0 ∧ setIndex_of direct_par 8 = some 0 ∧
    input_tag_of direct_par 0 = some 0 ∧ input_tag_of direct_par 8 = some 2 ∧
    (run_trace (init_cache direct_par) (init_par direct_par) [some (load 0)]).map
      (fun r => (r.2.hit_count, r.2.miss_count, r.2.evict_count)) = some (0, 1, 0) ∧
    (run_trace (init_cache direct_par) (init_par direct_par)
      [some (load 0), some (load 8)]).map
      (fun r => (r.2.hit_count, r.2.miss_count, r.2.evict_count)) = some (0, 2, 1) ∧
    (run_trace (init_cache direct_par) (init_par direct_par)
      [some (load 0), some (load 8), some (load 0)]).map
      (fun r => (r.2.hit_count, r.2.miss_count, r.2.evict_count)) = some (0, 3, 2) := by
  decide

/-- C13 (the claim fails): with `s = 1`, `b = 1`, `E = 2`, the trace `L 0,1`, then a line on
which `fscanf` does not convert three items, then `L 4,1` ends with `miss_count = 1`: the
event after the malformed line is not simulated. The same trace without the malformed line
ends with `miss_count = 2`. -/
theorem C13_malformed_line_ends_run :
    (run_trace (init_cache demo_par) (init_par demo_par)
      [some (load 0), none, some (load 4)]).map
      (fun r => (r.2.hit_count, r.2.miss_count, r.2.evict_count)) = some (0, 1, 0) ∧
    (run_trace (init_cache demo_par) (init_par demo_par)
      [some (load 0), some (load 4)]).map
      (fun r => (r.2.hit_count, r.2.miss_count, r.2.evict_count)) = some (0, 2, 0) ∧
    run_trace (init_cache demo_par) (init_par demo_par) [some (load 0), none, some (load 4)] ≠
      run_trace (init_cache demo_par) (init_par demo_par) [some (load 0), some (load 4)] := by
  decide

/-- C13 (amended): a line on which `fscanf` does not convert three items ends the driver
loop: the events before it are simulated, neither it nor any later line affects the cache
or the counters, so the result is that of the trace cut just before the malformed line. -/
theorem C13_run_stops_at_malformed_line (cache_sim : cache) (par : cache_param_t)
    (before : List trace_event) (rest : List (Option trace_event)) :
    run_trace cache_sim par (before.map some ++ none :: rest) =
      run_trace cache_sim par (before.map some) := by
  induction before generalizing cache_sim par with
  | nil => rfl
  | cons ev evs ih =>
    simp only [List.map_cons, List.cons_append, run_trace]
    cases trace_step cache_sim par ev with
    | none => rfl
    | some r => exact ih r.1 r.2

/-- C14 (the code at the failing input): the invocation `csim -E 1 -b 1 -t traces/yi.trace`,
without `-s`, leaves `par.s = 0`; `main` prints the message and the usage text and the
process ends inside `printUsage`, by its `exit(0)`: the exit status is 0, a success status,
and the `exit(1)` that follows the call in `main` is never reached. -/
theorem C14_missing_argument_exits_zero :
    (main_start "csim" none
      [getopt_result.opt_E 1, getopt_result.opt_b 1,
        getopt_result.opt_t "traces/yi.trace"]).proc.exit_status = some 0 ∧
    (main_start "csim" none
      [getopt_result.opt_E 1, getopt_result.opt_b 1,
        getopt_result.opt_t "traces/yi.trace"]).proc.stdout.length = 12 ∧
    (main_start "csim" none
      [getopt_result.opt_E 1, getopt_result.opt_b 1,
        getopt_result.opt_t "traces/yi.trace"]).par.s = 0 := by
  decide

/-- C15 (the claim fails at `INT_MAX`): on `demo_cache_max`, whose set 0 holds tag 5 in slot 0
with `used_count = 2147483647`, the call of `simulate` on address 20 (set 0, tag 5) is a hit
on slot 0 and leaves that line with `used_count = -2147483648`: the `used_count` of the line
that is hit decreases. -/
theorem C15_used_count_decreases :
    config_ok demo_par ∧ cache_wf demo_cache_max demo_par ∧
    demo_cache_max.sets[0]? = some ⟨[⟨2147483647, 1, 5⟩, ⟨2, 1, 6⟩]⟩ ∧
    input_tag_of demo_par 20 = some 5 ∧ setIndex_of demo_par 20 = some 0 ∧
    simulate demo_cache_max demo_par 20 =
      some (⟨[⟨[⟨-2147483648, 1, 5⟩, ⟨2, 1, 6⟩]⟩, ⟨[⟨0, 0, 0⟩, ⟨0, 0, 0⟩]⟩]⟩,
        ⟨1, 1, 2, 0, 0, 1, 0, 0⟩) ∧
    (-2147483648 : Int) < 2147483647 := by
  decide

/-- C15 (amended): on a well-shaped cache `simulate` returns and rewrites one line, the one
hit or (re)installed, which is the line in an existing slot `k` of the target set `si`: that
line ends valid and with the tag of the address; every other line of the cache is unchanged;
no `valid` flag goes from non-zero to zero; and when every line of the target set has a
`used_count` below `INT_MAX`, no `used_count` of the cache decreases and the `used_count` of
the rewritten line strictly increases. -/
theorem C15_recency_monotone (cache_sim : cache) (par : cache_param_t) (a : Nat)
    (hcfg : config_ok par) (hwf : cache_wf cache_sim par) :
    ∃ (cache1 : cache) (par1 : cache_param_t) (si k : Nat) (set0 : cache_set) (l0 : set_line),
      simulate cache_sim par a = some (cache1, par1) ∧ setIndex_of par a = some si ∧
      cache_sim.sets[si]? = some set0 ∧ set0.lines[k]? = some l0 ∧
      ∀ (si2 j : Nat) (set : cache_set) (l : set_line), cache_sim.sets[si2]? = some set →
        set.lines[j]? = some l →
        ∃ (set1 : cache_set) (l1 : set_line), cache1.sets[si2]? = some set1 ∧
          set1.lines[j]? = some l1 ∧
          (l.valid ≠ 0 → l1.valid ≠ 0) ∧
          ((si2 = si ∧ j = k) → l1.valid ≠ 0 ∧ input_tag_of par a = some l1.tag) ∧
          (¬ (si2 = si ∧ j = k) → l1 = l) ∧
          ((∀ l2 ∈ set0.lines, below_max l2.used_count) →
            l.used_count ≤ l1.used_count ∧
            ((si2 = si ∧ j = k) → l.used_count < l1.used_count)) := by
  obtain ⟨tag, si, input_set, htag, hsi, hset, hlen⟩ := decode_total cache_sim par a hcfg hwf
  obtain ⟨k, l0, line1, par1, hkl, hsim, hv1, ht1, hlt, _⟩ :=
    simulate_set_written input_set par tag hcfg.2.2.2 hlen
  have hsilt : si < cache_sim.sets.length := (List.getElem?_eq_some_iff.mp hset).1
  have hklt : k < input_set.lines.length := (List.getElem?_eq_some_iff.mp hkl).1
  refine ⟨⟨cache_sim.sets.set si ⟨input_set.lines.set k line1⟩⟩, par1, si, k, input_set, l0,
    ?_, hsi, hset, hkl, ?_⟩
  · rw [simulate_of_set cache_sim par a tag si input_set htag hsi hset, hsim]
    rfl
  · intro si2 j set l hset2 hl
    by_cases h1 : si2 = si
    · subst h1
      rw [hset] at hset2
      cases hset2
      by_cases h2 : j = k
      · subst h2
        rw [hkl] at hl
        cases hl
        refine ⟨⟨input_set.lines.set j line1⟩, line1, by simp [hsilt], by simp [hklt],
          fun _ => hv1, fun _ => ⟨hv1, by rw [ht1]; exact htag⟩, fun h => ?_, fun hb => ?_⟩
        · exact absurd ⟨rfl, rfl⟩ h
        · have := hlt hb
          exact ⟨by omega, fun _ => this⟩
      · refine ⟨⟨input_set.lines.set k line1⟩, l, by simp [hsilt], ?_, fun h => h,
          fun h => absurd h.2 h2, fun _ => rfl, fun _ => ⟨le_refl _, fun h => absurd h.2 h2⟩⟩
        rw [List.getElem?_set_ne (Ne.symm h2)]
        exact hl
    · refine ⟨set, l, ?_, hl, fun h => h, fun h => absurd h.1 h1, fun _ => rfl,
        fun _ => ⟨le_refl _, fun h => absurd h.1 h1⟩⟩
      show (cache_sim.sets.set si _)[si2]? = some set
      rw [List.getElem?_set_ne (Ne.symm h1)]
      exact hset2

/-- C15 at a concrete input: the address 4 on `demo_cache_full`. -/
theorem C15_recency_monotone_witness :
    config_ok demo_par ∧ cache_wf demo_cache_full demo_par ∧
    ∃ (cache1 : cache) (par1 : cache_param_t) (si k : Nat) (set0 : cache_set) (l0 : set_line),
      simulate demo_cache_full demo_par 4 = some (cache1, par1) ∧
      setIndex_of demo_par 4 = some si ∧
      demo_cache_full.sets[si]? = some set0 ∧ set0.lines[k]? = some l0 ∧
      ∀ (si2 j : Nat) (set : cache_set) (l : set_line),
        demo_cache_full.sets[si2]? = some set → set.lines[j]? = some l →
        ∃ (set1 : cache_set) (l1 : set_line), cache1.sets[si2]? = some set1 ∧
          set1.lines[j]? = some l1 ∧
          (l.valid ≠ 0 → l1.valid ≠ 0) ∧
          ((si2 = si ∧ j = k) → l1.valid ≠ 0 ∧ input_tag_of demo_par 4 = some l1.tag) ∧
          (¬ (si2 = si ∧ j = k) → l1 = l) ∧
          ((∀ l2 ∈ set0.lines, below_max l2.used_count) →
            l.used_count ≤ l1.used_count ∧
            ((si2 = si ∧ j = k) → l.used_count < l1.used_count)) :=
  ⟨by decide, by decide, C15_recency_monotone demo_cache_full demo_par 4 (by decide) (by decide)⟩

/-- C17 (the claim fails at `INT_MAX`): on `demo_cache_max`, whose set 0 holds tag 5 in slot 0
with `used_count = 2147483647`, the call of `simulate` on address 20 (set 0, tag 5) is a hit
on slot 0 and leaves that line with `used_count = -2147483648`, not with
`used_count = 2147483648`: the `used_count` of the hit line is not increased by one. -/
theorem C17_hit_wraps_used_count :
    config_ok demo_par ∧ cache_wf demo_cache_max demo_par ∧
    demo_cache_max.sets[0]? = some ⟨[⟨2147483647, 1, 5⟩, ⟨2, 1, 6⟩]⟩ ∧
    input_tag_of demo_par 20 = some 5 ∧ setIndex_of demo_par 20 = some 0 ∧
    simulate demo_cache_max demo_par 20 =
      some (⟨[⟨[⟨-2147483648, 1, 5⟩, ⟨2, 1, 6⟩]⟩, ⟨[⟨0, 0, 0⟩, ⟨0, 0, 0⟩]⟩]⟩,
        ⟨1, 1, 2, 0, 0, 1, 0, 0⟩) ∧
    (-2147483648 : Int) ≠ 2147483647 + 1 := by
  decide

/-- C17 (amended): on a hit (some valid line of the target set holds the tag of the address),
`simulate` executes `line.used_count++` on the first such line, whatever the other counters
of the set are, and `par.hit_count++`, which adds exactly one to a `used_count` below
`INT_MAX` and exactly one to a `hit_count` below `INT_MAX`; the tag and the `valid` flag of
that line, every other line of the set, every other set, `miss_count` and `evict_count` are
unchanged. -/
theorem C17_hit_adds_one (cache_sim : cache) (par : cache_param_t) (a tag si : Nat)
    (input_set : cache_set) (hcfg : config_ok par) (hwf : cache_wf cache_sim par)
    (htag : input_tag_of par a = some tag) (hsi : setIndex_of par a = some si)
    (hset : cache_sim.sets[si]? = some input_set)
    (hhit : ∃ l ∈ input_set.lines, l.valid ≠ 0 ∧ l.tag = tag) :
    ∃ (k : Nat) (l : set_line) (cache1 : cache) (par1 : cache_param_t),
      input_set.lines[k]? = some l ∧ l.valid ≠ 0 ∧ l.tag = tag ∧
      (∀ (j : Nat) (l1 : set_line), j < k → input_set.lines[j]? = some l1 →
        ¬ (l1.valid ≠ 0 ∧ l1.tag = tag)) ∧
      simulate cache_sim par a = some (cache1, par1) ∧
      cache1 = ⟨cache_sim.sets.set si
        ⟨input_set.lines.set k ⟨int_succ l.used_count, l.valid, l.tag⟩⟩⟩ ∧
      par1 = { par with hit_count := int_succ par.hit_count } ∧
      (below_max l.used_count → int_succ l.used_count = l.used_count + 1) ∧
      (below_max par.hit_count → par1.hit_count = par.hit_count + 1) ∧
      par1.miss_count = par.miss_count ∧ par1.evict_count = par.evict_count ∧
      (∀ (si2 : Nat), si2 ≠ si → cache1.sets[si2]? = cache_sim.sets[si2]?) ∧
      (∃ set1 : cache_set, cache1.sets[si]? = some set1 ∧
        set1.lines[k]? = some ⟨int_succ l.used_count, l.valid, l.tag⟩ ∧
        ∀ (j : Nat), j ≠ k → set1.lines[j]? = input_set.lines[j]?) := by
  have hlen : (input_set.lines.length : Int) = par.E :=
    hwf.2 input_set (List.mem_iff_getElem?.mpr ⟨si, hset⟩)
  obtain ⟨l0, hl0, hv0, ht0⟩ := hhit
  obtain ⟨k0, hk0⟩ := List.mem_iff_getElem?.mp hl0
  have hsilt : si < cache_sim.sets.length := (List.getElem?_eq_some_iff.mp hset).1
  rcases simulate_set_cases input_set par tag hcfg.2.2.2 hlen with
    ⟨k, l, hkl, hv, ht, hbefore, hsim⟩ | ⟨hnone, _⟩ | ⟨hnone, _⟩
  · have hklt : k < input_set.lines.length := (List.getElem?_eq_some_iff.mp hkl).1
    refine ⟨k, l, _, _, hkl, hv, ht, hbefore, ?_, rfl, rfl, fun h => int_succ_eq _ h,
      fun h => int_succ_eq _ h, rfl, rfl, ?_, ?_⟩
    · rw [simulate_of_set cache_sim par a tag si input_set htag hsi hset, hsim]
      rfl
    · intro si2 hne
      show (cache_sim.sets.set si _)[si2]? = _
      rw [List.getElem?_set_ne (Ne.symm hne)]
    · refine ⟨⟨input_set.lines.set k ⟨int_succ l.used_count, l.valid, l.tag⟩⟩, by simp [hsilt],
        by simp [hklt], ?_⟩
      intro j hne
      show (input_set.lines.set k _)[j]? = _
      rw [List.getElem?_set_ne (Ne.symm hne)]
  · exact absurd ⟨hv0, ht0⟩ (hnone k0 l0 hk0)
  · exact absurd ⟨hv0, ht0⟩ (hnone k0 l0 hk0)

/-- C17 at a concrete input: the address 20 (set 0, tag 5) on `demo_cache_full`, a hit on
slot 0. -/
theorem C17_hit_adds_one_witness :
    config_ok demo_par ∧ cache_wf demo_cache_full demo_par ∧
    input_tag_of demo_par 20 = some 5 ∧ setIndex_of demo_par 20 = some 0 ∧
    demo_cache_full.sets[0]? = some ⟨[⟨2, 1, 5⟩, ⟨2, 1, 6⟩]⟩ ∧
    (∃ l ∈ [(⟨2, 1, 5⟩ : set_line), ⟨2, 1, 6⟩], l.valid ≠ 0 ∧ l.tag = 5) ∧
    ∃ (k : Nat) (l : set_line) (cache1 : cache) (par1 : cache_param_t),
      ([(⟨2, 1, 5⟩ : set_line), ⟨2, 1, 6⟩])[k]? = some l ∧ l.valid ≠ 0 ∧ l.tag = 5 ∧
      (∀ (j : Nat) (l1 : set_line), j < k →
        ([(⟨2, 1, 5⟩ : set_line), ⟨2, 1, 6⟩])[j]? = some l1 →
        ¬ (l1.valid ≠ 0 ∧ l1.tag = 5)) ∧
      simulate demo_cache_full demo_par 20 = some (cache1, par1) ∧
      cache1 = ⟨demo_cache_full.sets.set 0
        ⟨([(⟨2, 1, 5⟩ : set_line), ⟨2, 1, 6⟩]).set k ⟨int_succ l.used_count, l.valid, l.tag⟩⟩⟩ ∧
      par1 = { demo_par with hit_count := int_succ demo_par.hit_count } ∧
      (below_max l.used_count → int_succ l.used_count = l.used_count + 1) ∧
      (below_max demo_par.hit_count → par1.hit_count = demo_par.hit_count + 1) ∧
      par1.miss_count = demo_par.miss_count ∧ par1.evict_count = demo_par.evict_count ∧
      (∀ (si2 : Nat), si2 ≠ 0 → cache1.sets[si2]? = demo_cache_full.sets[si2]?) ∧
      (∃ set1 : cache_set, cache1.sets[0]? = some set1 ∧
        set1.lines[k]? = some ⟨int_succ l.used_count, l.valid, l.tag⟩ ∧
        ∀ (j : Nat), j ≠ k → set1.lines[j]? = ([(⟨2, 1, 5⟩ : set_line), ⟨2, 1, 6⟩])[j]?) :=
  ⟨by decide, by decide, by decide, by decide, by decide, by decide,
    C17_hit_adds_one demo_cache_full demo_par 20 5 0 ⟨[⟨2, 1, 5⟩, ⟨2, 1, 6⟩]⟩
      (by decide) (by decide) (by decide) (by decide) (by decide) (by decide)⟩

/-- C18 (the claim fails): with `s = 32`, `b = 32`, so `s + b = 64`, the tag computation of
`simulate` is `trace_address >> 64`, a shift of a 64-bit value by 64, which has no defined
result: the decode does not yield tag 0 for the address `0x100000005`, and `simulate` has no
defined result on it. -/
theorem C18_boundary_tag_undefined :
    input_tag_of ⟨32, 32, 1, 0, 0, 0, 0, 0⟩ 0x100000005 = none ∧
    input_tag_of ⟨32, 32, 1, 0, 0, 0, 0, 0⟩ 0x100000005 ≠ some 0 ∧
    setIndex_of ⟨32, 32, 1, 0, 0, 0, 0, 0⟩ 0x100000005 = some 1 ∧
    simulate ⟨[⟨[⟨0, 0, 0⟩]⟩, ⟨[⟨0, 0, 0⟩]⟩]⟩ ⟨32, 32, 1, 0, 0, 0, 0, 0⟩ 0x100000005 = none := by
  decide

/-- C18 (amended): at the boundary `s + b = 64` (`s > 0`, `b > 0`), for every 64-bit address
the set-index computation of `simulate` is defined and yields `address >> b`, but the tag
computation `trace_address >> (s + b)` is a shift by the full width of the type and has no
defined result, so `simulate` has no defined result there. -/
theorem C18_boundary_decode (par : cache_param_t) (a : Nat) (hs : 0 < par.s)
    (hb : 0 < par.b) (hsb : par.s + par.b = 64) (ha : a < 2 ^ 64) :
    setIndex_of par a = some (a >>> par.b.toNat) ∧ input_tag_of par a = none ∧
    ∀ cache_sim : cache, simulate cache_sim par a = none := by
  have htag : input_tag_of par a = none := by
    have h : ¬ (0 ≤ par.s + par.b ∧ par.s + par.b < 64) := by omega
    simp only [input_tag_of, shr64, if_neg h]
  refine ⟨?_, htag, fun cache_sim => by simp only [simulate, htag]⟩
  have h1 : 0 ≤ 64 - (par.s + par.b) ∧ 64 - (par.s + par.b) < 64 := ⟨by omega, by omega⟩
  have h2 : 0 ≤ 64 - (par.s + par.b) + par.b ∧ 64 - (par.s + par.b) + par.b < 64 :=
    ⟨by omega, by omega⟩
  have h3 : (64 - (par.s + par.b)).toNat = 0 := by omega
  have h4 : (64 - (par.s + par.b) + par.b).toNat = par.b.toNat := by omega
  simp only [setIndex_of, shl64, shr64, if_pos h1, if_pos h2, h3, h4, Nat.shiftLeft_zero,
    Nat.mod_eq_of_lt ha]

/-- C18 (amended) at a concrete input: `s = 32`, `b = 32` and the address `0x100000005`. -/
theorem C18_boundary_decode_witness :
    (0 : Int) < 32 ∧ (0 : Int) < 32 ∧ ((32 : Int) + 32 = 64) ∧ 0x100000005 < 2 ^ 64 ∧
    (setIndex_of ⟨32, 32, 1, 0, 0, 0, 0, 0⟩ 0x100000005 =
        some (0x100000005 >>> (32 : Int).toNat) ∧
      input_tag_of ⟨32, 32, 1, 0, 0, 0, 0, 0⟩ 0x100000005 = none ∧
      ∀ cache_sim : cache, simulate cache_sim ⟨32, 32, 1, 0, 0, 0, 0, 0⟩ 0x100000005 = none) :=
  ⟨by decide, by decide, by decide, by decide,
    C18_boundary_decode ⟨32, 32, 1, 0, 0, 0, 0, 0⟩ 0x100000005 (by decide) (by decide)
      (by decide) (by decide)⟩

/-- C19: for `s > 0`, `b > 0`, `s + b < 64`, `E ≥ 1`, every cache of `2^s` sets of `E` lines
and every address, every index `simulate` uses is in bounds: the set index is below `2^s` and
the fetch of the set succeeds; the scan and `find_least_line` read only existing slots (they
return); the index `find_least_line` returns is in `[0, E)`; when the scan ends with
`count_full` cleared, `find_empty_line` returns an index in `[0, E)`, not `-1`; and the whole
call returns. -/
theorem C19_index_safety (cache_sim : cache) (par : cache_param_t) (a : Nat)
    (hcfg : config_ok par) (hwf : cache_wf cache_sim par) :
    ∃ (tag si : Nat) (input_set : cache_set) (r : scan_result) (k : Nat) (lo hi : Int)
      (cache1 : cache) (par1 : cache_param_t),
      input_tag_of par a = some tag ∧ setIndex_of par a = some si ∧
      si < 2 ^ par.s.toNat ∧ cache_sim.sets[si]? = some input_set ∧
      (input_set.lines.length : Int) = par.E ∧
      simulate_scan input_set tag par.E.toNat 0 1 = some r ∧
      (∀ line_index : Nat, r = scan_result.hit line_index → (line_index : Int) < par.E) ∧
      find_least_line input_set par = some ((k : Int), lo, hi) ∧ (k : Int) < par.E ∧
      (r = scan_result.no_hit 0 →
        ∃ e : Nat, find_empty_line input_set par = some (e : Int) ∧ (e : Int) < par.E) ∧
      simulate cache_sim par a = some (cache1, par1) := by
  obtain ⟨tag, si, input_set, htag, hsi, hset, hlen⟩ := decode_total cache_sim par a hcfg hwf
  have hsilt : si < cache_sim.sets.length := (List.getElem?_eq_some_iff.mp hset).1
  have hE := hcfg.2.2.2
  obtain ⟨rl, lo, hi, hfl, hpost⟩ := find_least_line_spec input_set par hE hlen
  obtain ⟨k, l, hk, hkm, _⟩ := hpost
  obtain ⟨c1, p1, hsim, _⟩ := simulate_step cache_sim par a hcfg hwf
  have hscan := simulate_scan_spec input_set tag par.E.toNat 0 1 (by omega)
  rcases hscan with ⟨k1, l1, hr, _, hk1, _⟩ | ⟨cf, hr, _, hcf⟩
  · refine ⟨tag, si, input_set, scan_result.hit k1, k, lo, hi, c1, p1, htag, hsi,
      by rw [← hwf.1]; exact hsilt, hset, hlen, hr, ?_, hk ▸ hfl, by omega, ?_, hsim⟩
    · intro line_index hidx
      cases hidx
      omega
    · intro h
      cases h
  · refine ⟨tag, si, input_set, scan_result.no_hit cf, k, lo, hi, c1, p1, htag, hsi,
      by rw [← hwf.1]; exact hsilt, hset, hlen, hr, ?_, hk ▸ hfl, by omega, ?_, hsim⟩
    · intro line_index hidx
      cases hidx
    · intro h
      have hcf0 : cf = 0 := by
        cases h
        rfl
      rcases hcf with ⟨hc, _⟩ | ⟨_, j0, l0, _, _, hj0, hj0v⟩
      · omega
      · rcases find_empty_line_spec input_set par hlen with ⟨_, hall⟩ | ⟨e, le, hfe, he, _⟩
        · exact absurd hj0v (hall j0 l0 hj0)
        · exact ⟨e, hfe, he⟩

/-- C19 at a concrete input: the address 4 on `demo_cache`. -/
theorem C19_index_safety_witness :
    config_ok demo_par ∧ cache_wf demo_cache demo_par ∧
    ∃ (tag si : Nat) (input_set : cache_set) (r : scan_result) (k : Nat) (lo hi : Int)
      (cache1 : cache) (par1 : cache_param_t),
      input_tag_of demo_par 4 = some tag ∧ setIndex_of demo_par 4 = some si ∧
      si < 2 ^ demo_par.s.toNat ∧ demo_cache.sets[si]? = some input_set ∧
      (input_set.lines.length : Int) = demo_par.E ∧
      simulate_scan input_set tag demo_par.E.toNat 0 1 = some r ∧
      (∀ line_index : Nat, r = scan_result.hit line_index →
        (line_index : Int) < demo_par.E) ∧
      find_least_line input_set demo_par = some ((k : Int), lo, hi) ∧
      (k : Int) < demo_par.E ∧
      (r = scan_result.no_hit 0 →
        ∃ e : Nat, find_empty_line input_set demo_par = some (e : Int) ∧
          (e : Int) < demo_par.E) ∧
      simulate demo_cache demo_par 4 = some (cache1, par1) :=
  ⟨by decide, by decide, C19_index_safety demo_cache demo_par 4 (by decide) (by decide)⟩

/-- C20: in every cache state reached from the freshly initialised cache by a sequence of
`simulate` calls, the valid lines of each set hold pairwise distinct tags, and the valid lines
of each set occupy its first slots: a valid slot has only valid slots before it. For
`s ≤ 30` every such sequence of calls returns, so these states exist; for `s ≥ 31` the cache
has no set and no call returns. -/
theorem C20_no_duplicate_blocks (par : cache_param_t) (addrs : List Nat)
    (hcfg : config_ok par) :
    (∀ (cache1 : cache) (par1 : cache_param_t),
      simulate_all (init_cache par) (init_par par) addrs = some (cache1, par1) →
      ∀ (si : Nat) (set : cache_set), cache1.sets[si]? = some set →
        valid_tags_distinct set ∧ valid_slots_first set) ∧
    (par.s ≤ 30 → ∃ (cache1 : cache) (par1 : cache_param_t),
      simulate_all (init_cache par) (init_par par) addrs = some (cache1, par1)) := by
  have hsmall : par.s ≤ 30 → ∃ (cache1 : cache) (par1 : cache_param_t),
      simulate_all (init_cache par) (init_par par) addrs = some (cache1, par1) ∧
      ∀ (si : Nat) (set : cache_set), cache1.sets[si]? = some set →
        valid_tags_distinct set ∧ valid_slots_first set := by
    intro hs
    obtain ⟨c1, p1, hrun, _, hinv, hfirst⟩ := simulate_all_inv par addrs addrs
      (init_cache par) (init_par par) hcfg ⟨rfl, rfl, rfl⟩
      (init_cache_wf par (by have := hcfg.2.2.2; omega) (by have := hcfg.1; omega) hs)
      (init_cache_inv par addrs par) (init_cache_slots_first par) (fun _ h => h)
    exact ⟨c1, p1, hrun, fun si set hset => ⟨(hinv si set hset).1, hfirst si set hset⟩⟩
  constructor
  · intro cache1 par1 hrun si set hset
    by_cases hs : par.s ≤ 30
    · obtain ⟨c1, p1, hrun1, hall⟩ := hsmall hs
      rw [hrun] at hrun1
      cases hrun1
      exact hall si set hset
    · exfalso
      have hnil := init_cache_no_set par (by omega)
      cases addrs with
      | nil =>
        simp only [simulate_all, Option.some.injEq, Prod.mk.injEq] at hrun
        rw [← hrun.1, hnil] at hset
        simp at hset
      | cons a rest =>
        simp [simulate_all, simulate_no_set (init_cache par) (init_par par) a hnil] at hrun
  · intro hs
    obtain ⟨c1, p1, hrun, _⟩ := hsmall hs
    exact ⟨c1, p1, hrun⟩

/-- C20 at a concrete input: `s = 1`, `b = 1`, `E = 2` and the addresses 0, 4, 0, 8, 2. -/
theorem C20_no_duplicate_blocks_witness :
    config_ok demo_par ∧
    (∃ (cache1 : cache) (par1 : cache_param_t),
      simulate_all (init_cache demo_par) (init_par demo_par) [0, 4, 0, 8, 2] =
        some (cache1, par1)) ∧
    (∀ (cache1 : cache) (par1 : cache_param_t),
      simulate_all (init_cache demo_par) (init_par demo_par) [0, 4, 0, 8, 2] =
        some (cache1, par1) →
      ∀ (si : Nat) (set : cache_set), cache1.sets[si]? = some set →
        valid_tags_distinct set ∧ valid_slots_first set) :=
  ⟨by decide, (C20_no_duplicate_blocks demo_par [0, 4, 0, 8, 2] (by decide)).2 (by decide),
    (C20_no_duplicate_blocks demo_par [0, 4, 0, 8, 2] (by decide)).1⟩

end Csim

namespace Trans

/-! ## Loops -/

theorem for_loop_inv {σ : Type} (cond : Nat → Bool) (stop step : Nat) (hstep : 0 < step)
    (hcond : ∀ x, cond x = true ↔ x < stop) (body : Nat → σ → Option σ)
    (P : Nat → σ → Prop)
    (hbody : ∀ y s, y < stop → P y s → ∃ s1, body y s = some s1 ∧ P (y + step) s1) :
    ∀ (fuel x : Nat) (st : σ), 0 < fuel → stop < x + fuel → P x st →
      ∃ (x1 : Nat) (st1 : σ), for_loop cond step body fuel x st = some st1 ∧ P x1 st1 ∧
        stop ≤ x1 := by
  intro fuel
  induction fuel with
  | zero =>
    intro x st hpos
    omega
  | succ fuel ih =>
    intro x st _ hfuel hP
    by_cases hx : x < stop
    · obtain ⟨s1, hs1, hP1⟩ := hbody x st hx hP
      obtain ⟨x1, st1, hrun, hP2, hstop⟩ := ih (x + step) s1 (by omega) (by omega) hP1
      refine ⟨x1, st1, ?_, hP2, hstop⟩
      simp only [for_loop, (hcond x).mpr hx, if_true, hs1]
      exact hrun
    · refine ⟨x, st, ?_, hP, by omega⟩
      have hc : cond x = false := by
        cases h : cond x with
        | false => rfl
        | true => exact absurd ((hcond x).mp h) hx
      simp [for_loop, hc]

/-! ## Reads and writes -/

theorem row_of_shape (X : matrix) (R C r : Nat) (hs : X.shape = List.replicate R C)
    (hr : r < R) : ∃ row : List Int, X.data[r]? = some row ∧ row.length = C := by
  have h1 : X.shape[r]? = some C := by
    rw [hs]
    exact List.getElem?_replicate_of_lt hr
  simp only [matrix.shape, List.getElem?_map] at h1
  cases hrow : X.data[r]? with
  | none =>
    rw [hrow] at h1
    cases h1
  | some row =>
    rw [hrow] at h1
    exact ⟨row, rfl, Option.some.inj h1⟩

theorem read_of_shape (X : matrix) (R C r c : Nat) (hs : X.shape = List.replicate R C)
    (hr : r < R) (hc : c < C) : X.read r c = some (X.elem r c) := by
  obtain ⟨row, hrow, hlen⟩ := row_of_shape X R C r hs hr
  have hget : row[c]? = some row[c] := List.getElem?_eq_getElem (by omega)
  simp [matrix.elem, matrix.read, hrow, hget]

/-- A write inside the array succeeds, keeps the shape and changes the one entry. -/
theorem write_spec (X : matrix) (R C r c : Nat) (v : Int)
    (hs : X.shape = List.replicate R C) (hr : r < R) (hc : c < C) :
    ∃ X1 : matrix, X.write r c v = some X1 ∧ X1.shape = X.shape ∧
      ∀ r1 c1 : Nat, X1.elem r1 c1 = if r1 = r ∧ c1 = c then v else X.elem r1 c1 := by
  obtain ⟨row, hrow, hlen⟩ := row_of_shape X R C r hs hr
  have hrlt : r < X.data.length := (List.getElem?_eq_some_iff.mp hrow).1
  have hclt : c < row.length := by omega
  refine ⟨⟨X.data.set r (row.set c v)⟩, by simp [matrix.write, hrow, hclt], ?_, ?_⟩
  · apply List.ext_getElem?
    intro k
    simp only [matrix.shape, List.getElem?_map]
    by_cases hk : k = r
    · subst hk
      simp [List.getElem?_set_self hrlt, hrow]
    · rw [List.getElem?_set_ne (Ne.symm hk)]
  · intro r1 c1
    by_cases h1 : r1 = r
    · subst h1
      by_cases h2 : c1 = c
      · subst h2
        simp [matrix.elem, matrix.read, List.getElem?_set_self hrlt,
          List.getElem?_set_self hclt]
      · simp [matrix.elem, matrix.read, List.getElem?_set_self hrlt,
          List.getElem?_set_ne (Ne.symm h2), hrow, h2]
    · simp [matrix.elem, matrix.read, List.getElem?_set_ne (Ne.symm h1), h1]

theorem frame_refl (st : trans_state) : frame st st :=
  ⟨rfl, rfl, fun _ _ h => h⟩

theorem frame_trans (st0 st1 st2 : trans_state) (h1 : frame st0 st1) (h2 : frame st1 st2) :
    frame st0 st2 :=
  ⟨h2.1.trans h1.1, h2.2.1.trans h1.2.1, fun r c h => h2.2.2 r c (h1.2.2 r c h)⟩

theorem dims_of_frame (M N : Nat) (st0 st : trans_state) (hd : dims M N st0)
    (hf : frame st0 st) : dims M N st := by
  obtain ⟨hA, hB, _⟩ := hf
  unfold dims
  rw [hA, hB]
  exact hd

/-- A write to `B[r][c]` of the value `A[c][r]` keeps every transposed entry and makes the
entry `[r][c]` transposed. -/
theorem write_transposed (M N : Nat) (st : trans_state) (r c : Nat) (v : Int)
    (hd : dims M N st) (hr : r < M) (hc : c < N) (hv : v = st.A.elem c r) :
    ∃ B1 : matrix, st.B.write r c v = some B1 ∧ frame st { st with B := B1 } ∧
      ok { st with B := B1 } r c := by
  obtain ⟨B1, hw, hshape, helem⟩ := write_spec st.B M N r c v hd.2 hr hc
  refine ⟨B1, hw, ⟨rfl, hshape, ?_⟩, ?_⟩
  · intro r1 c1 hok
    unfold ok at hok ⊢
    show B1.elem r1 c1 = st.A.elem c1 r1
    rw [helem r1 c1]
    by_cases h : r1 = r ∧ c1 = c
    · rw [if_pos h, hv, h.1, h.2]
    · rw [if_neg h]
      exact hok
  · unfold ok
    show B1.elem r c = st.A.elem c r
    rw [helem r c, if_pos ⟨rfl, rfl⟩, hv]

theorem body_j_spec (M N : Nat) (i j : Nat) (st : trans_state) (hd : dims M N st)
    (hi : i < N) (hj : j < M) :
    ∃ st1 : trans_state, body_j i j st = some st1 ∧ frame st st1 ∧
      (i ≠ j → ok st1 j i ∧ st1.temp = st.temp ∧ st1.diag = st.diag) ∧
      (i = j → st1.temp = st.A.elem i i ∧ st1.diag = i) := by
  have hread : st.A.read i j = some (st.A.elem i j) := read_of_shape st.A N M i j hd.1 hi hj
  by_cases hij : i = j
  · subst hij
    refine ⟨{ st with temp := st.A.elem i i, diag := i }, by simp [body_j, hread],
      ⟨rfl, rfl, fun _ _ h => h⟩, fun h => absurd rfl h, fun _ => ⟨rfl, rfl⟩⟩
  · obtain ⟨B1, hw, hf, hok⟩ := write_transposed M N st j i (st.A.elem i j) hd hj hi rfl
    refine ⟨{ st with B := B1 }, by simp [body_j, hij, hread, hw], hf,
      fun _ => ⟨hok, rfl, rfl⟩, fun h => absurd h hij⟩

/-! ## The loop over `j` -/

theorem loop_j_spec (M N : Nat) (jcond : Nat → Bool) (jstop i bc fuel : Nat)
    (st0 : trans_state) (hjcond : ∀ j, jcond j = true ↔ j < jstop) (hd : dims M N st0)
    (hi : i < N) (hbc : bc ≤ jstop) (hjstop : jstop ≤ M) (hfuel : jstop < bc + fuel) :
    ∃ st1 : trans_state, for_loop jcond 1 (body_j i) fuel bc st0 = some st1 ∧
      frame st0 st1 ∧
      (∀ r, bc ≤ r → r < jstop → r ≠ i → ok st1 r i) ∧
      ((bc ≤ i ∧ i < jstop) → st1.temp = st0.A.elem i i ∧ st1.diag = i) ∧
      (¬ (bc ≤ i ∧ i < jstop) → st1.temp = st0.temp ∧ st1.diag = st0.diag) := by
  have hinv := for_loop_inv jcond jstop 1 (by omega) hjcond (body_j i)
    (fun j st => bc ≤ j ∧ j ≤ jstop ∧ frame st0 st ∧
      (∀ r, bc ≤ r → r < j → r ≠ i → ok st r i) ∧
      ((bc ≤ i ∧ i < j) → st.temp = st0.A.elem i i ∧ st.diag = i) ∧
      (¬ (bc ≤ i ∧ i < j) → st.temp = st0.temp ∧ st.diag = st0.diag))
    (by
      intro j st hj ⟨hbj, _, hf, hdone, hin, hout⟩
      obtain ⟨st1, hb, hf1, hne, heq⟩ :=
        body_j_spec M N i j st (dims_of_frame M N st0 st hd hf) hi (by omega)
      refine ⟨st1, hb, by omega, by omega, frame_trans st0 st st1 hf hf1, ?_, ?_, ?_⟩
      · intro r hr1 hr2 hri
        by_cases hrj : r = j
        · subst hrj
          exact (hne (Ne.symm hri)).1
        · exact hf1.2.2 r i (hdone r hr1 (by omega) hri)
      · intro hrange
        by_cases hij : i = j
        · have := heq hij
          rw [hf.1] at this
          exact this
        · have h1 := hne hij
          have h2 := hin ⟨hrange.1, by omega⟩
          exact ⟨h1.2.1.trans h2.1, h1.2.2.trans h2.2⟩
      · intro hrange
        have hij : i ≠ j := by
          intro h
          exact hrange ⟨by omega, by omega⟩
        have h1 := hne hij
        have h2 := hout (fun h => hrange ⟨h.1, by omega⟩)
        exact ⟨h1.2.1.trans h2.1, h1.2.2.trans h2.2⟩)
    fuel bc st0 (by omega) (by omega)
    ⟨le_refl _, hbc, frame_refl st0, fun r h1 h2 => by omega, fun h => by omega,
      fun _ => ⟨rfl, rfl⟩⟩
  obtain ⟨x1, st1, hrun, ⟨_, hx1, hf, hdone, hin, hout⟩, hstop⟩ := hinv
  have hx : x1 = jstop := by omega
  subst hx
  exact ⟨st1, hrun, hf, hdone, hin, hout⟩

/-! ## The loop over `i` -/

theorem body_i_spec (M N bs : Nat) (jcond : Nat → Nat → Bool) (jstop br bc i : Nat)
    (st0 : trans_state) (hjcond : ∀ j, jcond bc j = true ↔ j < jstop) (hd : dims M N st0)
    (hi : i < N) (hbc : bc ≤ jstop) (hjstop : jstop ≤ M) (hjbs : jstop ≤ bc + bs)
    (hdiag : br = bc → (bc ≤ i ∧ i < jstop) ∨ diag_ready M N st0)
    (hoff : br ≠ bc → ¬ (bc ≤ i ∧ i < jstop)) :
    ∃ st1 : trans_state, body_i bs jcond br bc i st0 = some st1 ∧ frame st0 st1 ∧
      (∀ r, bc ≤ r → r < jstop → ok st1 r i) ∧ (br = bc → diag_ready M N st1) := by
  obtain ⟨st4, hrun, hf, hdone, hin, hout⟩ :=
    loop_j_spec M N (jcond bc) jstop i bc (bs + 1) st0 hjcond hd hi hbc hjstop (by omega)
  have hd4 := dims_of_frame M N st0 st4 hd hf
  by_cases hb : br = bc
  · have hready : diag_ready M N st4 := by
      by_cases hrange : bc ≤ i ∧ i < jstop
      · obtain ⟨ht, hdg⟩ := hin hrange
        refine ⟨?_, ?_, ?_⟩
        · rw [ht, hdg, hf.1]
        · rw [hdg]
          omega
        · rw [hdg]
          exact hi
      · obtain ⟨ht, hdg⟩ := hout hrange
        rcases hdiag hb with h | h
        · exact absurd h hrange
        · obtain ⟨h1, h2, h3⟩ := h
          refine ⟨?_, ?_, ?_⟩
          · rw [ht, hdg, hf.1]
            exact h1
          · rw [hdg]
            exact h2
          · rw [hdg]
            exact h3
    obtain ⟨B1, hw, hf1, hok⟩ :=
      write_transposed M N st4 st4.diag st4.diag st4.temp hd4 hready.2.1 hready.2.2 hready.1
    refine ⟨{ st4 with B := B1 }, by simp [body_i, hrun, hb, hw],
      frame_trans st0 st4 _ hf hf1, ?_, fun _ => ?_⟩
    · intro r hr1 hr2
      by_cases hri : r = i
      · subst hri
        have hdg := (hin ⟨hr1, hr2⟩).2
        rw [hdg] at hok
        exact hok
      · exact hf1.2.2 r i (hdone r hr1 hr2 hri)
    · exact ⟨hready.1, hready.2.1, hready.2.2⟩
  · refine ⟨st4, by simp [body_i, hrun, hb], hf, ?_, fun h => absurd h hb⟩
    intro r hr1 hr2
    have hri : r ≠ i := by
      intro h
      subst h
      exact hoff hb ⟨hr1, hr2⟩
    exact hdone r hr1 hr2 hri

theorem loop_i_spec (M N bs : Nat) (icond jcond : Nat → Nat → Bool) (istop jstop br bc : Nat)
    (st0 : trans_state) (hicond : ∀ i, icond br i = true ↔ i < istop)
    (hjcond : ∀ j, jcond bc j = true ↔ j < jstop) (hd : dims M N st0)
    (hbr : br ≤ istop) (histop : istop ≤ N) (hibs : istop ≤ br + bs)
    (hbc : bc ≤ jstop) (hjstop : jstop ≤ M) (hjbs : jstop ≤ bc + bs)
    (hdiag : br = bc → bc < jstop)
    (hoff : br ≠ bc → ∀ i, br ≤ i → i < istop → ¬ (bc ≤ i ∧ i < jstop)) :
    ∃ st1 : trans_state,
      for_loop (icond br) 1 (body_i bs jcond br bc) (bs + 1) br st0 = some st1 ∧
      frame st0 st1 ∧
      ∀ c, br ≤ c → c < istop → ∀ r, bc ≤ r → r < jstop → ok st1 r c := by
  have hinv := for_loop_inv (icond br) istop 1 (by omega) hicond (body_i bs jcond br bc)
    (fun i st => br ≤ i ∧ i ≤ istop ∧ frame st0 st ∧
      (∀ c, br ≤ c → c < i → ∀ r, bc ≤ r → r < jstop → ok st r c) ∧
      (br = bc → i = br ∨ diag_ready M N st))
    (by
      intro i st hi ⟨hbi, _, hf, hdone, hdg⟩
      obtain ⟨st1, hb, hf1, hrow, hready⟩ :=
        body_i_spec M N bs jcond jstop br bc i st (hjcond) (dims_of_frame M N st0 st hd hf)
          (by omega) hbc hjstop hjbs
          (by
            intro hb
            rcases hdg hb with h | h
            · left
              have := hdiag hb
              omega
            · right
              exact h)
          (fun hb => hoff hb i hbi hi)
      refine ⟨st1, hb, by omega, by omega, frame_trans st0 st st1 hf hf1, ?_,
        fun hb => Or.inr (hready hb)⟩
      intro c hc1 hc2 r hr1 hr2
      by_cases hci : c = i
      · subst hci
        exact hrow r hr1 hr2
      · exact hf1.2.2 r c (hdone c hc1 (by omega) r hr1 hr2))
    (bs + 1) br st0 (by omega) (by omega)
    ⟨le_refl _, hbr, frame_refl st0, fun c h1 h2 => by omega, fun _ => Or.inl rfl⟩
  obtain ⟨x1, st1, hrun, ⟨_, hx1, hf, hdone, _⟩, hstop⟩ := hinv
  have hx : x1 = istop := by omega
  subst hx
  exact ⟨st1, hrun, hf, hdone⟩

/-! ## The loops over the blocks -/

theorem blocks_disjoint (bs br bc : Nat) (hbr : bs ∣ br) (hbc : bs ∣ bc) (hne : br ≠ bc) :
    br + bs ≤ bc ∨ bc + bs ≤ br := by
  obtain ⟨x, hx⟩ := hbr
  obtain ⟨y, hy⟩ := hbc
  subst hx
  subst hy
  have hxy : x ≠ y := fun h => hne (by rw [h])
  rcases Nat.lt_or_gt_of_ne hxy with h | h
  · left
    have := Nat.mul_le_mul_left bs (Nat.succ_le_of_lt h)
    rw [Nat.mul_succ] at this
    exact this
  · right
    have := Nat.mul_le_mul_left bs (Nat.succ_le_of_lt h)
    rw [Nat.mul_succ] at this
    exact this

theorem loop_row_spec (M N bs rstop : Nat) (icond jcond : Nat → Nat → Bool)
    (istop : Nat → Nat) (jstop bc : Nat) (st0 : trans_state) (hbs : 0 < bs)
    (hicond : ∀ br i, icond br i = true ↔ i < istop br)
    (hjcond : ∀ j, jcond bc j = true ↔ j < jstop) (hd : dims M N st0) (hr : N ≤ rstop)
    (hi : ∀ br, bs ∣ br → br < rstop →
      br ≤ istop br ∧ istop br ≤ N ∧ istop br ≤ br + bs ∧ min (br + bs) N ≤ istop br)
    (hdvd : bs ∣ bc) (hbc : bc < jstop) (hjstop : jstop ≤ M) (hjbs : jstop ≤ bc + bs) :
    ∃ st1 : trans_state,
      for_loop (fun block_row => decide (block_row < rstop)) bs
        (fun block_row st2 =>
          for_loop (icond block_row) 1 (body_i bs jcond block_row bc) (bs + 1) block_row st2)
        (rstop + 1) 0 st0 = some st1 ∧
      frame st0 st1 ∧ ∀ c, c < N → ∀ r, bc ≤ r → r < jstop → ok st1 r c := by
  have hinv := for_loop_inv (fun block_row => decide (block_row < rstop)) rstop bs hbs
    (by intro x; simp)
    (fun block_row st2 =>
      for_loop (icond block_row) 1 (body_i bs jcond block_row bc) (bs + 1) block_row st2)
    (fun br st => bs ∣ br ∧ frame st0 st ∧
      (∀ c, c < br → c < N → ∀ r, bc ≤ r → r < jstop → ok st r c))
    (by
      intro br st hbr ⟨hdv, hf, hdone⟩
      obtain ⟨h1, h2, h3, h4⟩ := hi br hdv hbr
      obtain ⟨st1, hrun, hf1, hrows⟩ :=
        loop_i_spec M N bs icond jcond (istop br) jstop br bc st (hicond br) hjcond
          (dims_of_frame M N st0 st hd hf) h1 h2 h3 (by omega) hjstop hjbs (fun _ => hbc)
          (by
            intro hne i hi1 hi2 hrange
            rcases blocks_disjoint bs br bc hdv hdvd hne with h | h
            · omega
            · omega)
      refine ⟨st1, hrun, Dvd.dvd.add hdv (dvd_refl bs), frame_trans st0 st st1 hf hf1, ?_⟩
      intro c hc1 hc2 r hr1 hr2
      by_cases hcb : c < br
      · exact hf1.2.2 r c (hdone c hcb hc2 r hr1 hr2)
      · exact hrows c (by omega) (by omega) r hr1 hr2)
    (rstop + 1) 0 st0 (by omega) (by omega)
    ⟨dvd_zero bs, frame_refl st0, fun c h => by omega⟩
  obtain ⟨x1, st1, hrun, ⟨_, hf, hdone⟩, hstop⟩ := hinv
  exact ⟨st1, hrun, hf, fun c hc r hr1 hr2 => hdone c (by omega) hc r hr1 hr2⟩

/-- A loop nest whose blocks cover the rows and columns transposes `A` into `B`. -/
theorem trans_blocks_spec (M N bs cstop rstop : Nat) (icond jcond : Nat → Nat → Bool)
    (istop jstop : Nat → Nat) (st0 : trans_state) (hbs : 0 < bs)
    (hicond : ∀ br i, icond br i = true ↔ i < istop br)
    (hjcond : ∀ bc j, jcond bc j = true ↔ j < jstop bc) (hd : dims M N st0)
    (hc : M ≤ cstop) (hr : N ≤ rstop)
    (hi : ∀ br, bs ∣ br → br < rstop →
      br ≤ istop br ∧ istop br ≤ N ∧ istop br ≤ br + bs ∧ min (br + bs) N ≤ istop br)
    (hj : ∀ bc, bs ∣ bc → bc < cstop →
      bc < jstop bc ∧ jstop bc ≤ M ∧ jstop bc ≤ bc + bs ∧ min (bc + bs) M ≤ jstop bc) :
    ∃ st1 : trans_state, trans_blocks bs cstop rstop icond jcond st0 = some st1 ∧
      frame st0 st1 ∧ ∀ r c, r < M → c < N → ok st1 r c := by
  have hinv := for_loop_inv (fun block_col => decide (block_col < cstop)) cstop bs hbs
    (by intro x; simp)
    (fun block_col st1 =>
      for_loop (fun block_row => decide (block_row < rstop)) bs
        (fun block_row st2 =>
          for_loop (icond block_row) 1 (body_i bs jcond block_row block_col) (bs + 1)
            block_row st2)
        (rstop + 1) 0 st1)
    (fun bc st => bs ∣ bc ∧ frame st0 st ∧
      (∀ r, r < bc → r < M → ∀ c, c < N → ok st r c))
    (by
      intro bc st hbc ⟨hdv, hf, hdone⟩
      obtain ⟨h1, h2, h3, h4⟩ := hj bc hdv hbc
      obtain ⟨st1, hrun, hf1, hrows⟩ :=
        loop_row_spec M N bs rstop icond jcond istop (jstop bc) bc st hbs hicond (hjcond bc)
          (dims_of_frame M N st0 st hd hf) hr hi hdv h1 h2 h3
      refine ⟨st1, hrun, Dvd.dvd.add hdv (dvd_refl bs), frame_trans st0 st st1 hf hf1, ?_⟩
      intro r hr1 hr2 c hc1
      by_cases hrb : r < bc
      · exact hf1.2.2 r c (hdone r hrb hr2 c hc1)
      · exact hrows c hc1 r (by omega) (by omega))
    (cstop + 1) 0 st0 (by omega) (by omega)
    ⟨dvd_zero bs, frame_refl st0, fun r h => by omega⟩
  obtain ⟨x1, st1, hrun, ⟨_, hf, hdone⟩, hstop⟩ := hinv
  exact ⟨st1, hrun, hf, fun r c hr hc => hdone r (by omega) hr c hc⟩

/-! ## `is_transpose` -/

theorem is_transpose_inner_spec (M N : Nat) (A B : matrix) (i : Nat)
    (hA : A.shape = List.replicate N M) (hB : B.shape = List.replicate M N) (hi : i < N)
    (heq : ∀ j, j < M → B.elem j i = A.elem i j) :
    ∀ n j : Nat, j + n ≤ M → is_transpose_inner A B i n j = some none := by
  intro n
  induction n with
  | zero =>
    intro j _
    rfl
  | succ n ih =>
    intro j hj
    have hjM : j < M := by omega
    have hra : A.read i j = some (A.elem i j) := read_of_shape A N M i j hA hi hjM
    have hrb : B.read j i = some (B.elem j i) := read_of_shape B M N j i hB hjM hi
    simp only [is_transpose_inner, hra, hrb, heq j hjM, ne_eq, not_true_eq_false, if_false]
    exact ih (j + 1) (by omega)

theorem is_transpose_spec (M N : Nat) (A B : matrix) (hA : A.shape = List.replicate N M)
    (hB : B.shape = List.replicate M N)
    (heq : ∀ i j, i < N → j < M → B.elem j i = A.elem i j) :
    is_transpose M N A B = some 1 := by
  have houter : ∀ n i : Nat, i + n ≤ N → is_transpose_outer M A B n i = some 1 := by
    intro n
    induction n with
    | zero =>
      intro i _
      rfl
    | succ n ih =>
      intro i hi
      have hinner := is_transpose_inner_spec M N A B i hA hB (by omega)
        (fun j hj => heq i j (by omega) hj) M 0 (by omega)
      simp only [is_transpose_outer, hinner]
      exact ih (i + 1) (by omega)
  exact houter N 0 (by omega)

/-! ## The claim on `transpose_submit` -/

/-- C16: for each of the sizes `(M, N) = (32, 32)`, `(64, 64)` and `(61, 67)`, every `N x M`
array `A` and every `M x N` array `B` held separately from it, `transpose_submit` returns;
afterwards `B[j][i] = A[i][j]` for all `0 ≤ i < N` and `0 ≤ j < M`, the diagonal entries
included, `is_transpose(M, N, A, B)` returns 1, and `A` is unchanged. -/
theorem C16_transpose_submit_correct (M N : Nat) (A B : matrix)
    (hsize : (M = 32 ∧ N = 32) ∨ (M = 64 ∧ N = 64) ∨ (M = 61 ∧ N = 67))
    (hA : A.shape = List.replicate N M) (hB : B.shape = List.replicate M N) :
    ∃ st1 : trans_state, transpose_submit M N ⟨A, B, 0, 0⟩ = some st1 ∧ st1.A = A ∧
      st1.B.shape = List.replicate M N ∧
      (∀ i j, i < N → j < M → ∃ v : Int, A.read i j = some v ∧ st1.B.read j i = some v) ∧
      is_transpose M N st1.A st1.B = some 1 := by
  have hd : dims M N ⟨A, B, 0, 0⟩ := ⟨hA, hB⟩
  have hfinish : ∀ st1 : trans_state, frame ⟨A, B, 0, 0⟩ st1 →
      (∀ r c, r < M → c < N → ok st1 r c) →
      st1.A = A ∧ st1.B.shape = List.replicate M N ∧
      (∀ i j, i < N → j < M → ∃ v : Int, A.read i j = some v ∧ st1.B.read j i = some v) ∧
      is_transpose M N st1.A st1.B = some 1 := by
    intro st1 hf hok
    have hd1 := dims_of_frame M N _ st1 hd hf
    have heq : ∀ i j, i < N → j < M → st1.B.elem j i = st1.A.elem i j :=
      fun i j hi hj => hok j i hj hi
    refine ⟨hf.1, hd1.2, ?_, is_transpose_spec M N st1.A st1.B hd1.1 hd1.2 heq⟩
    intro i j hi hj
    refine ⟨A.elem i j, read_of_shape A N M i j hA hi hj, ?_⟩
    rw [read_of_shape st1.B M N j i hd1.2 hj hi, heq i j hi hj, hf.1]
  rcases hsize with ⟨hM, hN⟩ | ⟨hM, hN⟩ | ⟨hM, hN⟩
  · subst hM
    subst hN
    obtain ⟨st1, hrun, hf, hok⟩ := trans_blocks_spec 32 32 8 32 32
      (fun block_row i => decide (i < block_row + 8))
      (fun block_col j => decide (j < block_col + 8))
      (fun br => br + 8) (fun bc => bc + 8) ⟨A, B, 0, 0⟩ (by omega)
      (by intro br i; simp) (by intro bc j; simp) hd (le_refl _) (le_refl _)
      (by intro br hdv hlt; simp only; omega) (by intro bc hdv hlt; simp only; omega)
    refine ⟨st1, ?_, hfinish st1 hf hok⟩
    simp [transpose_submit, hrun]
  · subst hM
    subst hN
    obtain ⟨st1, hrun, hf, hok⟩ := trans_blocks_spec 64 64 4 64 64
      (fun block_row i => decide (i < block_row + 4))
      (fun block_col j => decide (j < block_col + 4))
      (fun br => br + 4) (fun bc => bc + 4) ⟨A, B, 0, 0⟩ (by omega)
      (by intro br i; simp) (by intro bc j; simp) hd (le_refl _) (le_refl _)
      (by intro br hdv hlt; simp only; omega) (by intro bc hdv hlt; simp only; omega)
    refine ⟨st1, ?_, hfinish st1 hf hok⟩
    simp [transpose_submit, hrun]
  · subst hM
    subst hN
    obtain ⟨st1, hrun, hf, hok⟩ := trans_blocks_spec 61 67 16 61 67
      (fun block_row i => decide (i < block_row + 16) && decide (i < 67))
      (fun block_col j => decide (j < block_col + 16) && decide (j < 61))
      (fun br => min (br + 16) 67) (fun bc => min (bc + 16) 61) ⟨A, B, 0, 0⟩ (by omega)
      (by intro br i; simp) (by intro bc j; simp) hd (le_refl _) (le_refl _)
      (by intro br hdv hlt; simp only; omega) (by intro bc hdv hlt; simp only; omega)
    refine ⟨st1, ?_, hfinish st1 hf hok⟩
    simp [transpose_submit, hrun]

/-- C16 at a concrete input: `M = 61`, `N = 67`, `A[i][j] = 100 * i + j` and `B` zeroed. -/
theorem C16_transpose_submit_correct_witness :
    ((61 = 32 ∧ 67 = 32) ∨ (61 = 64 ∧ 67 = 64) ∨ (61 = 61 ∧ 67 = 67)) ∧
    (demo_matrix 67 61).shape = List.replicate 67 61 ∧
    (zero_matrix 61 67).shape = List.replicate 61 67 ∧
    ∃ st1 : trans_state,
      transpose_submit 61 67 ⟨demo_matrix 67 61, zero_matrix 61 67, 0, 0⟩ = some st1 ∧
      st1.A = demo_matrix 67 61 ∧ st1.B.shape = List.replicate 61 67 ∧
      (∀ i j, i < 67 → j < 61 →
        ∃ v : Int, (demo_matrix 67 61).read i j = some v ∧ st1.B.read j i = some v) ∧
      is_transpose 61 67 st1.A st1.B = some 1 :=
  ⟨by decide, by decide, by decide,
    C16_transpose_submit_correct 61 67 (demo_matrix 67 61) (zero_matrix 61 67) (by decide)
      (by decide) (by decide)⟩

end Trans
